import Mathlib

/-!
# VITA-49 (VRT/VRL) codec of gr-pico: a shallow embedding

The definitions below transcribe `src/lib/vita49.cpp` / `src/lib/vita49.hpp`.

Conventions of the embedding

* A pointer `const boost::uint32_t *p` is the list of the 32-bit words stored
  from `p` onwards; `p + k` is `List.drop k`, and `p[i]` is `rd p i`.
* `size_t` is the 64-bit unsigned type: subtraction and multiplication on
  `size_t` values are written with an explicit `% SIZE_MOD` where the source
  can wrap.
* The bit-fields of `VRTHeader`, `VRTClassID` and `VRLFrameInfo` are read with
  the little-endian layout of the source. The big-endian branch declares the
  fields of `VRTHeader` in the mirrored order, which gives the same bit
  positions in the header word.
* `throw` is `Except.error`; the two exception classes used by the codec are
  `std::runtime_error` and `index_error` (which derives from `std::exception`
  only).
* Loops carry a fuel argument and answer `none` when it runs out; the totality
  theorems show that the fuel the callers supply is always enough.
-/

namespace Vita49

/-! ## Machine model -/

/-- Modulus of `size_t` arithmetic. -/
def SIZE_MOD : Nat := 2 ^ 64

/-- Modulus of `boost::uint32_t`. -/
def WORD_MOD : Nat := 2 ^ 32

/-- The word `p[i]` of a `const boost::uint32_t *p`. Words beyond the modelled
memory read as `0`. -/
def rd (p : List Nat) (i : Nat) : Nat := p.getD i 0 % WORD_MOD

/-- The exceptions thrown by the codec. -/
inductive Exn where
  | runtime_error
  | index_error
  deriving DecidableEq, Repr

deriving instance DecidableEq for Except

/-! ## `VRTHeader` bit-fields -/

/-- Bit-field `VRTHeader::packet_size : 16`. -/
def hdr_packet_size (h : Nat) : Nat := h % 2 ^ 16
/-- Bit-field `VRTHeader::packet_count : 4`. -/
def hdr_packet_count (h : Nat) : Nat := h / 2 ^ 16 % 2 ^ 4
/-- Bit-field `VRTHeader::tsf : 2`. -/
def hdr_tsf (h : Nat) : Nat := h / 2 ^ 20 % 2 ^ 2
/-- Bit-field `VRTHeader::tsi : 2`. -/
def hdr_tsi (h : Nat) : Nat := h / 2 ^ 22 % 2 ^ 2
/-- Bit-field `VRTHeader::tsm : 1`. -/
def hdr_tsm (h : Nat) : Nat := h / 2 ^ 24 % 2
/-- Bit-field `VRTHeader::rsvd : 1`. -/
def hdr_rsvd (h : Nat) : Nat := h / 2 ^ 25 % 2
/-- Bit-field `VRTHeader::t : 1`. -/
def hdr_t (h : Nat) : Nat := h / 2 ^ 26 % 2
/-- Bit-field `VRTHeader::c : 1`. -/
def hdr_c (h : Nat) : Nat := h / 2 ^ 27 % 2
/-- Bit-field `VRTHeader::packet_type : 4`. -/
def hdr_packet_type (h : Nat) : Nat := h / 2 ^ 28 % 2 ^ 4

/-! ## Enumerations of `vita49.hpp` -/

def PT_IF_DATA_NO_IDENT : Nat := 0
def PT_IF_DATA : Nat := 1
def PT_EXTENSION_DATA_NO_IDENT : Nat := 2
def PT_EXTENSION_DATA : Nat := 3
def PT_IF_CONTEXT : Nat := 4
def PT_EXTENSION_CONTEXT : Nat := 5
def PT_MIN : Nat := PT_IF_DATA_NO_IDENT
def PT_MAX : Nat := PT_EXTENSION_CONTEXT

def TSI_NONE : Nat := 0
def TSI_UTC : Nat := 1
def TSI_GPS : Nat := 2
def TSI_OTHER : Nat := 3

def TSF_NONE : Nat := 0

/-- The private `enum VS49_FIELD` of `VRTPacketImpl`. -/
inductive VS49_FIELD where
  | STREAM_ID
  | CLASS_ID
  | TSI
  | TSF
  | PAYLOAD
  | TRAILER
  deriving DecidableEq, Repr

/-- The `struct class_identifier` of `VRTPacket`. -/
structure class_identifier where
  organization_id : Nat
  info_class_code : Nat
  packet_class_code : Nat
  deriving DecidableEq, Repr

/-! ## `VRTPacketImpl` -/

/-- A parsed packet: the object keeps `m_packet_data`; `m_header` points at its
first word. -/
structure VRTPacketImpl where
  m_packet_data : List Nat
  deriving DecidableEq, Repr

namespace VRTPacketImpl

/-- The header word `*m_header`. -/
def m_header (p : VRTPacketImpl) : Nat := rd p.m_packet_data 0

def get_packet_type (p : VRTPacketImpl) : Nat := hdr_packet_type p.m_header

def get_packet_count (p : VRTPacketImpl) : Nat := hdr_packet_count p.m_header

def get_packet_size (p : VRTPacketImpl) : Nat := hdr_packet_size p.m_header

def has_stream_id (p : VRTPacketImpl) : Bool :=
  let pt := p.get_packet_type
  if pt = PT_IF_DATA ∨ pt = PT_EXTENSION_DATA ∨
     pt = PT_IF_CONTEXT ∨ pt = PT_EXTENSION_CONTEXT then true else false

def has_class_id (p : VRTPacketImpl) : Bool := hdr_c p.m_header = 1

def get_integer_timestamp_type (p : VRTPacketImpl) : Nat :=
  let tsi := hdr_tsi p.m_header
  if tsi = TSI_NONE ∨ tsi = TSI_UTC ∨ tsi = TSI_GPS ∨ tsi = TSI_OTHER then tsi
  else TSI_NONE

def get_fractional_timestamp_type (p : VRTPacketImpl) : Nat := hdr_tsf p.m_header

def has_trailer (p : VRTPacketImpl) : Bool :=
  let pt := p.get_packet_type
  if pt = PT_IF_CONTEXT ∨ pt = PT_EXTENSION_CONTEXT then false
  else hdr_t p.m_header = 1

/-- The word offset of a field. `packet_size - 1` is computed in `int` and
stored in a `size_t`, so a zero `packet_size` gives `SIZE_MOD - 1`. -/
def get_field_offset (p : VRTPacketImpl) (field : VS49_FIELD) : Nat :=
  let offset := 1
  if field = VS49_FIELD.TRAILER then
    (hdr_packet_size p.m_header + SIZE_MOD - 1) % SIZE_MOD
  else if field ≠ VS49_FIELD.STREAM_ID then
    let offset := if p.has_stream_id = true then offset + 1 else offset
    if field ≠ VS49_FIELD.CLASS_ID then
      let offset := if p.has_class_id = true then offset + 2 else offset
      if field ≠ VS49_FIELD.TSI then
        let offset :=
          if p.get_integer_timestamp_type ≠ TSI_NONE then offset + 1 else offset
        if field ≠ VS49_FIELD.TSF then
          if p.get_fractional_timestamp_type ≠ TSF_NONE then offset + 2 else offset
        else offset
      else offset
    else offset
  else offset

def get_stream_id (p : VRTPacketImpl) : Except Exn Nat :=
  if p.has_stream_id ≠ true then Except.error Exn.runtime_error
  else
    let sid_offset := p.get_field_offset VS49_FIELD.STREAM_ID
    Except.ok (rd p.m_packet_data sid_offset)

/-- The 64-bit `VRTClassID` overlays the words `cid_offset` (low half) and
`cid_offset + 1` (high half). -/
def get_class_id (p : VRTPacketImpl) : Except Exn class_identifier :=
  if p.has_class_id ≠ true then Except.error Exn.runtime_error
  else
    let cid_offset := p.get_field_offset VS49_FIELD.CLASS_ID
    let cid := rd p.m_packet_data cid_offset + rd p.m_packet_data (cid_offset + 1) * 2 ^ 32
    Except.ok
      { organization_id := cid / 2 ^ 32 % 2 ^ 24
        info_class_code := cid / 2 ^ 16 % 2 ^ 16
        packet_class_code := cid % 2 ^ 16 }

def get_timestamp_mode (p : VRTPacketImpl) : Except Exn Nat :=
  let pt := p.get_packet_type
  if pt = PT_IF_CONTEXT ∨ pt = PT_EXTENSION_CONTEXT then Except.ok (hdr_tsm p.m_header)
  else Except.error Exn.runtime_error

def get_integer_timestamp (p : VRTPacketImpl) : Except Exn Nat :=
  let tsi := p.get_integer_timestamp_type
  if tsi = TSI_NONE then Except.error Exn.runtime_error
  else
    let tsi_offset := p.get_field_offset VS49_FIELD.TSI
    Except.ok (rd p.m_packet_data tsi_offset)

def get_fractional_timestamp (p : VRTPacketImpl) : Except Exn Nat :=
  let tsf := p.get_fractional_timestamp_type
  if tsf = TSF_NONE then Except.error Exn.runtime_error
  else
    let tsf_offset := p.get_field_offset VS49_FIELD.TSF
    Except.ok (rd p.m_packet_data tsf_offset * 2 ^ 32 + rd p.m_packet_data (tsf_offset + 1))

/-- All three steps are `size_t` operations. -/
def get_payload_size (p : VRTPacketImpl) : Nat :=
  let size := hdr_packet_size p.m_header
  let size := (size + SIZE_MOD - p.get_field_offset VS49_FIELD.PAYLOAD) % SIZE_MOD
  let size := if p.has_trailer = true then (size + SIZE_MOD - 1) % SIZE_MOD else size
  size * 4 % SIZE_MOD

def get_trailer (p : VRTPacketImpl) : Except Exn Nat :=
  if p.has_trailer ≠ true then Except.error Exn.runtime_error
  else
    let trailer_offset := p.get_field_offset VS49_FIELD.TRAILER
    Except.ok (rd p.m_packet_data trailer_offset)

/-- The pointer `&m_packet_data[payload_offset]`. -/
def get_payload (p : VRTPacketImpl) : List Nat :=
  let payload_offset := p.get_field_offset VS49_FIELD.PAYLOAD
  p.m_packet_data.drop payload_offset

end VRTPacketImpl

/-- The constructor `VRTPacketImpl::VRTPacketImpl(packet_data, size)`, reached
through `VRTPacket::parse`; `size` is in bytes. -/
def VRTPacket.parse (packet_data : List Nat) (size : Nat) : Except Exn VRTPacketImpl :=
  let m_header := rd packet_data 0
  let pt := hdr_packet_type m_header
  if pt < PT_MIN ∨ pt > PT_MAX then Except.error Exn.runtime_error
  else if hdr_packet_size m_header > size / 4 then Except.error Exn.index_error
  else Except.ok { m_packet_data := packet_data }

/-! ## `VRLFrameImpl` -/

/-- The frame alignment word "VRLP". -/
def FAW_VRLP : Nat := 0x56524C50
/-- The frame alignment word "VS49" of the SI-8649A. -/
def FAW_VS49 : Nat := 0x56533439
/-- The frame trailer "VEND". -/
def VEND : Nat := 0x56454E44

/-- A parsed frame: `m_frame_data` points at the alignment word, `m_frame_info`
at the word after it, `m_packets` holds the packets in parse order. -/
structure VRLFrameImpl where
  m_frame_data : List Nat
  m_packets : List VRTPacketImpl
  deriving DecidableEq, Repr

namespace VRLFrameImpl

/-- The word `*m_frame_info`, i.e. `m_frame_data[1]`. -/
def m_frame_info (f : VRLFrameImpl) : Nat := rd f.m_frame_data 1

/-- Bit-field `VRLFrameInfo::frame_count : 12`, the high bits of the info word. -/
def get_frame_count (f : VRLFrameImpl) : Nat := f.m_frame_info / 2 ^ 20 % 2 ^ 12

def get_alignment_word (f : VRLFrameImpl) : Nat := rd f.m_frame_data 0

/-- Bit-field `VRLFrameInfo::frame_size : 20`, the low bits of the info word. -/
def get_frame_size (f : VRLFrameImpl) : Nat := f.m_frame_info % 2 ^ 20

/-- The frame trailer word; `get_frame_size() - 1` is a `boost::uint32_t`
subtraction. -/
def get_trailer (f : VRLFrameImpl) : Nat :=
  let trailer_offset := (f.get_frame_size + WORD_MOD - 1) % WORD_MOD
  rd f.m_frame_data trailer_offset

/-- The packet `m_packets.at(index)`; `none` stands for the `std::out_of_range`
of `std::vector::at`. -/
def get_packet (f : VRLFrameImpl) (index : Nat) : Option VRTPacketImpl :=
  f.m_packets.get? index

def get_num_packets (f : VRLFrameImpl) : Nat := f.m_packets.length

end VRLFrameImpl

/-- The alignment scan `while (size >= 20 && m_frame_data[0] != VRLP &&
m_frame_data[0] != VS49) { m_frame_data++; size -= 4; }`. The moving pointer
`m_frame_data` is represented by its word distance `k` from `frame_data`.
Returns the final `(k, size)`. -/
def scan_alignment : Nat → List Nat → Nat → Nat → Option (Nat × Nat)
  | 0, _, _, _ => none
  | fuel + 1, frame_data, k, size =>
    if size ≥ 4 * 5 ∧ rd frame_data k ≠ FAW_VRLP ∧ rd frame_data k ≠ FAW_VS49 then
      scan_alignment fuel frame_data (k + 1) (size - 4)
    else some (k, size)

/-- The packet walk `do { ... } while ((packet_offset + 1) < frame_size)` of
the frame constructor. `buffer_remaining` and the byte count handed to
`VRTPacket::parse` are `size_t` values. -/
def parse_packets : Nat → List Nat → Nat → Nat → List VRTPacketImpl →
    Option (Except Exn (List VRTPacketImpl))
  | 0, _, _, _, _ => none
  | fuel + 1, m_frame_data, frame_size, packet_offset, m_packets =>
    let buffer_remaining := (frame_size + SIZE_MOD - packet_offset - 1) % SIZE_MOD
    match VRTPacket.parse (m_frame_data.drop packet_offset) (buffer_remaining * 4 % SIZE_MOD) with
    | Except.error e => some (Except.error e)
    | Except.ok packet =>
      if packet.get_packet_size = 0 then some (Except.ok m_packets)
      else
        let m_packets := m_packets ++ [packet]
        let packet_offset := packet_offset + packet.get_packet_size
        if packet_offset + 1 < frame_size then
          parse_packets fuel m_frame_data frame_size packet_offset m_packets
        else some (Except.ok m_packets)

/-- What a call of `VRLFrame::parse(frame_data, size, &index)` leaves behind:
the value stored through `index` (`none` when the constructor threw before the
store) and the frame or the exception. -/
structure ParseOutcome where
  index : Option Nat
  result : Except Exn VRLFrameImpl
  deriving DecidableEq

/-- The constructor `VRLFrameImpl::VRLFrameImpl(frame_data, size, index)`,
reached through `VRLFrame::parse`, called with a non-null `index`; `size` is in
bytes. The read of `m_frame_data[frame_size - 1]` guards an empty block and is
left out. -/
def VRLFrame.parse (frame_data : List Nat) (size : Nat) : Option ParseOutcome :=
  if size < 4 * 5 then some ⟨none, Except.error Exn.index_error⟩
  else
    match scan_alignment (size / 4 + 1) frame_data 0 size with
    | none => none
    | some (k, size) =>
      let m_frame_data := frame_data.drop k
      let index := some k
      if size < 4 * 5 then some ⟨index, Except.error Exn.runtime_error⟩
      else
        let frame_size := rd m_frame_data 1 % 2 ^ 20
        if frame_size > size / 4 then some ⟨index, Except.error Exn.index_error⟩
        else
          match parse_packets (frame_size + 1) m_frame_data frame_size 2 [] with
          | none => none
          | some (Except.error e) => some ⟨index, Except.error e⟩
          | some (Except.ok m_packets) =>
            some ⟨index, Except.ok { m_frame_data := m_frame_data, m_packets := m_packets }⟩

/-! ## Reference definitions taken from the specification -/

/-- The field layout table of the specification (section 3), as integers:
stream-id at 1, class-id at `1+s`, integer timestamp at `1+s+2c`, fractional
timestamp at `1+s+2c+i`, payload at `1+s+2c+i+2f`, trailer at
`packet_size-1`, for presence flags `s c i f`. -/
def layout_offset (s c i f : Bool) (packet_size : Nat) : VS49_FIELD → Int
  | VS49_FIELD.STREAM_ID => 1
  | VS49_FIELD.CLASS_ID => 1 + s.toNat
  | VS49_FIELD.TSI => 1 + s.toNat + 2 * c.toNat
  | VS49_FIELD.TSF => 1 + s.toNat + 2 * c.toNat + i.toNat
  | VS49_FIELD.PAYLOAD => 1 + s.toNat + 2 * c.toNat + i.toNat + 2 * f.toNat
  | VS49_FIELD.TRAILER => (packet_size : Int) - 1

/-- The payload size formula of the specification (section 4.1), as an integer:
`(packet_size - offset-of-payload - (1 if trailer present else 0)) * 4`. -/
def spec_payload_size (packet_size payload_offset : Nat) (trailer_present : Bool) : Int :=
  ((packet_size : Int) - (payload_offset : Int) - (trailer_present.toNat : Int)) * 4

/-! ### Reference encoder

A hand-written encoder of packets and frames, following the data model of the
specification (section 3): the header bit layout, the fixed order of the
optional fields, and the frame made of alignment word, info word, packets and
trailer word. It is the reference that the decoder is compared against. -/

/-- The field values of one packet: the input of the reference encoder. -/
structure PacketFields where
  packet_type : Nat
  packet_count : Nat
  tsm : Nat
  rsvd : Nat
  tsi : Nat
  tsf : Nat
  stream_id : Option Nat
  class_id : Option class_identifier
  integer_timestamp : Option Nat
  fractional_timestamp : Option Nat
  payload : List Nat
  trailer : Option Nat
  deriving DecidableEq, Repr

/-- The two words of a class identifier, in the layout of `VRTClassID`: info
and packet class codes in the first, the organization id in the low 24 bits of
the second. -/
def class_id_words : Option class_identifier → List Nat
  | none => []
  | some cid => [cid.info_class_code * 2 ^ 16 + cid.packet_class_code, cid.organization_id]

/-- The two words of a fractional timestamp, most significant first. -/
def fractional_words : Option Nat → List Nat
  | none => []
  | some ts => [ts / 2 ^ 32, ts % 2 ^ 32]

/-- The optional fields that precede the payload, in their fixed order. -/
def encode_fields (f : PacketFields) : List Nat :=
  f.stream_id.toList ++ (class_id_words f.class_id ++
    (f.integer_timestamp.toList ++ fractional_words f.fractional_timestamp))

/-- Everything that follows the header word. -/
def encode_body (f : PacketFields) : List Nat :=
  encode_fields f ++ (f.payload ++ f.trailer.toList)

/-- The size in words of the encoded packet, header included. -/
def encoded_size (f : PacketFields) : Nat := 1 + (encode_body f).length

/-- The header word: packet_type (4 bits), class-id flag, trailer flag,
reserved bit, timestamp mode, tsi (2), tsf (2), packet_count (4),
packet_size (16). -/
def encode_header (f : PacketFields) : Nat :=
  f.packet_type * 2 ^ 28 + (if f.class_id.isSome then 1 else 0) * 2 ^ 27 +
  (if f.trailer.isSome then 1 else 0) * 2 ^ 26 + f.rsvd * 2 ^ 25 + f.tsm * 2 ^ 24 +
  f.tsi * 2 ^ 22 + f.tsf * 2 ^ 20 + f.packet_count * 2 ^ 16 + encoded_size f

/-- The words of one packet. -/
def encode_packet (f : PacketFields) : List Nat := encode_header f :: encode_body f

/-- A well-formed packet: a known type, every field within its width, the
optional fields present exactly as the header will say, and a size that fits
16 bits. -/
def well_formed (f : PacketFields) : Prop :=
  f.packet_type ≤ 5 ∧ f.packet_count < 2 ^ 4 ∧ f.tsm < 2 ∧ f.rsvd < 2 ∧
  f.tsi < 2 ^ 2 ∧ f.tsf < 2 ^ 2 ∧
  (f.stream_id.isSome = true ↔
    (f.packet_type = 1 ∨ f.packet_type = 3 ∨ f.packet_type = 4 ∨ f.packet_type = 5)) ∧
  (f.integer_timestamp.isSome = true ↔ f.tsi ≠ 0) ∧
  (f.fractional_timestamp.isSome = true ↔ f.tsf ≠ 0) ∧
  (f.trailer.isSome = true → f.packet_type ≤ 3) ∧
  f.stream_id.getD 0 < 2 ^ 32 ∧
  (f.class_id.getD ⟨0, 0, 0⟩).organization_id < 2 ^ 24 ∧
  (f.class_id.getD ⟨0, 0, 0⟩).info_class_code < 2 ^ 16 ∧
  (f.class_id.getD ⟨0, 0, 0⟩).packet_class_code < 2 ^ 16 ∧
  f.integer_timestamp.getD 0 < 2 ^ 32 ∧
  f.fractional_timestamp.getD 0 < 2 ^ 64 ∧
  (∀ w ∈ f.payload, w < 2 ^ 32) ∧
  f.trailer.getD 0 < 2 ^ 32 ∧
  encoded_size f < 2 ^ 16

instance (f : PacketFields) : Decidable (well_formed f) := by
  unfold well_formed
  infer_instance

/-- The words of all the packets of a frame, in order. -/
def encode_packets (fs : List PacketFields) : List Nat := (fs.map encode_packet).flatten

/-- The frame size in words: alignment word, info word, packets, trailer. -/
def encoded_frame_size (fs : List PacketFields) : Nat := 3 + (encode_packets fs).length

/-- The words of a frame: alignment word, info word (frame_count in the high
12 bits, frame_size in the low 20), the packets, the trailer word. -/
def encode_frame (faw frame_count : Nat) (fs : List PacketFields) (trailer : Nat) :
    List Nat :=
  faw :: (frame_count * 2 ^ 20 + encoded_frame_size fs) :: (encode_packets fs ++ [trailer])

/-- Everything the accessors of a packet can report. -/
structure PacketView where
  packet_type : Nat
  packet_count : Nat
  packet_size : Nat
  stream_id : Except Exn Nat
  class_id : Except Exn class_identifier
  timestamp_mode : Except Exn Nat
  integer_timestamp_type : Nat
  integer_timestamp : Except Exn Nat
  fractional_timestamp_type : Nat
  fractional_timestamp : Except Exn Nat
  payload_size : Nat
  payload : List Nat
  trailer : Except Exn Nat
  deriving DecidableEq, Repr

/-- An absent field is reported by `std::runtime_error`. -/
def field_result {α : Type} : Option α → Except Exn α
  | none => Except.error Exn.runtime_error
  | some v => Except.ok v

/-- What the accessors are expected to report for an encoded packet. -/
def PacketFields.view (f : PacketFields) : PacketView :=
  { packet_type := f.packet_type
    packet_count := f.packet_count
    packet_size := encoded_size f
    stream_id := field_result f.stream_id
    class_id := field_result f.class_id
    timestamp_mode :=
      if f.packet_type = 4 ∨ f.packet_type = 5 then Except.ok f.tsm
      else Except.error Exn.runtime_error
    integer_timestamp_type := f.tsi
    integer_timestamp := field_result f.integer_timestamp
    fractional_timestamp_type := f.tsf
    fractional_timestamp := field_result f.fractional_timestamp
    payload_size := 4 * f.payload.length
    payload := f.payload
    trailer := field_result f.trailer }

/-- What the accessors of a parsed packet do report; the payload is read as
`get_payload_size / 4` words from `get_payload`. -/
def VRTPacketImpl.view (p : VRTPacketImpl) : PacketView :=
  { packet_type := p.get_packet_type
    packet_count := p.get_packet_count
    packet_size := p.get_packet_size
    stream_id := p.get_stream_id
    class_id := p.get_class_id
    timestamp_mode := p.get_timestamp_mode
    integer_timestamp_type := p.get_integer_timestamp_type
    integer_timestamp := p.get_integer_timestamp
    fractional_timestamp_type := p.get_fractional_timestamp_type
    fractional_timestamp := p.get_fractional_timestamp
    payload_size := p.get_payload_size
    payload := p.get_payload.take (p.get_payload_size / 4)
    trailer := p.get_trailer }

/-- The packet objects of a walk over back-to-back packets `pkts` followed by
`tail`: each one points at its own first word. -/
def suffix_packets : List (List Nat) → List Nat → List VRTPacketImpl
  | [], _ => []
  | pkt :: rest, tail =>
    { m_packet_data := pkt ++ (rest.flatten ++ tail) } :: suffix_packets rest tail

/-- A sample IF-data packet (type 1) with every optional field and a trailer. -/
def sample_if_data : PacketFields :=
  { packet_type := 1, packet_count := 5, tsm := 0, rsvd := 0, tsi := 1, tsf := 2
    stream_id := some 1
    class_id := some { organization_id := 0x123456, info_class_code := 0x9A,
                       packet_class_code := 0xBC }
    integer_timestamp := some 77
    fractional_timestamp := some 0x1122334455667788
    payload := [0x4000C000, 0x4000C000]
    trailer := some 99 }

/-- A sample IF-context packet (type 4) with a stream id only. -/
def sample_if_context : PacketFields :=
  { packet_type := 4, packet_count := 6, tsm := 1, rsvd := 0, tsi := 0, tsf := 0
    stream_id := some 2
    class_id := none
    integer_timestamp := none
    fractional_timestamp := none
    payload := [1, 2, 3]
    trailer := none }

end Vita49

/-! ## `complex_manager`: constants and per-channel state

The definitions below transcribe `src/lib/complex_manager.h` and
`src/lib/complex_manager.cpp`.

Conventions of the embedding

* `int` members are integers; where the source mixes `int` with `size_t` or
  `boost::uint32_t` the conversions are written out (`to_size_t`, `to_uint32`,
  `to_int`).
* `std::complex<float>` is a pair of rationals: the only float operations of
  the source are the conversion of a 16-bit integer and the division by
  `32768.0f`, both exact in single precision.
* The macro `NUM_STREAMS` is the length of the array `m_mang`; the functions
  take it from the list that models the array, so that they describe the
  program for every value of the macro (the source sets it to 1).
* A buffer `std::complex<float> *` is a function from sample index to sample.
* The members written by another thread (`m_request_flip`,
  `m_update_valid_streams`) are fields of the state; what the other thread does
  while one thread waits is a parameter of the waiting function.
-/

namespace Pico

open Vita49

def NUM_COMPLEX : Nat := 20000000
def NUM_STREAMS : Nat := 1
def NUM_THREADS : Nat := 1
def NUM_RECURSIVE : Int := 10
def MAX_FRAME_COUNT : Int := 4095
def MAX_PACKET_COUNT : Int := 15

/-- The macro `IQ_SCALE_FACTOR` (`32768.0f`). -/
def IQ_SCALE_FACTOR : ℚ := 32768

/-- A `std::complex<float>`: real and imaginary part. -/
abbrev Sample : Type := ℚ × ℚ

/-- Conversion of an `int` to `size_t`. -/
def to_size_t (x : Int) : Nat := (x % (SIZE_MOD : Int)).toNat

/-- Conversion of an `int` to `boost::uint32_t`. -/
def to_uint32 (x : Int) : Nat := (x % (WORD_MOD : Int)).toNat

/-- Conversion of an unsigned value to `int` (two's complement, 32 bits). -/
def to_int (x : Nat) : Int :=
  if x % 2 ^ 32 < 2 ^ 31 then ((x % 2 ^ 32 : Nat) : Int) else ((x % 2 ^ 32 : Nat) : Int) - 2 ^ 32

/-- The cast `(boost::int16_t)` of an unsigned value. -/
def to_int16 (x : Nat) : Int :=
  if x % 2 ^ 16 < 2 ^ 15 then ((x % 2 ^ 16 : Nat) : Int) else ((x % 2 ^ 16 : Nat) : Int) - 2 ^ 16

/-- The operator `!` on an `int` used as an index. -/
def lnot (x : Nat) : Nat := if x = 0 then 1 else 0

/-- Element `a[i]` of a two-element array. -/
def at2 {α : Type} (a : α × α) (i : Nat) : α := if i = 0 then a.1 else a.2

/-- The array `a` after `a[i] = v`. -/
def set2 {α : Type} (a : α × α) (i : Nat) (v : α) : α × α :=
  if i = 0 then (v, a.2) else (a.1, v)

/-- The `struct buffer_manager` of `complex_manager`. -/
structure buffer_manager where
  out_buff : (Nat → Sample) × (Nat → Sample)
  out_pointer : Nat
  out_count : Int × Int
  last_count : Int
  read_index : Int × Int
  tuner_valid_safe : Bool
  tuner_valid : Bool
  flip : Bool

namespace buffer_manager

/-- The method `get_active_buffer(write_index)`: the index of the active buffer
in `out_buff`, and the value stored through `write_index`. -/
def get_active_buffer (bm : buffer_manager) : Nat × Nat :=
  (bm.out_pointer, to_uint32 (at2 bm.out_count bm.out_pointer))

/-- The method `get_read_buffer()`: the sample `k` places after
`&out_buff[!out_pointer][read_index[!out_pointer]]`. -/
def get_read_buffer (bm : buffer_manager) (k : Nat) : Sample :=
  at2 bm.out_buff (lnot bm.out_pointer)
    ((at2 bm.read_index (lnot bm.out_pointer)).toNat + k)

end buffer_manager

/-- The members of `complex_manager` that the demultiplexer and the consumer
share. -/
structure complex_manager where
  m_mang : List buffer_manager
  m_last_frame_count : Int
  m_overflow_buffer : List Nat
  m_amnt_saved : Int
  m_request_flip : Bool
  m_update_valid_streams : Bool
  m_safety_count : Int

/-- The state of one channel left by the constructor. -/
def initial_buffer_manager : buffer_manager :=
  { out_buff := (fun _ => (0, 0), fun _ => (0, 0))
    out_pointer := 0
    out_count := (0, 0)
    last_count := -1
    read_index := (0, 0)
    tuner_valid_safe := false
    tuner_valid := false
    flip := false }

/-- The state left by the constructor `complex_manager::complex_manager`, for
`n` streams and an Overflow Staging array of `udp_start_index` bytes. -/
def initial_state (n udp_start_index : Nat) : complex_manager :=
  { m_mang := List.replicate n initial_buffer_manager
    m_last_frame_count := -1
    m_overflow_buffer := List.replicate udp_start_index 0
    m_amnt_saved := 0
    m_request_flip := false
    m_update_valid_streams := false
    m_safety_count := 0 }

/-! ## Reconfiguration and flip -/

/-- The body of the outer loop of `update_tuners` for channel `i`. -/
def update_tuner_flag (tuners : List Int) (i : Nat) (bm : buffer_manager) : buffer_manager :=
  { bm with tuner_valid_safe := tuners.any (fun t => decide (((i : Int) + 1) = t)) }

/-- The method `update_tuners(tuners, n)` up to its wait: `tuners` is the array
`tuners[0..n)`. -/
def update_tuners (st : complex_manager) (tuners : List Int) : complex_manager :=
  { st with
    m_mang := st.m_mang.enum.map (fun ib => update_tuner_flag tuners ib.1 ib.2)
    m_update_valid_streams := true }

/-- The body of the loop of `handle_update` for one channel. -/
def update_channel (bm : buffer_manager) : buffer_manager :=
  { bm with
    tuner_valid := bm.tuner_valid_safe
    out_count := (0, 0)
    last_count := -1
    read_index := (0, 0)
    out_pointer := 0 }

/-- The method `handle_update()`. -/
def handle_update (m_mang : List buffer_manager) : List buffer_manager :=
  m_mang.map update_channel

/-- The body of the loop of `handle_flip` for one channel. -/
def flip_channel (bm : buffer_manager) : buffer_manager :=
  if bm.tuner_valid = true ∧ bm.flip = true then
    let out_pointer := lnot bm.out_pointer
    { bm with
      out_pointer := out_pointer
      out_count := set2 bm.out_count out_pointer 0
      read_index := (0, 0)
      flip := false }
  else bm

/-- The method `handle_flip()`. -/
def handle_flip (m_mang : List buffer_manager) : List buffer_manager :=
  m_mang.map flip_channel

end Pico

namespace Pico

open Vita49

/-! ## Packets: admission and conversion -/

/-- What the demultiplexer hands to a worker: `m_packet_buffer[t]`,
`m_sample_count[t]`, `m_target_buffer[t]` (as channel and buffer index) and
`m_start_index[t]`. -/
structure Job where
  m_packet_buffer : List Nat
  m_sample_count : Nat
  target_channel : Nat
  target_buffer : Nat
  m_start_index : Nat
  deriving DecidableEq, Repr

/-- The ways the body of the packet loop of `operator()` can end for one
packet. `out_of_bounds` is the access to `m_mang[stream_id]` past the end of
the array. -/
inductive PacketOutcome where
  | not_data
  | threw (e : Exn)
  | invalid_stream_id
  | out_of_bounds
  | not_valid
  | deferred
  | admitted (m_mang : List buffer_manager) (loss : Bool) (job : Job)

/-- The packet counter check: the value of `expected` that is compared
with `got`. -/
def expected_count (last_count got : Int) : Int :=
  let expected := last_count
  let expected := expected + 1
  if expected = 0 then got
  else if expected > MAX_PACKET_COUNT then 0
  else expected

/-- The body of the packet loop of `operator()` for one packet, from the type
test to the hand-over to the worker (there is one worker and the loop waits
until it is idle). -/
def handle_packet (m_mang : List buffer_manager) (packet : VRTPacketImpl) : PacketOutcome :=
  if packet.get_packet_type ≠ 1 then PacketOutcome.not_data
  else
    match packet.get_stream_id with
    | Except.error e => PacketOutcome.threw e
    | Except.ok sid =>
      let stream_id : Int := ((sid % 256 : Nat) : Int)
      if stream_id < 0 ∨ stream_id > (m_mang.length : Int) then PacketOutcome.invalid_stream_id
      else
        match m_mang.get? stream_id.toNat with
        | none => PacketOutcome.out_of_bounds
        | some bm =>
          if bm.tuner_valid ≠ true then PacketOutcome.not_valid
          else
            let samples := packet.get_payload_size / 4
            if (to_size_t (at2 bm.out_count bm.out_pointer) + samples) % SIZE_MOD ≥ NUM_COMPLEX
            then PacketOutcome.deferred
            else
              let got : Int := (packet.get_packet_count : Int)
              let expected := expected_count bm.last_count got
              let bm := { bm with last_count := got }
              let loss := decide (expected ≠ got)
              let job : Job :=
                { m_packet_buffer := packet.get_payload
                  m_sample_count := samples % WORD_MOD
                  target_channel := stream_id.toNat
                  target_buffer := bm.get_active_buffer.1
                  m_start_index := bm.get_active_buffer.2 }
              let bm := { bm with
                out_count := (set2 bm.out_count bm.out_pointer
                  (to_int ((to_size_t (at2 bm.out_count bm.out_pointer) + samples) % SIZE_MOD))) }
              PacketOutcome.admitted (m_mang.set stream_id.toNat bm) loss job

/-- The conversion of one payload word in `process_packet`: the high and the
low half as `boost::int16_t`, each divided by `IQ_SCALE_FACTOR`. -/
def convert_word (flipped : Nat) : Sample :=
  let left_original := to_int16 ((flipped % WORD_MOD) / 2 ^ 16)
  let right_original := to_int16 ((flipped % WORD_MOD) % 2 ^ 16)
  ((left_original : ℚ) / IQ_SCALE_FACTOR, (right_original : ℚ) / IQ_SCALE_FACTOR)

/-- The method `process_packet(i)` on the target buffer. The loop bound
`start + m_sample_count[i]` is converted to `int`, the index
`m_start_index[i] + j - start` is a `boost::uint32_t`. -/
def process_packet (job : Job) (target : Nat → Sample) : Nat → Sample :=
  let end_index := to_int job.m_sample_count
  (List.range end_index.toNat).foldl
    (fun t j => Function.update t ((job.m_start_index + j) % WORD_MOD)
      (convert_word (rd job.m_packet_buffer j)))
    target

/-- The worker runs `process_packet` on the buffer it was given. -/
def run_job (m_mang : List buffer_manager) (job : Job) : List buffer_manager :=
  match m_mang.get? job.target_channel with
  | none => m_mang
  | some bm =>
    m_mang.set job.target_channel
      { bm with out_buff := (set2 bm.out_buff job.target_buffer
          (process_packet job (at2 bm.out_buff job.target_buffer))) }

/-! ## `fill_buffers` -/

/-- The body of the first loop of `fill_buffers` for one channel: the new
channel state and the new `min`. -/
def scan_channel (bm : buffer_manager) (min : Int) : buffer_manager × Int :=
  let bm := { bm with flip := false }
  if at2 bm.out_count (lnot bm.out_pointer) ≤ min ∧ bm.tuner_valid = true then
    let min := at2 bm.out_count (lnot bm.out_pointer)
    if min = 0 then ({ bm with flip := true }, min) else (bm, min)
  else (bm, min)

/-- The first loop of `fill_buffers`. -/
def scan_min : List buffer_manager → Int → List buffer_manager × Int
  | [], min => ([], min)
  | bm :: rest, min =>
    let r := scan_channel bm min
    let rs := scan_min rest r.2
    (r.1 :: rs.1, rs.2)

/-- The loop of `fill_buffers` that fills `targets`: `buffs[i]` goes to
`targets[tuners[i] - 1]` when `0 < tuners[i] <= NUM_STREAMS`. A pointer is a
number, `0` is `NULL`. -/
def set_targets : List (Nat × Int) → List Nat → List Nat
  | [], targets => targets
  | (buff, tuner) :: rest, targets =>
    if tuner ≤ (targets.length : Int) ∧ tuner > 0 then
      set_targets rest (targets.set (tuner - 1).toNat buff)
    else set_targets rest targets

/-- The size `sizeof(std::complex<float>)`, two 4-byte floats. -/
def SIZEOF_COMPLEX_FLOAT : Nat := 8

/-- The local `int cpy_amnt = min * sizeof(std::complex<float>)` of
`fill_buffers`: the product is a `size_t` and is stored in an `int`. -/
def cpy_amnt (min : Int) : Int :=
  to_int ((to_size_t min * SIZEOF_COMPLEX_FLOAT) % SIZE_MOD)

/-- The number of samples in the bytes that `memcpy(targets[i],
get_read_buffer(), cpy_amnt)` copies: `cpy_amnt` is converted to the `size_t`
parameter of `memcpy`. -/
def copied_samples (min : Int) : Nat := to_size_t (cpy_amnt min) / SIZEOF_COMPLEX_FLOAT

/-- The body of the copy loop of `fill_buffers` for one channel: the new
channel state and, when the channel has a target, the target pointer with the
samples that `memcpy` puts there. -/
def copy_channel (min : Int) (bm : buffer_manager) (target : Nat) :
    buffer_manager × Option (Nat × List Sample) :=
  if target ≠ 0 then
    let copied := (List.range (copied_samples min)).map bm.get_read_buffer
    ({ bm with
        read_index := (set2 bm.read_index (lnot bm.out_pointer)
          (at2 bm.read_index (lnot bm.out_pointer) + min))
        out_count := (set2 bm.out_count (lnot bm.out_pointer)
          (at2 bm.out_count (lnot bm.out_pointer) - min)) },
      some (target, copied))
  else (bm, none)

/-- What one pass through the body of `fill_buffers` does: it returns
(`ret = some r`, with what was copied for each channel) or it has requested a
flip and waits (`ret = none`). -/
structure FillPass where
  state : complex_manager
  ret : Option Int
  copies : List (Option (Nat × List Sample))

/-- One pass through the body of `fill_buffers(buffs, tuners, count)` up to
its `return` or to its wait for the flip. -/
def fill_pass (st : complex_manager) (buffs : List Nat) (tuners : List Int) (count : Int) :
    FillPass :=
  if st.m_update_valid_streams = true then { state := st, ret := some 0, copies := [] }
  else
    let st := { st with m_safety_count := st.m_safety_count + 1 }
    let r := scan_min st.m_mang count
    let st := { st with m_mang := r.1 }
    let min := r.2
    if min = 0 then
      { state := { st with m_request_flip := true }, ret := none, copies := [] }
    else
      let targets := set_targets (buffs.zip tuners) (List.replicate st.m_mang.length 0)
      let copied := List.zipWith (copy_channel min) st.m_mang targets
      { state := { st with m_mang := copied.map Prod.fst, m_safety_count := 0 }
        ret := some min
        copies := copied.map Prod.snd }

/-- The result of a call of `fill_buffers`. -/
structure FillResult where
  state : complex_manager
  ret : Int
  copies : List (Option (Nat × List Sample))

/-- The recursion of `fill_buffers`. `wait k st` is the state in which the
caller finds `m_request_flip` cleared after it has set it in state `st`; `k`
numbers the waits. -/
def fill_buffers_rec (wait : Nat → complex_manager → complex_manager) :
    Nat → complex_manager → List Nat → List Int → Int → Option FillResult
  | 0, _, _, _, _ => none
  | fuel + 1, st, buffs, tuners, count =>
    let pass := fill_pass st buffs tuners count
    match pass.ret with
    | some r => some { state := pass.state, ret := r, copies := pass.copies }
    | none =>
      let st := wait fuel pass.state
      if st.m_safety_count < NUM_RECURSIVE then fill_buffers_rec wait fuel st buffs tuners count
      else some { state := { st with m_safety_count := 0 }, ret := 0, copies := [] }

/-- The method `fill_buffers(buffs, tuners, count)`. -/
def fill_buffers (wait : Nat → complex_manager → complex_manager) (st : complex_manager)
    (buffs : List Nat) (tuners : List Int) (count : Int) : Option FillResult :=
  fill_buffers_rec wait ((NUM_RECURSIVE - st.m_safety_count).toNat + 1) st buffs tuners count

/-! ## Interleavings of the two threads -/

/-- The steps that the demultiplexer thread and the consumer take on the
shared state: the demultiplexer handles a packet (and its worker converts it),
serves a flip request, serves an update request; the consumer makes one pass
through `fill_buffers`, or calls `update_tuners`. -/
inductive Event where
  | packet (p : VRTPacketImpl)
  | flip
  | update
  | fill (buffs : List Nat) (tuners : List Int) (count : Int)
  | tuners (ts : List Int)

/-- The state after one step. -/
def step (st : complex_manager) : Event → complex_manager
  | Event.packet p =>
    match handle_packet st.m_mang p with
    | PacketOutcome.admitted m_mang _ job => { st with m_mang := run_job m_mang job }
    | _ => st
  | Event.flip =>
    if st.m_request_flip = true then
      { st with m_mang := handle_flip st.m_mang, m_request_flip := false }
    else st
  | Event.update =>
    if st.m_update_valid_streams = true then
      { st with m_mang := handle_update st.m_mang, m_update_valid_streams := false }
    else st
  | Event.fill buffs tuners count => (fill_pass st buffs tuners count).state
  | Event.tuners ts => update_tuners st ts

/-- The state after a sequence of steps. -/
def run (st : complex_manager) (events : List Event) : complex_manager :=
  events.foldl step st

/-- The steps of the demultiplexer thread. -/
def Event.is_demux : Event → Bool
  | Event.packet _ => true
  | Event.flip => true
  | Event.update => true
  | _ => false

/-- The samples that a step admits into channel `i`. -/
def admitted_samples (st : complex_manager) (i : Nat) : Event → Int
  | Event.packet p =>
    match handle_packet st.m_mang p with
    | PacketOutcome.admitted _ _ job =>
      if job.target_channel = i then ((p.get_payload_size / 4 : Nat) : Int) else 0
    | _ => 0
  | _ => 0

/-- The value that a step returns from `fill_buffers` to the consumer. -/
def returned_samples (st : complex_manager) : Event → Int
  | Event.fill buffs tuners count =>
    match (fill_pass st buffs tuners count).ret with
    | some r => r
    | none => 0
  | _ => 0

/-- The loss markers (`PACKET_LOSS_MSG`) that a step prints. -/
def loss_markers (st : complex_manager) : Event → Nat
  | Event.packet p =>
    match handle_packet st.m_mang p with
    | PacketOutcome.admitted _ loss _ => if loss = true then 1 else 0
    | _ => 0
  | _ => 0

end Pico

namespace Pico

open Vita49

/-! ## Observations on an interleaving -/

/-- The packets that a sequence of steps admits into channel `i`, in order:
the packet counter of each one and whether a loss marker was printed for it. -/
def admissions (st : complex_manager) (i : Nat) : List Event → List (Nat × Bool)
  | [] => []
  | Event.packet p :: events =>
    match handle_packet st.m_mang p with
    | PacketOutcome.admitted _ loss job =>
      if job.target_channel = i then
        (p.get_packet_count, loss) :: admissions (step st (Event.packet p)) i events
      else admissions (step st (Event.packet p)) i events
    | _ => admissions (step st (Event.packet p)) i events
  | e :: events => admissions (step st e) i events

/-- The samples admitted into channel `i` by a sequence of steps. -/
def total_admitted (st : complex_manager) (i : Nat) : List Event → Int
  | [] => 0
  | e :: events => admitted_samples st i e + total_admitted (step st e) i events

/-- The sum of the values that `fill_buffers` returns along a sequence of
steps. -/
def total_returned (st : complex_manager) : List Event → Int
  | [] => 0
  | e :: events => returned_samples st e + total_returned (step st e) events

/-- The loss events that the specification expects for the packet counters
`c1, c2, ...` of one channel after a reset: none for the first packet, and one
at every later position whose counter is not the previous one plus 1
modulo 16. -/
def expected_losses : List Nat → List Bool
  | [] => []
  | c :: cs => false :: List.zipWith (fun prev cur => decide (cur ≠ (prev + 1) % 16)) (c :: cs) cs

/-- A type-1 packet of channel index 0 with the given packet counter and one
payload word. -/
def sample_packet (count : Nat) : VRTPacketImpl :=
  { m_packet_data := [0x10000003 + count * 2 ^ 16, 0, 0x4000C000] }

/-- One stream, selected by `update_tuners` with tuner 1 and applied. -/
def sample_valid_state : complex_manager :=
  step (update_tuners (initial_state 1 64) [1]) Event.update

/-- A channel that is being written to buffer 1 and has 5 unread samples left
in buffer 0. -/
def sample_busy_channel : buffer_manager :=
  { initial_buffer_manager with
    out_pointer := 1
    out_count := (5, 3)
    last_count := 7
    read_index := (2, 0)
    tuner_valid := true
    tuner_valid_safe := true }

/-- A state with the single channel `sample_busy_channel`. -/
def sample_busy_state : complex_manager :=
  { initial_state 1 64 with m_mang := [sample_busy_channel] }

end Pico

namespace Pico

open Vita49

/-! ## Invariants of the channel state -/

/-- The fill count of the active (written) buffer of a channel. -/
def buffer_manager.active_count (bm : buffer_manager) : Int :=
  at2 bm.out_count bm.out_pointer

/-- The unread count of the inactive (read) buffer of a channel. -/
def buffer_manager.unread_count (bm : buffer_manager) : Int :=
  at2 bm.out_count (lnot bm.out_pointer)

/-- The read cursor into the inactive buffer of a channel. -/
def buffer_manager.read_cursor (bm : buffer_manager) : Int :=
  at2 bm.read_index (lnot bm.out_pointer)

/-- The invariant of one channel: the active fill count is a count below the
capacity; a valid channel has a non-negative unread count, and none at all
while it is marked for a flip. -/
def channel_ok (bm : buffer_manager) : Prop :=
  0 ≤ bm.active_count ∧ bm.active_count < (NUM_COMPLEX : Int) ∧
  (bm.tuner_valid = true → 0 ≤ bm.unread_count) ∧
  (bm.tuner_valid = true → bm.flip = true → bm.unread_count = 0)

/-- The invariant of the shared state. -/
def state_ok (st : complex_manager) : Prop :=
  (∀ bm ∈ st.m_mang, channel_ok bm) ∧ 0 ≤ st.m_safety_count

/-- Two channel states that differ at most in the flip-request flag. -/
def same_but_flip (a b : buffer_manager) : Prop :=
  b = { a with flip := b.flip }

/-- The array `targets` that `fill_buffers` builds for `n` streams. -/
def fill_targets (n : Nat) (buffs : List Nat) (tuners : List Int) : List Nat :=
  set_targets (buffs.zip tuners) (List.replicate n 0)

/-- The value `available` of the specification (section 4.4): the minimum of
`requestedCount` and of the unread counts of the inactive buffers of all valid
channels. -/
def spec_available (m_mang : List buffer_manager) (requestedCount : Int) : Int :=
  ((m_mang.filter (fun bm => bm.tuner_valid)).map buffer_manager.unread_count).foldl
    min requestedCount

end Pico

namespace Pico

open Vita49

/-! ## The destination of a channel -/

/-- The destination that the specification gives to channel index `i` in a
call `fill_buffers(buffs, tuners, count)`: tuner `t` maps to channel index
`t - 1`, so it is the buffer listed with tuner `i + 1` (the last one, if the
tuner is listed more than once), and `NULL` (0) if tuner `i + 1` is not
listed. -/
def spec_target (buffs : List Nat) (tuners : List Int) (i : Nat) : Nat :=
  (((buffs.zip tuners).filter (fun bt => decide (bt.2 = (i : Int) + 1))).getLast?.map
    Prod.fst).getD 0

/-! ## The frame loop of `operator()` and Overflow Staging

The buffer `m_saved_packets->at(0)` is a list of bytes; the window handed to
`VRLFrame::parse` is the buffer from `byte_index` on, read as 32-bit words in
the byte order of the host (little-endian). The macro `UDP_START_INDEX` is
defined in `udp_listener.h`, which is not part of `src/`: it is the parameter
`U` below. -/

/-- The 32-bit word made of four bytes, least significant first. -/
def word_of_bytes (b0 b1 b2 b3 : Nat) : Nat :=
  b0 % 256 + 256 * (b1 % 256) + 65536 * (b2 % 256) + 16777216 * (b3 % 256)

/-- The words seen through `reinterpret_cast<boost::uint32_t*>` on a byte
array. -/
def words_of_bytes : List Nat → List Nat
  | b0 :: b1 :: b2 :: b3 :: rest => word_of_bytes b0 b1 b2 b3 :: words_of_bytes rest
  | _ => []

/-- The bytes of a list of 32-bit words in host order. -/
def bytes_of_words : List Nat → List Nat
  | [] => []
  | w :: ws =>
    w % 256 :: w / 256 % 256 :: w / 65536 % 256 :: w / 16777216 % 256 :: bytes_of_words ws

/-- The array `dst` after `memcpy(&dst[pos], src, n)`. -/
def memcpy (dst : List Nat) (pos : Nat) (src : List Nat) (n : Nat) : List Nat :=
  dst.take pos ++ (src.take n ++ dst.drop (pos + n))

/-- How the handling of one buffer by `operator()` ends: the frame loop ran to
the end of the window (`done`, with the frames it decoded, in order),
`operator()` returned because `m_amnt_saved` was negative (`stopped`), or a
`memcpy` went outside `m_overflow_buffer` or in front of the buffer
(`fault`). -/
inductive ReadOutcome where
  | done (st : complex_manager) (frames : List VRLFrameImpl)
  | stopped (st : complex_manager) (frames : List VRLFrameImpl)
  | fault

/-- The loop `while (byte_index < total_length)` of `operator()`, without the
packet loop (which is `handle_packet`, and touches neither `byte_index` nor
Overflow Staging): every decoded frame is appended to `frames`. The frame-loss
message is not modelled. -/
def frame_loop (U : Nat) : Nat → complex_manager → List Nat → Int → Int → List VRLFrameImpl →
    Option ReadOutcome
  | 0, _, _, _, _, _ => none
  | fuel + 1, st, buffer, total_length, byte_index, frames =>
    if ¬ byte_index < total_length then some (ReadOutcome.done st frames)
    else
      match VRLFrame.parse (words_of_bytes (buffer.drop byte_index.toNat))
          (to_size_t (total_length - byte_index)) with
      | none => none
      | some ⟨vrl_index, Except.ok frame⟩ =>
        let byte_index := byte_index + ((vrl_index.getD 0 : Nat) : Int) * 4 +
          ((frame.get_frame_size : Nat) : Int) * 4
        let st := { st with m_last_frame_count := ((frame.get_frame_count : Nat) : Int) }
        frame_loop U fuel st buffer total_length byte_index (frames ++ [frame])
      | some ⟨_, Except.error Exn.index_error⟩ =>
        let m_amnt_saved := total_length - byte_index
        if m_amnt_saved < 0 then
          some (ReadOutcome.stopped { st with m_amnt_saved := m_amnt_saved } frames)
        else if m_amnt_saved > (U : Int) then some ReadOutcome.fault
        else
          let st := { st with
            m_amnt_saved := m_amnt_saved
            m_overflow_buffer :=
              memcpy st.m_overflow_buffer 0 (buffer.drop byte_index.toNat) m_amnt_saved.toNat }
          frame_loop U fuel st buffer total_length (byte_index + m_amnt_saved) frames
      | some ⟨_, Except.error _⟩ =>
        frame_loop U fuel { st with m_amnt_saved := 0 } buffer total_length total_length frames

/-- The body of the loop `while (m_run)` of `operator()` from
`get_buffer_list` on, for one buffer with `length` bytes of data at
`UDP_START_INDEX`. -/
def ingest (U fuel : Nat) (st : complex_manager) (buffer : List Nat) (length : Int) :
    Option ReadOutcome :=
  if length = 0 then some (ReadOutcome.done st [])
  else
    let byte_index : Int := (U : Int)
    let total_length : Int := length + (U : Int)
    if st.m_amnt_saved ≠ 0 then
      let cpy_loc : Int := (U : Int) - st.m_amnt_saved
      if st.m_amnt_saved < 0 ∨ cpy_loc < 0 then some ReadOutcome.fault
      else
        let buffer := memcpy buffer cpy_loc.toNat st.m_overflow_buffer st.m_amnt_saved.toNat
        frame_loop U fuel { st with m_amnt_saved := 0 } buffer total_length cpy_loc []
    else frame_loop U fuel st buffer total_length byte_index []

/-- Consecutive ingest reads: each read is a buffer and its length; the
decoded frames are collected in order. -/
def ingest_reads (U fuel : Nat) : complex_manager → List (List Nat × Int) →
    List VRLFrameImpl → Option ReadOutcome
  | st, [], frames => some (ReadOutcome.done st frames)
  | st, (buffer, length) :: reads, frames =>
    match ingest U fuel st buffer length with
    | some (ReadOutcome.done st fr) => ingest_reads U fuel st reads (frames ++ fr)
    | some (ReadOutcome.stopped st fr) => some (ReadOutcome.stopped st (frames ++ fr))
    | some ReadOutcome.fault => some ReadOutcome.fault
    | none => none

/-- What a decoded frame reports: its frame size, its frame count and the
views of its packets. -/
def frame_view (f : VRLFrameImpl) : Nat × Nat × List PacketView :=
  (f.get_frame_size, f.get_frame_count, f.m_packets.map VRTPacketImpl.view)

/-- The decoded frames and the final `m_amnt_saved` of a run that ended at the
end of its last window. -/
def ReadOutcome.summary : ReadOutcome → Option (List (Nat × Nat × List PacketView) × Int)
  | ReadOutcome.done st frames => some (frames.map frame_view, st.m_amnt_saved)
  | _ => none

/-- The smallest packet: a type-0 header word alone. -/
def sample_bare_packet : PacketFields :=
  { packet_type := 0, packet_count := 0, tsm := 0, rsvd := 0, tsi := 0, tsf := 0
    stream_id := none, class_id := none, integer_timestamp := none
    fractional_timestamp := none, payload := [], trailer := none }

/-- The bytes of a frame of four words: alignment word, info word, one
one-word packet, trailer. -/
def sample_short_frame_bytes : List Nat :=
  bytes_of_words (encode_frame FAW_VRLP 1 [sample_bare_packet] VEND)

/-- The bytes of a frame with the two sample packets. -/
def sample_frame_bytes : List Nat :=
  bytes_of_words (encode_frame FAW_VRLP 9 [sample_if_data, sample_if_context] VEND)

end Pico

namespace Pico

open Vita49

/-- A frame with one type-1 packet of channel index 0 (tuner 1) that carries
four payload words `0x4000C000`, i.e. four times the pair (16384, -16384). -/
def sample_data_frame : List Nat :=
  [0x56524C50, 0x00100009, 0x10000006, 0x00000100, 0x4000C000, 0x4000C000, 0x4000C000,
    0x4000C000, 0x56454E44]

/-- A 16-bit value read as a signed two's-complement number. -/
def spec_signed16 (h : Nat) : Int := if h < 2 ^ 15 then (h : Int) else (h : Int) - 2 ^ 16

end Pico

namespace Pico

open Vita49

/-! ## Jobs handed to the worker -/

/-- The jobs that a sequence of steps hands to the worker for channel `i`, in
order: `m_packet_buffer`, `m_sample_count`, `m_target_buffer` and
`m_start_index` as set by the packet loop of `operator()`. -/
def admitted_jobs (st : complex_manager) (i : Nat) : List Event → List Job
  | [] => []
  | Event.packet p :: events =>
    match handle_packet st.m_mang p with
    | PacketOutcome.admitted _ _ job =>
      if job.target_channel = i then job :: admitted_jobs (step st (Event.packet p)) i events
      else admitted_jobs (step st (Event.packet p)) i events
    | _ => admitted_jobs (step st (Event.packet p)) i events
  | e :: events => admitted_jobs (step st e) i events

/-- The destination ranges that the specification expects for packets of
`n1, n2, ...` samples admitted from fill count `c` on: `[c, c + n1)`,
`[c + n1, c + n1 + n2)`, ... as pairs of start offset and length. -/
def spec_ranges : Nat → List Nat → List (Nat × Nat)
  | _, [] => []
  | c, n :: ns => (c, n) :: spec_ranges (c + n) ns

/-! ## `aligned_buffer` (`src/lib/aligned_buffer.cpp`) -/

/-- The function `pad_buffer(bytes, alignment)`: the subtraction, the
remainder and the sum are `size_t` operations. -/
def pad_buffer (bytes alignment : Nat) : Nat :=
  (bytes + ((alignment + SIZE_MOD - bytes) % SIZE_MOD) % alignment) % SIZE_MOD

/-- The class `aligned_buffer_impl`; a `void_ptr` is an address. The member
`memory` only keeps the allocation alive. -/
structure aligned_buffer_impl where
  pointers : List Nat
  deriving DecidableEq, Repr

/-- The number of bytes that `aligned_buffer::make` asks `new char[...]`
for. -/
def aligned_buffer_alloc_size (num_buffs buff_size alignment : Nat) : Nat :=
  (((pad_buffer buff_size alignment * num_buffs) % SIZE_MOD + alignment) % SIZE_MOD +
    SIZE_MOD - 1) % SIZE_MOD

/-- The function `aligned_buffer::make(num_buffs, buff_size, alignment)`;
`mem` is the address `mem.get()` that `new char[...]` returned. -/
def aligned_buffer_make (num_buffs buff_size alignment mem : Nat) : aligned_buffer_impl :=
  let padded_buff_size := pad_buffer buff_size alignment
  let mem_start := pad_buffer mem alignment
  { pointers := (List.range num_buffs).map
      (fun i => (mem_start + padded_buff_size * i % SIZE_MOD) % SIZE_MOD) }

/-- The method `aligned_buffer_impl::at(index)`; `none` is the
`std::out_of_range` of `std::vector::at`. -/
def aligned_buffer_impl.buffer_at (b : aligned_buffer_impl) (index : Nat) : Option Nat :=
  b.pointers.get? index

/-- The method `aligned_buffer_impl::size()`. -/
def aligned_buffer_impl.size (b : aligned_buffer_impl) : Nat := b.pointers.length

/-! ## Sample inputs -/

/-- A channel that is valid, flip-requested, written to buffer 1 with 3
samples, its buffer 0 read to the end. -/
def sample_flip_channel : buffer_manager :=
  { initial_buffer_manager with
    out_pointer := 1
    out_count := (0, 3)
    last_count := 7
    read_index := (5, 0)
    tuner_valid := true
    tuner_valid_safe := true
    flip := true }

/-- A type-1 packet with the given stream id and one payload word. -/
def sample_stream_packet (stream_id : Nat) : VRTPacketImpl :=
  { m_packet_data := [0x10000003, stream_id, 0x4000C000] }

/-- An extension data packet (type 3) with stream id 0 and one payload
word. -/
def sample_extension_packet : VRTPacketImpl :=
  { m_packet_data := [0x30000003, 0, 0x4000C000] }

/-- A frame without packets: alignment word, info word with frame size 3,
trailer VEND; followed by two words of padding. -/
def sample_empty_frame : List Nat := [0x56524C50, 0x00100003, 0x56454E44, 0, 0]

/-- A window of five words: the alignment word VRLP and four zero words, so
that the info word announces frame size 0. -/
def sample_zero_size_window : List Nat :=
  bytes_of_words [0x56524C50, 0, 0, 0, 0]

end Pico

namespace Pico

open Vita49

/-- The bytes of a window that ends inside a frame: `U / 4 + 1` zero words,
then the first five words of a frame that declares six (alignment word, info
word with frame size 6, three more words). It is longer than `U` bytes. -/
def sample_cut_window (U : Nat) : List Nat :=
  List.replicate (4 * (U / 4 + 1)) 0 ++ bytes_of_words [FAW_VRLP, 6, 0, 0, 0]

end Pico

namespace Vita49

/-! ## Packet constructor: error taxonomy -/

theorem gt_div_four_iff (a L : Nat) : a > L / 4 ↔ a * 4 > L := by
  omega

/-- C1: for a header whose packet type is one of the six known values and any
byte length `L`, `VRTPacket::parse` throws `index_error` exactly when
`packet_size * 4 > L`; otherwise it returns the packet, whose
`get_packet_size` is the low 16 bits of the header word. -/
theorem C1_parse_insufficient_data (packet_data : List Nat) (L : Nat)
    (hpt : hdr_packet_type (rd packet_data 0) ≤ 5) :
    (VRTPacket.parse packet_data L = Except.error Exn.index_error ↔
        hdr_packet_size (rd packet_data 0) * 4 > L) ∧
    (¬ hdr_packet_size (rd packet_data 0) * 4 > L →
        ∃ p, VRTPacket.parse packet_data L = Except.ok p ∧
          p.m_packet_data = packet_data ∧
          p.get_packet_size = rd packet_data 0 % 2 ^ 16) := by
  have hno : ¬ (hdr_packet_type (rd packet_data 0) < PT_MIN ∨
      hdr_packet_type (rd packet_data 0) > PT_MAX) := by
    simp only [PT_MIN, PT_MAX, PT_IF_DATA_NO_IDENT, PT_EXTENSION_CONTEXT]
    omega
  constructor
  · unfold VRTPacket.parse
    simp only [hno, if_false]
    rw [← gt_div_four_iff]
    by_cases h : hdr_packet_size (rd packet_data 0) > L / 4
    · simp [h]
    · simp [h]
  · intro h
    rw [← gt_div_four_iff] at h
    refine ⟨{ m_packet_data := packet_data }, ?_, rfl, rfl⟩
    unfold VRTPacket.parse
    simp only [hno, if_false, h]

theorem C1_parse_insufficient_data_witness :
    (VRTPacket.parse [0x10000003, 7, 8] 12 = Except.error Exn.index_error ↔
        hdr_packet_size (rd [0x10000003, 7, 8] 0) * 4 > 12) ∧
    (¬ hdr_packet_size (rd [0x10000003, 7, 8] 0) * 4 > 12 →
        ∃ p, VRTPacket.parse [0x10000003, 7, 8] 12 = Except.ok p ∧
          p.m_packet_data = [0x10000003, 7, 8] ∧
          p.get_packet_size = rd [0x10000003, 7, 8] 0 % 2 ^ 16) :=
  C1_parse_insufficient_data [0x10000003, 7, 8] 12 (by decide)

/-- C2: a header whose packet type lies outside `0..5` makes
`VRTPacket::parse` throw `std::runtime_error` for every byte length (so never
`index_error`, however small the length), and a header whose packet type lies
in `0..5` never makes it throw `std::runtime_error`. -/
theorem C2_parse_unsupported_type (packet_data : List Nat) (L : Nat) :
    (¬ hdr_packet_type (rd packet_data 0) ≤ 5 →
        VRTPacket.parse packet_data L = Except.error Exn.runtime_error ∧
        VRTPacket.parse packet_data L ≠ Except.error Exn.index_error) ∧
    (hdr_packet_type (rd packet_data 0) ≤ 5 →
        VRTPacket.parse packet_data L ≠ Except.error Exn.runtime_error) := by
  constructor
  · intro h
    have hyes : hdr_packet_type (rd packet_data 0) < PT_MIN ∨
        hdr_packet_type (rd packet_data 0) > PT_MAX := by
      simp only [PT_MIN, PT_MAX, PT_IF_DATA_NO_IDENT, PT_EXTENSION_CONTEXT]
      omega
    unfold VRTPacket.parse
    simp [hyes]
  · intro h
    have hno : ¬ (hdr_packet_type (rd packet_data 0) < PT_MIN ∨
        hdr_packet_type (rd packet_data 0) > PT_MAX) := by
      simp only [PT_MIN, PT_MAX, PT_IF_DATA_NO_IDENT, PT_EXTENSION_CONTEXT]
      omega
    unfold VRTPacket.parse
    simp only [hno, if_false]
    by_cases h2 : hdr_packet_size (rd packet_data 0) > L / 4
    · simp [h2]
    · simp [h2]

end Vita49

namespace Vita49

/-! ## Field layout -/

theorem parse_ok_iff (packet_data : List Nat) (L : Nat) (p : VRTPacketImpl) :
    VRTPacket.parse packet_data L = Except.ok p ↔
      hdr_packet_type (rd packet_data 0) ≤ 5 ∧
      hdr_packet_size (rd packet_data 0) ≤ L / 4 ∧ p = { m_packet_data := packet_data } := by
  unfold VRTPacket.parse
  simp only [PT_MIN, PT_MAX, PT_IF_DATA_NO_IDENT, PT_EXTENSION_CONTEXT]
  by_cases h1 : hdr_packet_type (rd packet_data 0) ≤ 5
  · have hno : ¬ (hdr_packet_type (rd packet_data 0) < 0 ∨
        hdr_packet_type (rd packet_data 0) > 5) := by omega
    by_cases h2 : hdr_packet_size (rd packet_data 0) > L / 4
    · simp only [hno, if_false, h2, if_true]
      constructor
      · intro h; cases h
      · intro h; omega
    · simp only [hno, if_false, h2, h1, true_and]
      constructor
      · intro h
        injection h with h
        exact ⟨by omega, h.symm⟩
      · intro h
        rw [h.2]
  · have hyes : hdr_packet_type (rd packet_data 0) < 0 ∨
        hdr_packet_type (rd packet_data 0) > 5 := by omega
    simp only [hyes, if_true]
    constructor
    · intro h; cases h
    · intro h; exact absurd h.1 h1

theorem has_stream_id_iff (p : VRTPacketImpl) :
    p.has_stream_id = true ↔
      (p.get_packet_type = 1 ∨ p.get_packet_type = 3 ∨
       p.get_packet_type = 4 ∨ p.get_packet_type = 5) := by
  unfold VRTPacketImpl.has_stream_id
  simp only [PT_IF_DATA, PT_EXTENSION_DATA, PT_IF_CONTEXT, PT_EXTENSION_CONTEXT]
  split <;> simp_all

theorem has_class_id_iff (p : VRTPacketImpl) :
    p.has_class_id = true ↔ hdr_c p.m_header = 1 := by
  unfold VRTPacketImpl.has_class_id
  simp

theorem get_integer_timestamp_type_eq (p : VRTPacketImpl) :
    p.get_integer_timestamp_type = hdr_tsi p.m_header := by
  unfold VRTPacketImpl.get_integer_timestamp_type
  simp only [TSI_NONE, TSI_UTC, TSI_GPS, TSI_OTHER]
  have : hdr_tsi p.m_header < 4 := by unfold hdr_tsi; omega
  split
  · rfl
  · omega

theorem has_trailer_iff (p : VRTPacketImpl) :
    p.has_trailer = true ↔
      (p.get_packet_type ≠ 4 ∧ p.get_packet_type ≠ 5 ∧ hdr_t p.m_header = 1) := by
  unfold VRTPacketImpl.has_trailer
  simp only [PT_IF_CONTEXT, PT_EXTENSION_CONTEXT]
  split
  · simp; omega
  · simp; omega

/-- The offsets of the five fields that precede the trailer, for the presence
flags read from the header. -/
theorem get_field_offset_chain (p : VRTPacketImpl) (s c i f : Bool)
    (hs : s = true ↔ (p.get_packet_type = 1 ∨ p.get_packet_type = 3 ∨
      p.get_packet_type = 4 ∨ p.get_packet_type = 5))
    (hc : c = true ↔ hdr_c p.m_header = 1)
    (hi : i = true ↔ hdr_tsi p.m_header ≠ 0)
    (hf : f = true ↔ hdr_tsf p.m_header ≠ 0) :
    p.get_field_offset VS49_FIELD.STREAM_ID = 1 ∧
    p.get_field_offset VS49_FIELD.CLASS_ID = 1 + s.toNat ∧
    p.get_field_offset VS49_FIELD.TSI = 1 + s.toNat + 2 * c.toNat ∧
    p.get_field_offset VS49_FIELD.TSF = 1 + s.toNat + 2 * c.toNat + i.toNat ∧
    p.get_field_offset VS49_FIELD.PAYLOAD =
      1 + s.toNat + 2 * c.toNat + i.toNat + 2 * f.toNat := by
  have e1 : p.has_stream_id = s := by
    rw [Bool.eq_iff_iff, has_stream_id_iff, hs]
  have e2 : p.has_class_id = c := by
    rw [Bool.eq_iff_iff, has_class_id_iff, hc]
  have e3 : (p.get_integer_timestamp_type ≠ TSI_NONE) ↔ i = true := by
    rw [get_integer_timestamp_type_eq, hi]; rfl
  have e4 : (p.get_fractional_timestamp_type ≠ TSF_NONE) ↔ f = true := by
    rw [hf]; rfl
  unfold VRTPacketImpl.get_field_offset
  simp only [e1, e2, e3, e4]
  cases s <;> cases c <;> cases i <;> cases f <;> simp

end Vita49

namespace Vita49

/-- C3 (as stated, refuted): the single header word `0`, supplied with its 4
bytes, is a packet that parses (type 0, `packet_size` 0), and
`get_field_offset` puts its trailer at `2^64 - 1`, whereas the layout table
says `packet_size - 1 = -1`. -/
theorem C3_trailer_offset_counterexample :
    VRTPacket.parse [0] 4 = Except.ok { m_packet_data := [0] } ∧
    VRTPacketImpl.get_packet_size { m_packet_data := [0] } = 0 ∧
    VRTPacketImpl.get_field_offset { m_packet_data := [0] } VS49_FIELD.TRAILER =
      18446744073709551615 ∧
    ((VRTPacketImpl.get_field_offset { m_packet_data := [0] } VS49_FIELD.TRAILER : Nat) : Int) ≠
      layout_offset false false false false
        (VRTPacketImpl.get_packet_size { m_packet_data := [0] }) VS49_FIELD.TRAILER := by
  decide

/-- C3 (amended): for every packet and every combination of the presence flags
`s c i f` read from its header (stream-id: type in {1,3,4,5}; class-id: `c`
flag; integer timestamp: `tsi != 0`; fractional timestamp: `tsf != 0`),
`get_field_offset` agrees with the layout table on the stream-id, class-id,
timestamp and payload rows, and on the trailer row when `packet_size >= 1`. -/
theorem C3_field_offsets (p : VRTPacketImpl) (s c i f : Bool)
    (hs : s = true ↔ (p.get_packet_type = 1 ∨ p.get_packet_type = 3 ∨
      p.get_packet_type = 4 ∨ p.get_packet_type = 5))
    (hc : c = true ↔ hdr_c p.m_header = 1)
    (hi : i = true ↔ hdr_tsi p.m_header ≠ 0)
    (hf : f = true ↔ hdr_tsf p.m_header ≠ 0)
    (field : VS49_FIELD)
    (hfield : field = VS49_FIELD.TRAILER → 1 ≤ p.get_packet_size) :
    ((p.get_field_offset field : Nat) : Int) =
      layout_offset s c i f p.get_packet_size field := by
  obtain ⟨h1, h2, h3, h4, h5⟩ := get_field_offset_chain p s c i f hs hc hi hf
  cases field
  · rw [h1]; simp [layout_offset]
  · rw [h2]; simp [layout_offset]
  · rw [h3]; simp [layout_offset]
  · rw [h4]; simp [layout_offset]
  · rw [h5]; simp [layout_offset]
  · have hps := hfield rfl
    have hlt : p.get_packet_size < 2 ^ 16 := by
      unfold VRTPacketImpl.get_packet_size hdr_packet_size; omega
    have : p.get_field_offset VS49_FIELD.TRAILER = p.get_packet_size - 1 := by
      unfold VRTPacketImpl.get_field_offset
      simp only [if_true]
      unfold VRTPacketImpl.get_packet_size at hps hlt ⊢
      unfold SIZE_MOD
      omega
    rw [this]
    simp only [layout_offset]
    omega

theorem C3_field_offsets_witness :
    ((VRTPacketImpl.get_field_offset { m_packet_data := [0x1850000A] }
        VS49_FIELD.TRAILER : Nat) : Int) =
      layout_offset true true true true
        (VRTPacketImpl.get_packet_size { m_packet_data := [0x1850000A] })
        VS49_FIELD.TRAILER :=
  C3_field_offsets { m_packet_data := [0x1850000A] } true true true true
    (by decide) (by decide) (by decide) (by decide) VS49_FIELD.TRAILER (by decide)

/-! ## Payload size -/

theorem payload_offset_bounds (p : VRTPacketImpl) :
    1 ≤ p.get_field_offset VS49_FIELD.PAYLOAD ∧
    p.get_field_offset VS49_FIELD.PAYLOAD ≤ 7 := by
  unfold VRTPacketImpl.get_field_offset
  simp only [reduceCtorEq, if_false, ne_eq, not_false_eq_true, if_true]
  split <;> split <;> split <;> split <;> omega

/-- C4 (as stated, refuted): the zero header word (type 0, `packet_size` 0, no
trailer) parses in a window of one word: `VRTPacket::parse` accepts the packet
of size zero, at which the frame walk stops. Its payload offset is 1, so the
formula gives `(0 - 1 - 0) * 4 = -4`, which `get_payload_size`, an unsigned
value, does not return. -/
theorem C4_payload_size_counterexample :
    VRTPacket.parse [0] 4 = Except.ok { m_packet_data := [0] } ∧
    VRTPacketImpl.get_packet_size { m_packet_data := [0] } = 0 ∧
    VRTPacketImpl.get_field_offset { m_packet_data := [0] } VS49_FIELD.PAYLOAD = 1 ∧
    VRTPacketImpl.has_trailer { m_packet_data := [0] } = false ∧
    spec_payload_size
        (VRTPacketImpl.get_packet_size { m_packet_data := [0] })
        (VRTPacketImpl.get_field_offset { m_packet_data := [0] } VS49_FIELD.PAYLOAD)
        (VRTPacketImpl.has_trailer { m_packet_data := [0] }) = -4 ∧
    ((VRTPacketImpl.get_payload_size { m_packet_data := [0] } : Nat) : Int) ≠
      spec_payload_size
        (VRTPacketImpl.get_packet_size { m_packet_data := [0] })
        (VRTPacketImpl.get_field_offset { m_packet_data := [0] } VS49_FIELD.PAYLOAD)
        (VRTPacketImpl.has_trailer { m_packet_data := [0] }) := by
  decide

/-- C4 (amended): for every successfully parsed packet, the packet has a
trailer exactly when its type is a data type (0..3) and the trailer flag is
set; and when its `packet_size` covers what its header announces,
`offset-of-payload + (1 if trailer) <= packet_size`, `get_payload_size`
returns `(packet_size - offset-of-payload - trailer) * 4` bytes. -/
theorem C4_payload_size (packet_data : List Nat) (L : Nat) (p : VRTPacketImpl)
    (hparse : VRTPacket.parse packet_data L = Except.ok p) :
    (p.has_trailer = true ↔ (p.get_packet_type ≤ 3 ∧ hdr_t p.m_header = 1)) ∧
    (p.get_field_offset VS49_FIELD.PAYLOAD + p.has_trailer.toNat ≤ p.get_packet_size →
      ((p.get_payload_size : Nat) : Int) =
        spec_payload_size p.get_packet_size (p.get_field_offset VS49_FIELD.PAYLOAD)
          p.has_trailer ∧
      p.get_payload_size =
        (p.get_packet_size - p.get_field_offset VS49_FIELD.PAYLOAD - p.has_trailer.toNat) *
          4) := by
  have hp := (parse_ok_iff packet_data L p).1 hparse
  have hpt : p.get_packet_type ≤ 5 := by
    rw [hp.2.2]; exact hp.1
  have hlt : p.get_packet_size < 2 ^ 16 := by
    unfold VRTPacketImpl.get_packet_size hdr_packet_size; omega
  obtain ⟨ho1, ho2⟩ := payload_offset_bounds p
  refine ⟨?_, fun hcover => ⟨?_, ?_⟩⟩
  · rw [has_trailer_iff]; omega
  · unfold VRTPacketImpl.get_payload_size spec_payload_size
    unfold VRTPacketImpl.get_packet_size at hlt hcover
    simp only [VRTPacketImpl.get_packet_size, SIZE_MOD]
    cases htr : p.has_trailer
    · rw [htr] at hcover
      simp only [Bool.false_eq_true, if_false, Bool.toNat_false] at hcover ⊢
      omega
    · rw [htr] at hcover
      simp only [if_true, Bool.toNat_true] at hcover ⊢
      omega
  · unfold VRTPacketImpl.get_payload_size
    unfold VRTPacketImpl.get_packet_size at hlt hcover
    simp only [VRTPacketImpl.get_packet_size, SIZE_MOD]
    cases htr : p.has_trailer
    · rw [htr] at hcover
      simp only [Bool.false_eq_true, if_false, Bool.toNat_false] at hcover ⊢
      omega
    · rw [htr] at hcover
      simp only [if_true, Bool.toNat_true] at hcover ⊢
      omega

theorem C4_payload_size_witness :
    (VRTPacketImpl.has_trailer { m_packet_data := [0x14000004, 9, 1, 2] } = true ↔
      (VRTPacketImpl.get_packet_type { m_packet_data := [0x14000004, 9, 1, 2] } ≤ 3 ∧
        hdr_t (VRTPacketImpl.m_header { m_packet_data := [0x14000004, 9, 1, 2] }) = 1)) ∧
    ((VRTPacketImpl.get_payload_size { m_packet_data := [0x14000004, 9, 1, 2] } : Nat) : Int) =
      spec_payload_size
        (VRTPacketImpl.get_packet_size { m_packet_data := [0x14000004, 9, 1, 2] })
        (VRTPacketImpl.get_field_offset { m_packet_data := [0x14000004, 9, 1, 2] }
          VS49_FIELD.PAYLOAD)
        (VRTPacketImpl.has_trailer { m_packet_data := [0x14000004, 9, 1, 2] }) ∧
    VRTPacketImpl.get_payload_size { m_packet_data := [0x14000004, 9, 1, 2] } = 4 :=
  have h := C4_payload_size [0x14000004, 9, 1, 2] 16 { m_packet_data := [0x14000004, 9, 1, 2] }
    (by decide)
  ⟨h.1, (h.2 (by decide)).1, (h.2 (by decide)).2.trans (by decide)⟩

end Vita49

namespace Vita49

/-! ## Optional-field accessors -/

theorem class_id_split (w0 w1 : Nat) (h0 : w0 < 2 ^ 32) :
    (w0 + w1 * 2 ^ 32) / 2 ^ 32 % 2 ^ 24 = w1 % 2 ^ 24 ∧
    (w0 + w1 * 2 ^ 32) / 2 ^ 16 % 2 ^ 16 = w0 / 2 ^ 16 ∧
    (w0 + w1 * 2 ^ 32) % 2 ^ 16 = w0 % 2 ^ 16 := by
  omega

theorem rd_lt (p : List Nat) (i : Nat) : rd p i < 2 ^ 32 := by
  unfold rd WORD_MOD
  exact Nat.mod_lt _ (by norm_num)

theorem get_stream_id_eq (p : VRTPacketImpl) :
    p.get_stream_id =
      if p.get_packet_type = 1 ∨ p.get_packet_type = 3 ∨
         p.get_packet_type = 4 ∨ p.get_packet_type = 5
      then Except.ok (rd p.m_packet_data (p.get_field_offset VS49_FIELD.STREAM_ID))
      else Except.error Exn.runtime_error := by
  unfold VRTPacketImpl.get_stream_id
  by_cases h : p.has_stream_id = true
  · have h2 := (has_stream_id_iff p).1 h
    simp only [h, ne_eq, not_true_eq_false, if_false, h2, if_true]
  · have h2 : ¬ (p.get_packet_type = 1 ∨ p.get_packet_type = 3 ∨
        p.get_packet_type = 4 ∨ p.get_packet_type = 5) :=
      fun hh => h ((has_stream_id_iff p).2 hh)
    simp [h, h2]

theorem get_class_id_eq (p : VRTPacketImpl) :
    p.get_class_id =
      if hdr_c p.m_header = 0
      then Except.error Exn.runtime_error
      else Except.ok
        { organization_id :=
            rd p.m_packet_data (p.get_field_offset VS49_FIELD.CLASS_ID + 1) % 2 ^ 24
          info_class_code :=
            rd p.m_packet_data (p.get_field_offset VS49_FIELD.CLASS_ID) / 2 ^ 16
          packet_class_code :=
            rd p.m_packet_data (p.get_field_offset VS49_FIELD.CLASS_ID) % 2 ^ 16 } := by
  unfold VRTPacketImpl.get_class_id
  have hc : hdr_c p.m_header < 2 := by unfold hdr_c; omega
  by_cases h : p.has_class_id = true
  · have h2 := (has_class_id_iff p).1 h
    have h3 : ¬ hdr_c p.m_header = 0 := by omega
    obtain ⟨e1, e2, e3⟩ := class_id_split
      (rd p.m_packet_data (p.get_field_offset VS49_FIELD.CLASS_ID))
      (rd p.m_packet_data (p.get_field_offset VS49_FIELD.CLASS_ID + 1))
      (rd_lt _ _)
    simp only [h, ne_eq, not_true_eq_false, if_false, h3, e1, e2, e3]
  · have h3 : hdr_c p.m_header = 0 := by
      have : ¬ hdr_c p.m_header = 1 := fun hh => h ((has_class_id_iff p).2 hh)
      omega
    simp [h, h3]

theorem get_integer_timestamp_eq (p : VRTPacketImpl) :
    p.get_integer_timestamp =
      if hdr_tsi p.m_header = TSI_NONE
      then Except.error Exn.runtime_error
      else Except.ok (rd p.m_packet_data (p.get_field_offset VS49_FIELD.TSI)) := by
  unfold VRTPacketImpl.get_integer_timestamp
  simp only [get_integer_timestamp_type_eq]

theorem get_fractional_timestamp_eq (p : VRTPacketImpl) :
    p.get_fractional_timestamp =
      if hdr_tsf p.m_header = TSF_NONE
      then Except.error Exn.runtime_error
      else Except.ok
        (rd p.m_packet_data (p.get_field_offset VS49_FIELD.TSF) * 2 ^ 32 +
         rd p.m_packet_data (p.get_field_offset VS49_FIELD.TSF + 1)) := by
  unfold VRTPacketImpl.get_fractional_timestamp
    VRTPacketImpl.get_fractional_timestamp_type
  rfl

theorem get_trailer_eq (p : VRTPacketImpl) :
    p.get_trailer =
      if (p.get_packet_type = 4 ∨ p.get_packet_type = 5) ∨ hdr_t p.m_header = 0
      then Except.error Exn.runtime_error
      else Except.ok (rd p.m_packet_data (p.get_field_offset VS49_FIELD.TRAILER)) := by
  unfold VRTPacketImpl.get_trailer
  have ht : hdr_t p.m_header < 2 := by unfold hdr_t; omega
  by_cases h : p.has_trailer = true
  · have h2 := (has_trailer_iff p).1 h
    have h3 : ¬ ((p.get_packet_type = 4 ∨ p.get_packet_type = 5) ∨
        hdr_t p.m_header = 0) := by omega
    simp only [h, ne_eq, not_true_eq_false, if_false, h3]
  · have h3 : (p.get_packet_type = 4 ∨ p.get_packet_type = 5) ∨
        hdr_t p.m_header = 0 := by
      have hn := mt (has_trailer_iff p).2 h
      omega
    simp [h, h3]

/-- C5: every optional-field accessor throws exactly when the header marks the
field absent, and otherwise returns what is stored at the field offset:
`get_stream_id` throws iff the type is not in {1,3,4,5}; `get_class_id` iff the
class-id flag is clear; `get_integer_timestamp` iff `tsi` is NONE;
`get_fractional_timestamp` iff `tsf` is NONE; `get_trailer` iff the packet is a
context packet (type 4 or 5) or its trailer flag is clear. This holds for every
packet object, in particular for every parsed one. -/
theorem C5_optional_field_accessors (p : VRTPacketImpl) :
    (p.get_stream_id =
      if p.get_packet_type = 1 ∨ p.get_packet_type = 3 ∨
         p.get_packet_type = 4 ∨ p.get_packet_type = 5
      then Except.ok (rd p.m_packet_data (p.get_field_offset VS49_FIELD.STREAM_ID))
      else Except.error Exn.runtime_error) ∧
    (p.get_class_id =
      if hdr_c p.m_header = 0
      then Except.error Exn.runtime_error
      else Except.ok
        { organization_id :=
            rd p.m_packet_data (p.get_field_offset VS49_FIELD.CLASS_ID + 1) % 2 ^ 24
          info_class_code :=
            rd p.m_packet_data (p.get_field_offset VS49_FIELD.CLASS_ID) / 2 ^ 16
          packet_class_code :=
            rd p.m_packet_data (p.get_field_offset VS49_FIELD.CLASS_ID) % 2 ^ 16 }) ∧
    (p.get_integer_timestamp =
      if hdr_tsi p.m_header = TSI_NONE
      then Except.error Exn.runtime_error
      else Except.ok (rd p.m_packet_data (p.get_field_offset VS49_FIELD.TSI))) ∧
    (p.get_fractional_timestamp =
      if hdr_tsf p.m_header = TSF_NONE
      then Except.error Exn.runtime_error
      else Except.ok
        (rd p.m_packet_data (p.get_field_offset VS49_FIELD.TSF) * 2 ^ 32 +
         rd p.m_packet_data (p.get_field_offset VS49_FIELD.TSF + 1))) ∧
    (p.get_trailer =
      if (p.get_packet_type = 4 ∨ p.get_packet_type = 5) ∨ hdr_t p.m_header = 0
      then Except.error Exn.runtime_error
      else Except.ok (rd p.m_packet_data (p.get_field_offset VS49_FIELD.TRAILER))) :=
  ⟨get_stream_id_eq p, get_class_id_eq p, get_integer_timestamp_eq p,
    get_fractional_timestamp_eq p, get_trailer_eq p⟩

end Vita49

namespace Vita49

/-! ## The alignment scan -/

theorem rd_drop (l : List Nat) (k i : Nat) : rd (l.drop k) i = rd l (k + i) := by
  unfold rd
  simp [List.getD_eq_getElem?_getD, List.getElem?_drop]

theorem scan_alignment_stop (fuel : Nat) (frame_data : List Nat) (k size : Nat)
    (h : size < 20 ∨ rd frame_data k = FAW_VRLP ∨ rd frame_data k = FAW_VS49) :
    scan_alignment (fuel + 1) frame_data k size = some (k, size) := by
  have hc : ¬ (size ≥ 4 * 5 ∧ rd frame_data k ≠ FAW_VRLP ∧ rd frame_data k ≠ FAW_VS49) := by
    rintro ⟨h1, h2, h3⟩
    rcases h with h | h | h
    · omega
    · exact h2 h
    · exact h3 h
  simp only [scan_alignment]
  rw [if_neg hc]

theorem scan_alignment_skip (n : Nat) :
    ∀ (fuel : Nat) (frame_data : List Nat) (k size : Nat),
      (∀ j, j < n → rd frame_data (k + j) ≠ FAW_VRLP ∧ rd frame_data (k + j) ≠ FAW_VS49) →
      16 ≤ size →
      scan_alignment (fuel + n) frame_data k (size + 4 * n) =
        scan_alignment fuel frame_data (k + n) size := by
  induction n with
  | zero => intro fuel frame_data k size _ _; rfl
  | succ n ih =>
    intro fuel frame_data k size hw hsize
    have h0 := hw 0 (by omega)
    have hc : size + 4 * (n + 1) ≥ 4 * 5 ∧ rd frame_data k ≠ FAW_VRLP ∧
        rd frame_data k ≠ FAW_VS49 := ⟨by omega, h0.1, h0.2⟩
    have e1 : fuel + (n + 1) = (fuel + n) + 1 := by omega
    rw [e1]
    simp only [scan_alignment]
    rw [if_pos hc]
    have e2 : size + 4 * (n + 1) - 4 = size + 4 * n := by omega
    rw [e2, ih fuel frame_data (k + 1) size ?_ hsize]
    · have e3 : k + 1 + n = k + (n + 1) := by omega
      rw [e3]
    · intro j hj
      have := hw (j + 1) (by omega)
      have e4 : k + 1 + j = k + (j + 1) := by omega
      rw [e4]
      exact this

/-- The scan from the start of a window: if the first `k` words are not
alignment words, every one of them is skipped with at least 5 words left, and
the scan stops at word `k`, then it ends with the pointer at word `k`. -/
theorem scan_alignment_run (frame_data : List Nat) (size k : Nat)
    (hskip : ∀ j, j < k → rd frame_data j ≠ FAW_VRLP ∧ rd frame_data j ≠ FAW_VS49)
    (hroom : k = 0 ∨ 4 * k + 16 ≤ size)
    (hstop : size < 4 * k + 20 ∨ rd frame_data k = FAW_VRLP ∨ rd frame_data k = FAW_VS49) :
    scan_alignment (size / 4 + 1) frame_data 0 size = some (k, size - 4 * k) := by
  rcases Nat.eq_zero_or_pos k with hk | hk
  · subst hk
    simpa using scan_alignment_stop (size / 4) frame_data 0 size (by omega)
  · have hroom2 : 4 * k + 16 ≤ size := by omega
    have e1 : size / 4 + 1 = ((size - 4 * k) / 4 + 1) + k := by omega
    have e2 : size = (size - 4 * k) + 4 * k := by omega
    have hs := scan_alignment_skip k ((size - 4 * k) / 4 + 1) frame_data 0 (size - 4 * k)
      (by intro j hj; simpa using hskip j hj) (by omega)
    rw [e1]
    conv => lhs; arg 4; rw [e2]
    rw [hs]
    simp only [Nat.zero_add]
    exact scan_alignment_stop _ frame_data k (size - 4 * k) (by omega)

/-- The scan always ends within its fuel: it skips some `n` words that are not
alignment words and stops either short of 5 words or on an alignment word. -/
theorem scan_alignment_spec (fuel : Nat) :
    ∀ (frame_data : List Nat) (k size : Nat), size / 4 < fuel →
      ∃ n, scan_alignment fuel frame_data k size = some (k + n, size - 4 * n) ∧
        4 * n ≤ size ∧
        (∀ j, j < n → rd frame_data (k + j) ≠ FAW_VRLP ∧ rd frame_data (k + j) ≠ FAW_VS49) ∧
        (size - 4 * n < 20 ∨ rd frame_data (k + n) = FAW_VRLP ∨
          rd frame_data (k + n) = FAW_VS49) := by
  induction fuel with
  | zero => intro _ _ size h; omega
  | succ fuel ih =>
    intro frame_data k size hfuel
    by_cases hc : size ≥ 4 * 5 ∧ rd frame_data k ≠ FAW_VRLP ∧ rd frame_data k ≠ FAW_VS49
    · obtain ⟨n, h1, h2, h3, h4⟩ := ih frame_data (k + 1) (size - 4) (by omega)
      refine ⟨n + 1, ?_, by omega, ?_, ?_⟩
      · simp only [scan_alignment]
        rw [if_pos hc, h1]
        have e1 : k + 1 + n = k + (n + 1) := by omega
        have e2 : size - 4 - 4 * n = size - 4 * (n + 1) := by omega
        rw [e1, e2]
      · intro j hj
        rcases Nat.eq_zero_or_pos j with hj0 | hj0
        · subst hj0; exact ⟨hc.2.1, hc.2.2⟩
        · have := h3 (j - 1) (by omega)
          have e3 : k + 1 + (j - 1) = k + j := by omega
          rw [e3] at this
          exact this
      · have e1 : k + 1 + n = k + (n + 1) := by omega
        have e2 : size - 4 - 4 * n = size - 4 * (n + 1) := by omega
        rw [e1, e2] at h4
        exact h4
    · refine ⟨0, ?_, by omega, ?_, ?_⟩
      · simp only [scan_alignment]
        rw [if_neg hc]
        rfl
      · intro j hj; omega
      · simp only [Nat.add_zero, Nat.mul_zero, Nat.sub_zero]
        by_contra hcon
        apply hc
        refine ⟨by omega, ?_, ?_⟩
        · intro h; exact hcon (Or.inr (Or.inl h))
        · intro h; exact hcon (Or.inr (Or.inr h))

end Vita49

namespace Vita49

/-! ## The frame constructor after the scan -/

theorem parse_packets_total (fuel : Nat) :
    ∀ (m_frame_data : List Nat) (frame_size packet_offset : Nat)
      (m_packets : List VRTPacketImpl),
      1 ≤ fuel → frame_size ≤ packet_offset + fuel + 1 →
      ∃ r, parse_packets fuel m_frame_data frame_size packet_offset m_packets = some r := by
  induction fuel with
  | zero => intro _ _ _ _ h; omega
  | succ fuel ih =>
    intro m_frame_data frame_size packet_offset m_packets _ hF
    simp only [parse_packets]
    split
    · exact ⟨_, rfl⟩
    · rename_i packet _
      split
      · exact ⟨_, rfl⟩
      · rename_i hsz
        split
        · rename_i hlt
          exact ih m_frame_data frame_size _ _ (by omega) (by omega)
        · exact ⟨_, rfl⟩

/-- The outcome of the constructor once the scan has stopped at word `k` with
`size'` bytes left. -/
theorem parse_of_scan (frame_data : List Nat) (size k size' : Nat) (h20 : 20 ≤ size)
    (hscan : scan_alignment (size / 4 + 1) frame_data 0 size = some (k, size')) :
    VRLFrame.parse frame_data size =
      if size' < 20 then some ⟨some k, Except.error Exn.runtime_error⟩
      else if rd frame_data (k + 1) % 2 ^ 20 > size' / 4 then
        some ⟨some k, Except.error Exn.index_error⟩
      else
        (parse_packets (rd frame_data (k + 1) % 2 ^ 20 + 1) (frame_data.drop k)
            (rd frame_data (k + 1) % 2 ^ 20) 2 []).map
          (fun r => ⟨some k, r.map (fun pk =>
            { m_frame_data := frame_data.drop k, m_packets := pk })⟩) := by
  unfold VRLFrame.parse
  have h1 : ¬ size < 4 * 5 := by omega
  simp only [h1, if_false, hscan, rd_drop]
  by_cases h2 : size' < 20
  · simp only [show size' < 4 * 5 from h2, h2, if_true]
  · simp only [show ¬ size' < 4 * 5 from h2, h2, if_false]
    by_cases h3 : rd frame_data (k + 1) % 2 ^ 20 > size' / 4
    · simp only [h3, if_true]
    · simp only [h3, if_false]
      cases parse_packets (rd frame_data (k + 1) % 2 ^ 20 + 1) (frame_data.drop k)
          (rd frame_data (k + 1) % 2 ^ 20) 2 [] with
      | none => rfl
      | some r =>
        cases r with
        | error e => rfl
        | ok pk => rfl

/-- Totality: `VRLFrame::parse` returns or throws for every input, the fuel of
both loops is enough. -/
theorem VRLFrame_parse_total (frame_data : List Nat) (size : Nat) :
    ∃ o, VRLFrame.parse frame_data size = some o := by
  by_cases h20 : 20 ≤ size
  · obtain ⟨n, hn, _, _, _⟩ := scan_alignment_spec (size / 4 + 1) frame_data 0 size (by omega)
    rw [parse_of_scan frame_data size _ _ h20 hn]
    split
    · exact ⟨_, rfl⟩
    · split
      · exact ⟨_, rfl⟩
      · obtain ⟨r, hr⟩ := parse_packets_total (rd frame_data (0 + n + 1) % 2 ^ 20 + 1)
          (frame_data.drop (0 + n)) (rd frame_data (0 + n + 1) % 2 ^ 20) 2 []
          (by omega) (by omega)
        rw [hr]
        exact ⟨_, rfl⟩
  · unfold VRLFrame.parse
    have h1 : size < 4 * 5 := by omega
    simp only [h1, if_true]
    exact ⟨_, rfl⟩

end Vita49

namespace Vita49

theorem rd_append_right (pre w : List Nat) (i : Nat) :
    rd (pre ++ w) (pre.length + i) = rd w i := by
  rw [← rd_drop, List.drop_left]

theorem rd_append_left (pre w : List Nat) (j : Nat) (hj : j < pre.length) :
    rd (pre ++ w) j = pre.get ⟨j, hj⟩ % WORD_MOD := by
  unfold rd
  simp [List.getD_eq_getElem?_getD, List.getElem?_append_left hj, List.getElem?_eq_getElem hj]

/-- What a successful `VRLFrame::parse` went through. -/
theorem parse_ok_inv (frame_data : List Nat) (size : Nat) (idx : Option Nat)
    (frame : VRLFrameImpl)
    (hparse : VRLFrame.parse frame_data size = some ⟨idx, Except.ok frame⟩) :
    ∃ k, idx = some k ∧ 4 * k + 20 ≤ size ∧
      scan_alignment (size / 4 + 1) frame_data 0 size = some (k, size - 4 * k) ∧
      (∀ j, j < k → rd frame_data j ≠ FAW_VRLP ∧ rd frame_data j ≠ FAW_VS49) ∧
      (rd frame_data k = FAW_VRLP ∨ rd frame_data k = FAW_VS49) ∧
      rd frame_data (k + 1) % 2 ^ 20 ≤ (size - 4 * k) / 4 ∧
      frame.m_frame_data = frame_data.drop k ∧
      parse_packets (rd frame_data (k + 1) % 2 ^ 20 + 1) (frame_data.drop k)
        (rd frame_data (k + 1) % 2 ^ 20) 2 [] = some (Except.ok frame.m_packets) := by
  have h20 : 20 ≤ size := by
    by_contra h
    unfold VRLFrame.parse at hparse
    have h1 : size < 4 * 5 := by omega
    simp only [h1, if_true] at hparse
    injection hparse with hparse
    injection hparse with _ h2
    cases h2
  obtain ⟨n, hn, hle, hskip, hstop⟩ :=
    scan_alignment_spec (size / 4 + 1) frame_data 0 size (by omega)
  simp only [Nat.zero_add] at hn hskip hstop
  rw [parse_of_scan frame_data size _ _ h20 hn] at hparse
  by_cases h2 : size - 4 * n < 20
  · simp only [h2, if_true] at hparse
    injection hparse with hparse
    injection hparse with _ h3
    cases h3
  · simp only [h2, if_false] at hparse
    by_cases h3 : rd frame_data (n + 1) % 2 ^ 20 > (size - 4 * n) / 4
    · simp only [h3, if_true] at hparse
      injection hparse with hparse
      injection hparse with _ h4
      cases h4
    · simp only [h3, if_false] at hparse
      cases hpk : parse_packets (rd frame_data (n + 1) % 2 ^ 20 + 1) (frame_data.drop n)
          (rd frame_data (n + 1) % 2 ^ 20) 2 [] with
      | none => rw [hpk] at hparse; cases hparse
      | some r =>
        rw [hpk] at hparse
        simp only [Option.map_some'] at hparse
        injection hparse with hparse
        injection hparse with hidx hres
        cases r with
        | error e => cases hres
        | ok pk =>
          simp only [Except.map] at hres
          injection hres with hres
          refine ⟨n, hidx.symm, by omega, hn, hskip, ?_, by omega, ?_, ?_⟩
          · rcases hstop with h | h
            · omega
            · exact h
          · rw [← hres]
          · rw [← hres]
            exact hpk

/-- The converse: a scan that stops on word `k` with room for the frame, and
a packet walk that ends normally, make `VRLFrame::parse` succeed. -/
theorem parse_ok_intro (frame_data : List Nat) (size k : Nat)
    (pk : List VRTPacketImpl)
    (hskip : ∀ j, j < k → rd frame_data j ≠ FAW_VRLP ∧ rd frame_data j ≠ FAW_VS49)
    (hfaw : rd frame_data k = FAW_VRLP ∨ rd frame_data k = FAW_VS49)
    (hroom : 4 * k + 20 ≤ size)
    (hfit : rd frame_data (k + 1) % 2 ^ 20 ≤ (size - 4 * k) / 4)
    (hpk : parse_packets (rd frame_data (k + 1) % 2 ^ 20 + 1) (frame_data.drop k)
        (rd frame_data (k + 1) % 2 ^ 20) 2 [] = some (Except.ok pk)) :
    VRLFrame.parse frame_data size =
      some ⟨some k, Except.ok { m_frame_data := frame_data.drop k, m_packets := pk }⟩ := by
  have hscan := scan_alignment_run frame_data size k hskip (by omega) (Or.inr hfaw)
  rw [parse_of_scan frame_data size k _ (by omega) hscan]
  have h2 : ¬ size - 4 * k < 20 := by omega
  have h3 : ¬ rd frame_data (k + 1) % 2 ^ 20 > (size - 4 * k) / 4 := by omega
  simp only [h2, h3, if_false, hpk, Option.map_some', Except.map]

end Vita49

namespace Vita49

/-! ## Index of the alignment word and failures of the scan -/

/-- C7: whenever `VRLFrame::parse` succeeds, the index it stores is the number
`k` of words skipped before the alignment word: word `k` is VRLP or VS49, no
earlier word is, the frame starts at word `k`, and `frame_size` (low 20 bits)
and `frame_count` (high 12 bits) are read from word `k + 1`. And when the index
is 0, putting any words that are not alignment words in front of the window
(and growing the byte length accordingly) gives the same frame with the index
equal to the number of words put in front. -/
theorem C7_index_counts_skipped_words (window : List Nat) (size : Nat)
    (idx : Option Nat) (frame : VRLFrameImpl)
    (hparse : VRLFrame.parse window size = some ⟨idx, Except.ok frame⟩) :
    (∃ k, idx = some k ∧
      (rd window k = FAW_VRLP ∨ rd window k = FAW_VS49) ∧
      (∀ j, j < k → rd window j ≠ FAW_VRLP ∧ rd window j ≠ FAW_VS49) ∧
      frame.m_frame_data = window.drop k ∧
      frame.get_frame_size = rd window (k + 1) % 2 ^ 20 ∧
      frame.get_frame_count = rd window (k + 1) / 2 ^ 20) ∧
    (idx = some 0 → ∀ pre : List Nat,
      (∀ w ∈ pre, w % WORD_MOD ≠ FAW_VRLP ∧ w % WORD_MOD ≠ FAW_VS49) →
      VRLFrame.parse (pre ++ window) (size + 4 * pre.length) =
        some ⟨some pre.length, Except.ok frame⟩) := by
  obtain ⟨k, hidx, hroom, _, hskip, hfaw, hfit, hdata, hpk⟩ :=
    parse_ok_inv window size idx frame hparse
  constructor
  · refine ⟨k, hidx, hfaw, hskip, hdata, ?_, ?_⟩
    · unfold VRLFrameImpl.get_frame_size VRLFrameImpl.m_frame_info
      rw [hdata, rd_drop]
    · unfold VRLFrameImpl.get_frame_count VRLFrameImpl.m_frame_info
      rw [hdata, rd_drop]
      have := rd_lt window (k + 1)
      omega
  · intro h0 pre hpre
    have hk : k = 0 := by
      rw [hidx] at h0
      injection h0
    subst hk
    have e1 : ∀ i, rd (pre ++ window) (pre.length + i) = rd window i :=
      fun i => rd_append_right pre window i
    have hres := parse_ok_intro (pre ++ window) (size + 4 * pre.length) pre.length
      frame.m_packets
      (by
        intro j hj
        rw [rd_append_left pre window j hj]
        exact hpre _ (List.get_mem pre j hj))
      (by
        have e0 := e1 0
        simp only [Nat.add_zero] at e0
        rw [e0]
        exact hfaw)
      (by omega)
      (by
        rw [e1]
        simp only [Nat.zero_add, Nat.mul_zero, Nat.sub_zero] at hfit
        have e2 : size + 4 * pre.length - 4 * pre.length = size := by omega
        rw [e2]
        exact hfit)
      (by
        rw [e1, List.drop_left]
        simpa using hpk)
    rw [hres, List.drop_left]
    have e3 : frame = { m_frame_data := window, m_packets := frame.m_packets } := by
      cases frame with
      | mk d pk =>
        simp only [List.drop_zero] at hdata
        simp only [hdata]
    rw [← e3]

theorem C7_index_counts_skipped_words_witness :
    (∃ k, some 0 = some k ∧
      (rd [0x56524C50, 0x00100004, 0x10000001, 0x56454E44, 0] k = FAW_VRLP ∨
        rd [0x56524C50, 0x00100004, 0x10000001, 0x56454E44, 0] k = FAW_VS49) ∧
      (∀ j, j < k → rd [0x56524C50, 0x00100004, 0x10000001, 0x56454E44, 0] j ≠ FAW_VRLP ∧
        rd [0x56524C50, 0x00100004, 0x10000001, 0x56454E44, 0] j ≠ FAW_VS49) ∧
      (VRLFrameImpl.mk [0x56524C50, 0x00100004, 0x10000001, 0x56454E44, 0]
          [⟨[0x10000001, 0x56454E44, 0]⟩]).m_frame_data =
        [0x56524C50, 0x00100004, 0x10000001, 0x56454E44, 0].drop k ∧
      (VRLFrameImpl.mk [0x56524C50, 0x00100004, 0x10000001, 0x56454E44, 0]
          [⟨[0x10000001, 0x56454E44, 0]⟩]).get_frame_size =
        rd [0x56524C50, 0x00100004, 0x10000001, 0x56454E44, 0] (k + 1) % 2 ^ 20 ∧
      (VRLFrameImpl.mk [0x56524C50, 0x00100004, 0x10000001, 0x56454E44, 0]
          [⟨[0x10000001, 0x56454E44, 0]⟩]).get_frame_count =
        rd [0x56524C50, 0x00100004, 0x10000001, 0x56454E44, 0] (k + 1) / 2 ^ 20) ∧
    (some 0 = some 0 → ∀ pre : List Nat,
      (∀ w ∈ pre, w % WORD_MOD ≠ FAW_VRLP ∧ w % WORD_MOD ≠ FAW_VS49) →
      VRLFrame.parse (pre ++ [0x56524C50, 0x00100004, 0x10000001, 0x56454E44, 0])
          (20 + 4 * pre.length) =
        some ⟨some pre.length, Except.ok
          (VRLFrameImpl.mk [0x56524C50, 0x00100004, 0x10000001, 0x56454E44, 0]
            [⟨[0x10000001, 0x56454E44, 0]⟩])⟩) :=
  C7_index_counts_skipped_words [0x56524C50, 0x00100004, 0x10000001, 0x56454E44, 0] 20
    (some 0)
    (VRLFrameImpl.mk [0x56524C50, 0x00100004, 0x10000001, 0x56454E44, 0]
      [⟨[0x10000001, 0x56454E44, 0]⟩])
    (by decide)

/-- C8 (as stated, refuted): in this 5-word window the first word is not an
alignment word, so after skipping it only 4 words remain (the alignment word is
word 1); `VRLFrame::parse` throws `std::runtime_error`, not `index_error`. -/
theorem C8_short_after_skip_counterexample :
    VRLFrame.parse [0, 0x56524C50, 0x00100004, 0x10000001, 0x56454E44] 20 =
      some ⟨some 1, Except.error Exn.runtime_error⟩ ∧
    (VRLFrame.parse [0, 0x56524C50, 0x00100004, 0x10000001, 0x56454E44] 20).map
      ParseOutcome.result ≠ some (Except.error Exn.index_error) := by
  decide

/-- C8 (amended): a window shorter than 5 words (20 bytes) from the start makes
`VRLFrame::parse` throw `index_error`; a window of at least 5 words that drops
below 5 words after skipping `k >= 1` words that are not alignment words makes
it throw `std::runtime_error`, with the index set to `k`. -/
theorem C8_fewer_than_five_words (frame_data : List Nat) (size k : Nat) :
    (size < 20 →
      VRLFrame.parse frame_data size = some ⟨none, Except.error Exn.index_error⟩) ∧
    (1 ≤ k →
      (∀ j, j < k → rd frame_data j ≠ FAW_VRLP ∧ rd frame_data j ≠ FAW_VS49) →
      4 * (k - 1) + 20 ≤ size → size - 4 * k < 20 →
      VRLFrame.parse frame_data size = some ⟨some k, Except.error Exn.runtime_error⟩) := by
  constructor
  · intro h
    unfold VRLFrame.parse
    have h1 : size < 4 * 5 := by omega
    simp only [h1, if_true]
  · intro hk hskip hroom hshort
    have hscan := scan_alignment_run frame_data size k hskip (by omega) (Or.inl (by omega))
    rw [parse_of_scan frame_data size k _ (by omega) hscan]
    simp only [hshort, if_true]

theorem C8_fewer_than_five_words_witness :
    VRLFrame.parse [0x56524C50, 0x00100004, 0x10000001, 0x56454E44] 16 =
      some ⟨none, Except.error Exn.index_error⟩ ∧
    VRLFrame.parse [7, 0x56524C50, 0x00100004, 0x10000001, 0x56454E44] 20 =
      some ⟨some 1, Except.error Exn.runtime_error⟩ :=
  ⟨(C8_fewer_than_five_words [0x56524C50, 0x00100004, 0x10000001, 0x56454E44] 16 0).1
      (by decide),
   (C8_fewer_than_five_words [7, 0x56524C50, 0x00100004, 0x10000001, 0x56454E44] 20 1).2
      (by decide) (by decide) (by decide) (by decide)⟩

/-- C9: for a window of at least 5 words (20 bytes) none of whose words is an
alignment word, `VRLFrame::parse` throws `std::runtime_error` (and so not
`index_error`); the index it leaves is the number of words it skipped. -/
theorem C9_no_alignment_word (frame_data : List Nat) (size : Nat) (h5 : 20 ≤ size)
    (hno : ∀ j, j < size / 4 → rd frame_data j ≠ FAW_VRLP ∧ rd frame_data j ≠ FAW_VS49) :
    VRLFrame.parse frame_data size =
      some ⟨some ((size - 16) / 4), Except.error Exn.runtime_error⟩ := by
  have hscan := scan_alignment_run frame_data size ((size - 16) / 4)
    (fun j hj => hno j (by omega)) (by omega) (Or.inl (by omega))
  rw [parse_of_scan frame_data size _ _ h5 hscan]
  have : size - 4 * ((size - 16) / 4) < 20 := by omega
  simp only [this, if_true]

theorem C9_no_alignment_word_witness :
    VRLFrame.parse [1, 2, 3, 4, 5, 6, 7] 28 =
      some ⟨some ((28 - 16) / 4), Except.error Exn.runtime_error⟩ :=
  C9_no_alignment_word [1, 2, 3, 4, 5, 6, 7] 28 (by decide) (by decide)

/-- C10: when the alignment word is found at word `k` of a window of `L` bytes
(no earlier word is an alignment word and at least 5 words remain from word
`k`) and the `frame_size` in word `k + 1` exceeds the remaining word count
`(L - 4k) / 4`, `VRLFrame::parse` throws `index_error` with the index set to
`k`. The outcome depends on words `0..k+1` only, so no packet is read. -/
theorem C10_frame_larger_than_window (frame_data : List Nat) (L k : Nat)
    (hskip : ∀ j, j < k → rd frame_data j ≠ FAW_VRLP ∧ rd frame_data j ≠ FAW_VS49)
    (hfaw : rd frame_data k = FAW_VRLP ∨ rd frame_data k = FAW_VS49)
    (hroom : 4 * k + 20 ≤ L)
    (hbig : rd frame_data (k + 1) % 2 ^ 20 > (L - 4 * k) / 4) :
    VRLFrame.parse frame_data L = some ⟨some k, Except.error Exn.index_error⟩ := by
  have hscan := scan_alignment_run frame_data L k hskip (by omega) (Or.inr hfaw)
  rw [parse_of_scan frame_data L k _ (by omega) hscan]
  have h2 : ¬ L - 4 * k < 20 := by omega
  simp only [h2, if_false, hbig, if_true]

theorem C10_frame_larger_than_window_witness :
    VRLFrame.parse [9, 0x56533439, 0x00100007, 0x10000003, 1, 2] 24 =
      some ⟨some 1, Except.error Exn.index_error⟩ :=
  C10_frame_larger_than_window [9, 0x56533439, 0x00100007, 0x10000003, 1, 2] 24 1
    (by decide) (by decide) (by decide) (by decide)

end Vita49

namespace Vita49

/-! ## Round trip against the reference encoder -/

theorem encode_header_fields (f : PacketFields) (hwf : well_formed f) :
    encode_header f < 2 ^ 32 ∧
    hdr_packet_type (encode_header f) = f.packet_type ∧
    hdr_c (encode_header f) = (if f.class_id.isSome then 1 else 0) ∧
    hdr_t (encode_header f) = (if f.trailer.isSome then 1 else 0) ∧
    hdr_tsm (encode_header f) = f.tsm ∧
    hdr_tsi (encode_header f) = f.tsi ∧
    hdr_tsf (encode_header f) = f.tsf ∧
    hdr_packet_count (encode_header f) = f.packet_count ∧
    hdr_packet_size (encode_header f) = encoded_size f := by
  obtain ⟨h1, h2, h3, h4, h5, h6, _, _, _, _, _, _, _, _, _, _, _, _, h19⟩ := hwf
  unfold encode_header hdr_packet_type hdr_c hdr_t hdr_tsm hdr_tsi hdr_tsf
    hdr_packet_count hdr_packet_size
  generalize encoded_size f = n at *
  generalize f.packet_type = pt at *
  generalize f.packet_count = pc at *
  generalize f.tsm = tsm at *
  generalize f.rsvd = rsvd at *
  generalize f.tsi = tsi at *
  generalize f.tsf = tsf at *
  have hc : (if f.class_id.isSome = true then 1 else 0) < 2 := by split <;> omega
  have ht : (if f.trailer.isSome = true then 1 else 0) < 2 := by split <;> omega
  generalize (if f.class_id.isSome = true then 1 else 0) = c at *
  generalize (if f.trailer.isSome = true then 1 else 0) = t at *
  omega

theorem rd_cons_zero (a : Nat) (l : List Nat) : rd (a :: l) 0 = a % WORD_MOD := rfl

theorem rd_cons_succ (a : Nat) (l : List Nat) (i : Nat) : rd (a :: l) (i + 1) = rd l i := rfl

/-- Reading past a prefix of known length. -/
theorem rd_at (pre w : List Nat) (n i : Nat) (hn : n = pre.length) :
    rd (pre ++ w) (n + i) = rd w i := by
  subst hn
  exact rd_append_right pre w i

theorem encoded_m_header (f : PacketFields) (hwf : well_formed f) (rest : List Nat) :
    VRTPacketImpl.m_header { m_packet_data := encode_packet f ++ rest } = encode_header f := by
  unfold VRTPacketImpl.m_header encode_packet
  simp only [List.cons_append, rd_cons_zero, WORD_MOD]
  exact Nat.mod_eq_of_lt (encode_header_fields f hwf).1

theorem toList_length_eq (o : Option Nat) : o.toList.length = o.isSome.toNat := by
  cases o <;> rfl

theorem class_id_words_length (o : Option class_identifier) :
    (class_id_words o).length = 2 * o.isSome.toNat := by
  cases o <;> rfl

theorem fractional_words_length (o : Option Nat) :
    (fractional_words o).length = 2 * o.isSome.toNat := by
  cases o <;> rfl

/-- The offsets that `get_field_offset` computes for an encoded packet are the
lengths of the encoded prefixes. -/
theorem encoded_offsets (f : PacketFields) (hwf : well_formed f) (rest : List Nat) :
    VRTPacketImpl.get_field_offset { m_packet_data := encode_packet f ++ rest }
      VS49_FIELD.STREAM_ID = 1 ∧
    VRTPacketImpl.get_field_offset { m_packet_data := encode_packet f ++ rest }
      VS49_FIELD.CLASS_ID = 1 + f.stream_id.toList.length ∧
    VRTPacketImpl.get_field_offset { m_packet_data := encode_packet f ++ rest }
      VS49_FIELD.TSI = 1 + f.stream_id.toList.length + (class_id_words f.class_id).length ∧
    VRTPacketImpl.get_field_offset { m_packet_data := encode_packet f ++ rest }
      VS49_FIELD.TSF = 1 + f.stream_id.toList.length + (class_id_words f.class_id).length +
        f.integer_timestamp.toList.length ∧
    VRTPacketImpl.get_field_offset { m_packet_data := encode_packet f ++ rest }
      VS49_FIELD.PAYLOAD = 1 + (encode_fields f).length := by
  have hh := encode_header_fields f hwf
  have hm := encoded_m_header f hwf rest
  obtain ⟨_, _, _, _, _, _, w7, w8, w9, _⟩ := hwf
  have hchain := get_field_offset_chain { m_packet_data := encode_packet f ++ rest }
    f.stream_id.isSome f.class_id.isSome f.integer_timestamp.isSome
    f.fractional_timestamp.isSome
    (by unfold VRTPacketImpl.get_packet_type; rw [hm, hh.2.1]; exact w7)
    (by rw [hm, hh.2.2.1]; cases f.class_id <;> simp)
    (by rw [hm, hh.2.2.2.2.2.1]; exact w8)
    (by rw [hm, hh.2.2.2.2.2.2.1]; exact w9)
  obtain ⟨c1, c2, c3, c4, c5⟩ := hchain
  refine ⟨c1, ?_, ?_, ?_, ?_⟩
  · rw [c2, toList_length_eq]
  · rw [c3, toList_length_eq, class_id_words_length]
  · rw [c4, toList_length_eq, class_id_words_length, toList_length_eq]
  · rw [c5]
    unfold encode_fields
    simp only [List.length_append, toList_length_eq, class_id_words_length,
      fractional_words_length]
    omega

end Vita49

namespace Vita49

theorem encoded_get_stream_id (f : PacketFields) (hwf : well_formed f) (rest : List Nat) :
    VRTPacketImpl.get_stream_id { m_packet_data := encode_packet f ++ rest } =
      field_result f.stream_id := by
  have hh := encode_header_fields f hwf
  have hm := encoded_m_header f hwf rest
  have ho := (encoded_offsets f hwf rest).1
  obtain ⟨_, _, _, _, _, _, w7, _, _, _, w11, _⟩ := hwf
  rw [get_stream_id_eq, ho]
  unfold VRTPacketImpl.get_packet_type
  rw [hm, hh.2.1]
  cases hs : f.stream_id with
  | none =>
    rw [hs] at w7
    have hn : ¬ (f.packet_type = 1 ∨ f.packet_type = 3 ∨ f.packet_type = 4 ∨
        f.packet_type = 5) := fun h => by simpa using w7.2 h
    simp only [hn, if_false, field_result]
  | some v =>
    rw [hs] at w7 w11
    have hy := w7.1 rfl
    have hv : v < 2 ^ 32 := w11
    simp only [hy, if_true, field_result, encode_packet, encode_body, encode_fields, hs,
      Option.toList, List.cons_append, List.nil_append, rd_cons_succ, rd_cons_zero, WORD_MOD]
    rw [Nat.mod_eq_of_lt hv]

theorem encoded_get_class_id (f : PacketFields) (hwf : well_formed f) (rest : List Nat) :
    VRTPacketImpl.get_class_id { m_packet_data := encode_packet f ++ rest } =
      field_result f.class_id := by
  have hh := encode_header_fields f hwf
  have hm := encoded_m_header f hwf rest
  have ho := (encoded_offsets f hwf rest).2.1
  obtain ⟨_, _, _, _, _, _, _, _, _, _, _, w12, w13, w14, _⟩ := hwf
  rw [get_class_id_eq, ho, hm, hh.2.2.1]
  cases hs : f.class_id with
  | none => simp [field_result]
  | some cid =>
    rw [hs] at w12 w13 w14
    have h1 : cid.organization_id < 2 ^ 24 := w12
    have h2 : cid.info_class_code < 2 ^ 16 := w13
    have h3 : cid.packet_class_code < 2 ^ 16 := w14
    have e : encode_packet f ++ rest =
        (encode_header f :: f.stream_id.toList) ++
          ((cid.info_class_code * 2 ^ 16 + cid.packet_class_code) :: cid.organization_id ::
            (f.integer_timestamp.toList ++ (fractional_words f.fractional_timestamp ++
              (f.payload ++ (f.trailer.toList ++ rest))))) := by
      simp [encode_packet, encode_body, encode_fields, hs, class_id_words]
    have r0 := rd_at (encode_header f :: f.stream_id.toList)
      ((cid.info_class_code * 2 ^ 16 + cid.packet_class_code) :: cid.organization_id ::
        (f.integer_timestamp.toList ++ (fractional_words f.fractional_timestamp ++
          (f.payload ++ (f.trailer.toList ++ rest)))))
      (1 + f.stream_id.toList.length) 0 (by simp; omega)
    have r1 := rd_at (encode_header f :: f.stream_id.toList)
      ((cid.info_class_code * 2 ^ 16 + cid.packet_class_code) :: cid.organization_id ::
        (f.integer_timestamp.toList ++ (fractional_words f.fractional_timestamp ++
          (f.payload ++ (f.trailer.toList ++ rest)))))
      (1 + f.stream_id.toList.length) 1 (by simp; omega)
    rw [← e] at r0 r1
    simp only [Nat.add_zero] at r0
    rw [r0, r1]
    have q1 : cid.organization_id % 2 ^ 32 % 2 ^ 24 = cid.organization_id := by omega
    have q2 : (cid.info_class_code * 2 ^ 16 + cid.packet_class_code) % 2 ^ 32 / 2 ^ 16 =
        cid.info_class_code := by omega
    have q3 : (cid.info_class_code * 2 ^ 16 + cid.packet_class_code) % 2 ^ 32 % 2 ^ 16 =
        cid.packet_class_code := by omega
    have hc1 : ¬ ((if (some cid).isSome = true then 1 else 0) = 0) := by simp
    rw [if_neg hc1]
    simp only [rd_cons_succ, rd_cons_zero, WORD_MOD, field_result]
    rw [q1, q2, q3]

theorem encoded_get_integer_timestamp (f : PacketFields) (hwf : well_formed f)
    (rest : List Nat) :
    VRTPacketImpl.get_integer_timestamp { m_packet_data := encode_packet f ++ rest } =
      field_result f.integer_timestamp := by
  have hh := encode_header_fields f hwf
  have hm := encoded_m_header f hwf rest
  have ho := (encoded_offsets f hwf rest).2.2.1
  obtain ⟨_, _, _, _, _, _, _, w8, _, _, _, _, _, _, w15, _⟩ := hwf
  rw [get_integer_timestamp_eq, ho, hm, hh.2.2.2.2.2.1]
  cases hs : f.integer_timestamp with
  | none =>
    rw [hs] at w8
    have : f.tsi = TSI_NONE := by
      by_contra h
      simpa using w8.2 h
    simp [this, field_result]
  | some v =>
    rw [hs] at w8 w15
    have hne : ¬ f.tsi = TSI_NONE := w8.1 rfl
    have hv : v < 2 ^ 32 := w15
    have e : encode_packet f ++ rest =
        (encode_header f :: (f.stream_id.toList ++ class_id_words f.class_id)) ++
          (v :: (fractional_words f.fractional_timestamp ++
              (f.payload ++ (f.trailer.toList ++ rest)))) := by
      simp [encode_packet, encode_body, encode_fields, hs]
    have r0 := rd_at (encode_header f :: (f.stream_id.toList ++ class_id_words f.class_id))
      (v :: (fractional_words f.fractional_timestamp ++
              (f.payload ++ (f.trailer.toList ++ rest))))
      (1 + f.stream_id.toList.length + (class_id_words f.class_id).length) 0
      (by simp; omega)
    rw [← e] at r0
    simp only [Nat.add_zero] at r0
    rw [r0]
    simp only [hne, if_false, rd_cons_zero, WORD_MOD, field_result]
    rw [Nat.mod_eq_of_lt hv]

theorem encoded_get_fractional_timestamp (f : PacketFields) (hwf : well_formed f)
    (rest : List Nat) :
    VRTPacketImpl.get_fractional_timestamp { m_packet_data := encode_packet f ++ rest } =
      field_result f.fractional_timestamp := by
  have hh := encode_header_fields f hwf
  have hm := encoded_m_header f hwf rest
  have ho := (encoded_offsets f hwf rest).2.2.2.1
  obtain ⟨_, _, _, _, _, _, _, _, w9, _, _, _, _, _, _, w16, _⟩ := hwf
  rw [get_fractional_timestamp_eq, ho, hm, hh.2.2.2.2.2.2.1]
  cases hs : f.fractional_timestamp with
  | none =>
    rw [hs] at w9
    have : f.tsf = TSF_NONE := by
      by_contra h
      simpa using w9.2 h
    simp [this, field_result]
  | some v =>
    rw [hs] at w9 w16
    have hne : ¬ f.tsf = TSF_NONE := w9.1 rfl
    have hv : v < 2 ^ 64 := w16
    have e : encode_packet f ++ rest =
        (encode_header f :: (f.stream_id.toList ++ (class_id_words f.class_id ++
            f.integer_timestamp.toList))) ++
          (v / 2 ^ 32 :: v % 2 ^ 32 :: (f.payload ++ (f.trailer.toList ++ rest))) := by
      simp [encode_packet, encode_body, encode_fields, hs, fractional_words]
    have r0 := rd_at (encode_header f :: (f.stream_id.toList ++ (class_id_words f.class_id ++
            f.integer_timestamp.toList)))
      (v / 2 ^ 32 :: v % 2 ^ 32 :: (f.payload ++ (f.trailer.toList ++ rest)))
      (1 + f.stream_id.toList.length + (class_id_words f.class_id).length +
        f.integer_timestamp.toList.length) 0
      (by simp; omega)
    have r1 := rd_at (encode_header f :: (f.stream_id.toList ++ (class_id_words f.class_id ++
            f.integer_timestamp.toList)))
      (v / 2 ^ 32 :: v % 2 ^ 32 :: (f.payload ++ (f.trailer.toList ++ rest)))
      (1 + f.stream_id.toList.length + (class_id_words f.class_id).length +
        f.integer_timestamp.toList.length) 1
      (by simp; omega)
    rw [← e] at r0 r1
    simp only [Nat.add_zero] at r0
    rw [r0, r1]
    simp only [hne, if_false, rd_cons_succ, rd_cons_zero, WORD_MOD, field_result]
    have q : v / 2 ^ 32 % 2 ^ 32 * 2 ^ 32 + v % 2 ^ 32 % 2 ^ 32 = v := by omega
    rw [q]

end Vita49

namespace Vita49

theorem encoded_size_eq (f : PacketFields) :
    encoded_size f = 1 + (encode_fields f).length + f.payload.length + f.trailer.toList.length := by
  unfold encoded_size encode_body
  simp only [List.length_append]
  omega

theorem encoded_has_trailer (f : PacketFields) (hwf : well_formed f) (rest : List Nat) :
    VRTPacketImpl.has_trailer { m_packet_data := encode_packet f ++ rest } =
      f.trailer.isSome := by
  have hh := encode_header_fields f hwf
  have hm := encoded_m_header f hwf rest
  obtain ⟨_, _, _, _, _, _, _, _, _, w10, _⟩ := hwf
  rw [Bool.eq_iff_iff, has_trailer_iff]
  unfold VRTPacketImpl.get_packet_type
  rw [hm, hh.2.1, hh.2.2.2.1]
  cases hs : f.trailer with
  | none => simp
  | some v =>
    rw [hs] at w10
    have hle : f.packet_type ≤ 3 := w10 rfl
    simp only [Option.isSome_some, if_true, and_true, iff_true]
    constructor <;> omega

theorem encoded_get_trailer (f : PacketFields) (hwf : well_formed f) (rest : List Nat) :
    VRTPacketImpl.get_trailer { m_packet_data := encode_packet f ++ rest } =
      field_result f.trailer := by
  have hh := encode_header_fields f hwf
  have hm := encoded_m_header f hwf rest
  have htr := encoded_has_trailer f hwf rest
  have hsz := encoded_size_eq f
  obtain ⟨_, _, _, _, _, _, _, _, _, _, _, _, _, _, _, _, _, w18, w19⟩ := hwf
  unfold VRTPacketImpl.get_trailer
  rw [htr]
  cases hs : f.trailer with
  | none => simp [field_result]
  | some v =>
    rw [hs] at w18 hsz
    have hv : v < 2 ^ 32 := w18
    have hoff : VRTPacketImpl.get_field_offset { m_packet_data := encode_packet f ++ rest }
        VS49_FIELD.TRAILER = 1 + (encode_fields f).length + f.payload.length + 0 := by
      unfold VRTPacketImpl.get_field_offset
      simp only [if_true]
      rw [hm, hh.2.2.2.2.2.2.2.2, hsz]
      simp only [Option.toList, List.length_singleton, SIZE_MOD]
      rw [hsz] at w19
      simp only [Option.toList, List.length_singleton] at w19
      omega
    have e : encode_packet f ++ rest =
        (encode_header f :: (encode_fields f ++ f.payload)) ++ (v :: rest) := by
      simp [encode_packet, encode_body, hs]
    have r0 := rd_at (encode_header f :: (encode_fields f ++ f.payload)) (v :: rest)
      (1 + (encode_fields f).length + f.payload.length) 0 (by simp; omega)
    rw [← e] at r0
    simp only [Option.isSome_some, ne_eq, not_true_eq_false, if_false, hoff, r0,
      rd_cons_zero, WORD_MOD, field_result]
    rw [Nat.mod_eq_of_lt hv]

theorem encoded_get_payload_size (f : PacketFields) (hwf : well_formed f) (rest : List Nat) :
    VRTPacketImpl.get_payload_size { m_packet_data := encode_packet f ++ rest } =
      4 * f.payload.length := by
  have hh := encode_header_fields f hwf
  have hm := encoded_m_header f hwf rest
  have htr := encoded_has_trailer f hwf rest
  have hsz := encoded_size_eq f
  have ho := (encoded_offsets f hwf rest).2.2.2.2
  obtain ⟨_, _, _, _, _, _, _, _, _, _, _, _, _, _, _, _, _, _, w19⟩ := hwf
  unfold VRTPacketImpl.get_payload_size
  rw [htr, ho, hm, hh.2.2.2.2.2.2.2.2]
  rw [hsz] at w19 ⊢
  cases hs : f.trailer with
  | none =>
    rw [hs] at w19
    simp only [Option.toList, List.length_nil, Option.isSome_none, Bool.false_eq_true,
      if_false, SIZE_MOD] at w19 ⊢
    omega
  | some v =>
    rw [hs] at w19
    simp only [Option.toList, List.length_singleton, Option.isSome_some, if_true,
      SIZE_MOD] at w19 ⊢
    omega

theorem encoded_get_payload (f : PacketFields) (hwf : well_formed f) (rest : List Nat) :
    VRTPacketImpl.get_payload { m_packet_data := encode_packet f ++ rest } =
      f.payload ++ (f.trailer.toList ++ rest) := by
  have ho := (encoded_offsets f hwf rest).2.2.2.2
  unfold VRTPacketImpl.get_payload
  rw [ho]
  have e : encode_packet f ++ rest =
      (encode_header f :: encode_fields f) ++ (f.payload ++ (f.trailer.toList ++ rest)) := by
    simp [encode_packet, encode_body]
  rw [e]
  have hl : 1 + (encode_fields f).length = (encode_header f :: encode_fields f).length := by
    simp; omega
  rw [hl, List.drop_left]

/-- The decoder inverts the reference encoder on one packet: every accessor
of the packet object built on the encoded words (whatever follows them)
reports the encoded field. -/
theorem encoded_view (f : PacketFields) (hwf : well_formed f) (rest : List Nat) :
    VRTPacketImpl.view { m_packet_data := encode_packet f ++ rest } = f.view := by
  have hh := encode_header_fields f hwf
  have hm := encoded_m_header f hwf rest
  unfold VRTPacketImpl.view PacketFields.view
  rw [encoded_get_stream_id f hwf rest, encoded_get_class_id f hwf rest,
    encoded_get_integer_timestamp f hwf rest, encoded_get_fractional_timestamp f hwf rest,
    encoded_get_trailer f hwf rest, encoded_get_payload_size f hwf rest,
    encoded_get_payload f hwf rest, get_integer_timestamp_type_eq]
  unfold VRTPacketImpl.get_timestamp_mode VRTPacketImpl.get_packet_type
    VRTPacketImpl.get_packet_count VRTPacketImpl.get_packet_size
    VRTPacketImpl.get_fractional_timestamp_type
  rw [hm, hh.2.1, hh.2.2.2.2.1, hh.2.2.2.2.2.1, hh.2.2.2.2.2.2.1, hh.2.2.2.2.2.2.2.1,
    hh.2.2.2.2.2.2.2.2]
  have e1 : 4 * f.payload.length / 4 = f.payload.length := by omega
  rw [e1, List.take_left]
  simp only [PT_IF_CONTEXT, PT_EXTENSION_CONTEXT]

end Vita49

namespace Vita49

theorem rd_append_nonempty (pkt w : List Nat) (h : pkt ≠ []) : rd (pkt ++ w) 0 = rd pkt 0 := by
  cases pkt with
  | nil => exact absurd rfl h
  | cons a l => rfl

/-- The packet walk over back-to-back packets, each with a known type and a
`packet_size` equal to its own length, that fill the frame up to its trailer
word: every packet is parsed, in order, and the walk ends normally. -/
theorem parse_packets_walk (pkts : List (List Nat)) :
    ∀ (fuel : Nat) (m_frame_data : List Nat) (frame_size packet_offset : Nat)
      (acc : List VRTPacketImpl) (tail : List Nat),
      pkts ≠ [] →
      (∀ pkt ∈ pkts, pkt ≠ [] ∧ hdr_packet_type (rd pkt 0) ≤ 5 ∧
        hdr_packet_size (rd pkt 0) = pkt.length) →
      m_frame_data.drop packet_offset = pkts.flatten ++ tail →
      frame_size = packet_offset + pkts.flatten.length + 1 →
      frame_size < 2 ^ 62 →
      pkts.length ≤ fuel →
      parse_packets fuel m_frame_data frame_size packet_offset acc =
        some (Except.ok (acc ++ suffix_packets pkts tail)) := by
  induction pkts with
  | nil => intro _ _ _ _ _ _ h; exact absurd rfl h
  | cons pkt rest ih =>
    intro fuel m_frame_data frame_size packet_offset acc tail _ hgood hdrop hF hbound hfuel
    obtain ⟨fuel, rfl⟩ : ∃ n, fuel = n + 1 := ⟨fuel - 1, by simp at hfuel; omega⟩
    obtain ⟨hne, htype, hsize⟩ := hgood pkt (List.mem_cons_self _ _)
    have hlen : (pkt :: rest).flatten.length = pkt.length + rest.flatten.length := by
      simp
    have hpos : 1 ≤ pkt.length := by
      cases pkt with
      | nil => exact absurd rfl hne
      | cons a l => simp
    have hbr : (frame_size + SIZE_MOD - packet_offset - 1) % SIZE_MOD * 4 % SIZE_MOD =
        (pkt.length + rest.flatten.length) * 4 := by
      unfold SIZE_MOD; omega
    have hdrop2 : m_frame_data.drop packet_offset = pkt ++ (rest.flatten ++ tail) := by
      rw [hdrop]; simp
    have hparse : VRTPacket.parse (m_frame_data.drop packet_offset)
        ((pkt.length + rest.flatten.length) * 4) =
        Except.ok { m_packet_data := pkt ++ (rest.flatten ++ tail) } := by
      rw [parse_ok_iff, hdrop2, rd_append_nonempty pkt _ hne]
      exact ⟨htype, by omega, rfl⟩
    have hps : VRTPacketImpl.get_packet_size { m_packet_data := pkt ++ (rest.flatten ++ tail) } =
        pkt.length := by
      unfold VRTPacketImpl.get_packet_size VRTPacketImpl.m_header
      rw [rd_append_nonempty pkt _ hne]
      exact hsize
    simp only [parse_packets]
    rw [hbr, hparse]
    simp only [hps]
    have hnz : ¬ pkt.length = 0 := by omega
    rw [if_neg hnz]
    rcases rest with _ | ⟨pkt2, rest2⟩
    · have hend : ¬ packet_offset + pkt.length + 1 < frame_size := by
        simp at hlen hF; omega
      rw [if_neg hend]
      simp [suffix_packets]
    · obtain ⟨hne2, _, _⟩ := hgood pkt2 (by simp)
      have hpos2 : 1 ≤ pkt2.length := by
        cases pkt2 with
        | nil => exact absurd rfl hne2
        | cons a l => simp
      have hlen2 : (pkt2 :: rest2).flatten.length = pkt2.length + rest2.flatten.length := by
        simp
      have hmore : packet_offset + pkt.length + 1 < frame_size := by omega
      rw [if_pos hmore]
      have hdrop3 : m_frame_data.drop (packet_offset + pkt.length) =
          (pkt2 :: rest2).flatten ++ tail := by
        have h3 := congrArg (List.drop pkt.length) hdrop2
        rw [List.drop_drop, List.drop_left] at h3
        rw [← h3, Nat.add_comm]
      have hrec := ih fuel m_frame_data frame_size (packet_offset + pkt.length)
        (acc ++ [VRTPacketImpl.mk (pkt ++ ((pkt2 :: rest2).flatten ++ tail))]) tail
        (by simp)
        (fun q hq => hgood q (List.mem_cons_of_mem _ hq))
        hdrop3 (by omega) hbound (by simp at hfuel ⊢; omega)
      rw [hrec]
      simp [suffix_packets]

end Vita49

namespace Vita49

theorem suffix_packets_length (pkts : List (List Nat)) (tail : List Nat) :
    (suffix_packets pkts tail).length = pkts.length := by
  induction pkts with
  | nil => rfl
  | cons pkt rest ih => simp [suffix_packets, ih]

theorem suffix_packets_view (fs : List PacketFields) (tail : List Nat)
    (hwf : ∀ f ∈ fs, well_formed f) :
    (suffix_packets (fs.map encode_packet) tail).map VRTPacketImpl.view =
      fs.map PacketFields.view := by
  induction fs with
  | nil => rfl
  | cons f rest ih =>
    simp only [List.map_cons, suffix_packets]
    rw [encoded_view f (hwf f (List.mem_cons_self _ _)),
      ih (fun g hg => hwf g (List.mem_cons_of_mem _ hg))]

theorem length_le_flatten_length (pkts : List (List Nat)) (h : ∀ pkt ∈ pkts, pkt ≠ []) :
    pkts.length ≤ pkts.flatten.length := by
  induction pkts with
  | nil => simp
  | cons pkt rest ih =>
    have h1 : 1 ≤ pkt.length := by
      have := h pkt (List.mem_cons_self _ _)
      cases pkt with
      | nil => exact absurd rfl this
      | cons a l => simp
    have h2 := ih (fun q hq => h q (List.mem_cons_of_mem _ hq))
    simp only [List.length_cons, List.flatten_cons, List.length_append]
    omega

theorem encode_packet_good (f : PacketFields) (hwf : well_formed f) :
    encode_packet f ≠ [] ∧ hdr_packet_type (rd (encode_packet f) 0) ≤ 5 ∧
      hdr_packet_size (rd (encode_packet f) 0) = (encode_packet f).length := by
  have hh := encode_header_fields f hwf
  have hr : rd (encode_packet f) 0 = encode_header f := by
    unfold encode_packet
    rw [rd_cons_zero]
    exact Nat.mod_eq_of_lt hh.1
  refine ⟨by simp [encode_packet], ?_, ?_⟩
  · rw [hr, hh.2.1]; exact hwf.1
  · rw [hr, hh.2.2.2.2.2.2.2.2]
    simp [encode_packet, encoded_size]
    omega

/-- C6: round trip against the reference encoder. Take any frame made of an
alignment word (VRLP or VS49), an info word carrying `frame_count` (high 12
bits) and the frame size `F` (low 20 bits), `n >= 1` well-formed packets and a
trailer word, with `F = 3 + s1 + ... + sn`, followed by any padding. On every
window that holds the frame and at least 5 words (`size` bytes with
`20 <= size` and `4 * F <= size`; in particular `size = 4 *` the number of
window words) `VRLFrame::parse` succeeds with index 0, `get_frame_size = F`,
`get_frame_count = frame_count`, `get_num_packets = n`, and the accessors of
the i-th packet report the type, counter, size and fields of the i-th encoded
packet. -/
theorem C6_frame_round_trip (faw frame_count : Nat) (fs : List PacketFields)
    (trailer : Nat) (padding : List Nat) (size : Nat)
    (hfaw : faw = FAW_VRLP ∨ faw = FAW_VS49)
    (hcount : frame_count < 2 ^ 12)
    (hne : fs ≠ [])
    (hwf : ∀ f ∈ fs, well_formed f)
    (hF : encoded_frame_size fs < 2 ^ 20)
    (h5 : 20 ≤ size)
    (hfit : 4 * encoded_frame_size fs ≤ size) :
    ∃ frame : VRLFrameImpl,
      VRLFrame.parse (encode_frame faw frame_count fs trailer ++ padding) size =
        some ⟨some 0, Except.ok frame⟩ ∧
      frame.get_frame_size = encoded_frame_size fs ∧
      frame.get_frame_count = frame_count ∧
      frame.get_num_packets = fs.length ∧
      frame.m_packets.map VRTPacketImpl.view = fs.map PacketFields.view := by
  have hfawlt : faw < 2 ^ 32 := by
    rcases hfaw with h | h <;> rw [h] <;> decide
  have hr0 : rd (encode_frame faw frame_count fs trailer ++ padding) 0 = faw := by
    unfold encode_frame
    simp only [List.cons_append, rd_cons_zero, WORD_MOD]
    exact Nat.mod_eq_of_lt hfawlt
  have hr1 : rd (encode_frame faw frame_count fs trailer ++ padding) (0 + 1) =
      frame_count * 2 ^ 20 + encoded_frame_size fs := by
    unfold encode_frame
    simp only [List.cons_append, rd_cons_succ, rd_cons_zero, WORD_MOD]
    omega
  have hsz : (frame_count * 2 ^ 20 + encoded_frame_size fs) % 2 ^ 20 =
      encoded_frame_size fs := by omega
  have hgood : ∀ pkt ∈ fs.map encode_packet, pkt ≠ [] ∧ hdr_packet_type (rd pkt 0) ≤ 5 ∧
      hdr_packet_size (rd pkt 0) = pkt.length := by
    intro pkt hpkt
    obtain ⟨f, hf, rfl⟩ := List.mem_map.1 hpkt
    exact encode_packet_good f (hwf f hf)
  have hwalk := parse_packets_walk (fs.map encode_packet) (encoded_frame_size fs + 1)
    ((encode_frame faw frame_count fs trailer ++ padding).drop 0)
    (encoded_frame_size fs) 2 [] ([trailer] ++ padding)
    (by simpa using hne) hgood
    (by simp [encode_frame, encode_packets])
    (by unfold encoded_frame_size encode_packets; omega)
    (by omega)
    (by
      have := length_le_flatten_length (fs.map encode_packet) (fun q hq => (hgood q hq).1)
      unfold encoded_frame_size encode_packets
      omega)
  have hparse := parse_ok_intro (encode_frame faw frame_count fs trailer ++ padding) size 0
    ([] ++ suffix_packets (fs.map encode_packet) ([trailer] ++ padding))
    (fun j hj => absurd hj (Nat.not_lt_zero j))
    (by rw [hr0]; exact hfaw)
    (by omega)
    (by rw [hr1, hsz]; omega)
    (by rw [hr1, hsz]; exact hwalk)
  refine ⟨_, hparse, ?_, ?_, ?_, ?_⟩
  · unfold VRLFrameImpl.get_frame_size VRLFrameImpl.m_frame_info
    simp only [List.drop_zero]
    rw [show (1 : Nat) = 0 + 1 from rfl, hr1, hsz]
  · unfold VRLFrameImpl.get_frame_count VRLFrameImpl.m_frame_info
    simp only [List.drop_zero]
    rw [show (1 : Nat) = 0 + 1 from rfl, hr1]
    omega
  · unfold VRLFrameImpl.get_num_packets
    simp [suffix_packets_length]
  · simp only [List.nil_append]
    exact suffix_packets_view fs _ hwf

theorem C6_frame_round_trip_witness :
    ∃ frame : VRLFrameImpl,
      VRLFrame.parse
        (encode_frame FAW_VRLP 9 [sample_if_data, sample_if_context] VEND ++ [0, 0])
        (4 * (encode_frame FAW_VRLP 9 [sample_if_data, sample_if_context] VEND ++
          [0, 0]).length) =
        some ⟨some 0, Except.ok frame⟩ ∧
      frame.get_frame_size = encoded_frame_size [sample_if_data, sample_if_context] ∧
      frame.get_frame_count = 9 ∧
      frame.get_num_packets = [sample_if_data, sample_if_context].length ∧
      frame.m_packets.map VRTPacketImpl.view =
        [sample_if_data, sample_if_context].map PacketFields.view :=
  C6_frame_round_trip FAW_VRLP 9 [sample_if_data, sample_if_context] VEND [0, 0]
    (4 * (encode_frame FAW_VRLP 9 [sample_if_data, sample_if_context] VEND ++ [0, 0]).length)
    (by decide) (by decide) (by decide) (by decide) (by decide) (by decide) (by decide)

end Vita49

namespace Vita49

/-! ## Failures inside the packet walk -/

/-- The packet walk over a prefix of back-to-back packets, each with a known
type and a `packet_size` equal to its own length, that ends before the last
word of the frame: the walk parses them all and goes on from the word after
them. -/
theorem parse_packets_prefix (pkts : List (List Nat)) :
    ∀ (fuel : Nat) (m_frame_data : List Nat) (frame_size packet_offset : Nat)
      (acc : List VRTPacketImpl) (tail : List Nat),
      (∀ pkt ∈ pkts, pkt ≠ [] ∧ hdr_packet_type (rd pkt 0) ≤ 5 ∧
        hdr_packet_size (rd pkt 0) = pkt.length) →
      m_frame_data.drop packet_offset = pkts.flatten ++ tail →
      packet_offset + pkts.flatten.length + 1 < frame_size →
      frame_size < 2 ^ 62 →
      parse_packets (fuel + pkts.length) m_frame_data frame_size packet_offset acc =
        parse_packets fuel m_frame_data frame_size (packet_offset + pkts.flatten.length)
          (acc ++ suffix_packets pkts tail) := by
  induction pkts with
  | nil =>
    intro fuel m_frame_data frame_size packet_offset acc tail _ _ _ _
    simp [suffix_packets]
  | cons pkt rest ih =>
    intro fuel m_frame_data frame_size packet_offset acc tail hgood hdrop hF hbound
    obtain ⟨hne, htype, hsize⟩ := hgood pkt (List.mem_cons_self _ _)
    have hlen : (pkt :: rest).flatten.length = pkt.length + rest.flatten.length := by
      simp
    have hpos : 1 ≤ pkt.length := by
      cases pkt with
      | nil => exact absurd rfl hne
      | cons a l => simp
    have hbr : (frame_size + SIZE_MOD - packet_offset - 1) % SIZE_MOD * 4 % SIZE_MOD =
        (frame_size - packet_offset - 1) * 4 := by
      unfold SIZE_MOD; omega
    have hdrop2 : m_frame_data.drop packet_offset = pkt ++ (rest.flatten ++ tail) := by
      rw [hdrop]; simp
    have hparse : VRTPacket.parse (m_frame_data.drop packet_offset)
        ((frame_size - packet_offset - 1) * 4) =
        Except.ok { m_packet_data := pkt ++ (rest.flatten ++ tail) } := by
      rw [parse_ok_iff, hdrop2, rd_append_nonempty pkt _ hne]
      exact ⟨htype, by omega, rfl⟩
    have hps : VRTPacketImpl.get_packet_size { m_packet_data := pkt ++ (rest.flatten ++ tail) } =
        pkt.length := by
      unfold VRTPacketImpl.get_packet_size VRTPacketImpl.m_header
      rw [rd_append_nonempty pkt _ hne]
      exact hsize
    have e1 : fuel + (pkt :: rest).length = (fuel + rest.length) + 1 := by
      simp; omega
    rw [e1]
    simp only [parse_packets]
    rw [hbr, hparse]
    simp only [hps]
    have hnz : ¬ pkt.length = 0 := by omega
    have hmore : packet_offset + pkt.length + 1 < frame_size := by omega
    rw [if_neg hnz, if_pos hmore]
    have hdrop3 : m_frame_data.drop (packet_offset + pkt.length) = rest.flatten ++ tail := by
      have h3 := congrArg (List.drop pkt.length) hdrop2
      rw [List.drop_drop, List.drop_left] at h3
      rw [← h3, Nat.add_comm]
    rw [ih fuel m_frame_data frame_size (packet_offset + pkt.length)
      (acc ++ [VRTPacketImpl.mk (pkt ++ (rest.flatten ++ tail))]) tail
      (fun q hq => hgood q (List.mem_cons_of_mem _ hq)) hdrop3 (by omega) hbound]
    have e2 : packet_offset + pkt.length + rest.flatten.length =
        packet_offset + (pkt :: rest).flatten.length := by omega
    rw [e2]
    simp [suffix_packets]

/-- An exception of the packet walk leaves the frame constructor unchanged. -/
theorem parse_error_intro (frame_data : List Nat) (size k : Nat) (e : Exn)
    (hskip : ∀ j, j < k → rd frame_data j ≠ FAW_VRLP ∧ rd frame_data j ≠ FAW_VS49)
    (hfaw : rd frame_data k = FAW_VRLP ∨ rd frame_data k = FAW_VS49)
    (hroom : 4 * k + 20 ≤ size)
    (hfit : rd frame_data (k + 1) % 2 ^ 20 ≤ (size - 4 * k) / 4)
    (hpk : parse_packets (rd frame_data (k + 1) % 2 ^ 20 + 1) (frame_data.drop k)
        (rd frame_data (k + 1) % 2 ^ 20) 2 [] = some (Except.error e)) :
    VRLFrame.parse frame_data size = some ⟨some k, Except.error e⟩ := by
  have hscan := scan_alignment_run frame_data size k hskip (by omega) (Or.inr hfaw)
  rw [parse_of_scan frame_data size k _ (by omega) hscan]
  have h2 : ¬ size - 4 * k < 20 := by omega
  have h3 : ¬ rd frame_data (k + 1) % 2 ^ 20 > (size - 4 * k) / 4 := by omega
  simp only [h2, h3, if_false, hpk, Option.map_some', Except.map]

/-- C11: in a frame found at word `k` that fits in the window, let the packet
walk have parsed the packets `pkts` (known types, sizes equal to their
lengths) and stand at word offset `2 + |pkts|` with words left before the
frame trailer (`frame_size - offset - 1` is a count: the offset is inside the
frame). If the packet there has a known type and declares a `packet_size`
larger than the words left, `VRTPacket::parse` throws `index_error` and
`VRLFrame::parse` as a whole fails with that same `index_error`: no packet
list is returned and the error is not turned into `std::runtime_error`. -/
theorem C11_packet_index_error_propagates (frame_data : List Nat) (size k : Nat)
    (pkts : List (List Nat)) (tail : List Nat)
    (hskip : ∀ j, j < k → rd frame_data j ≠ FAW_VRLP ∧ rd frame_data j ≠ FAW_VS49)
    (hfaw : rd frame_data k = FAW_VRLP ∨ rd frame_data k = FAW_VS49)
    (hroom : 4 * k + 20 ≤ size)
    (hfit : rd frame_data (k + 1) % 2 ^ 20 ≤ (size - 4 * k) / 4)
    (hgood : ∀ pkt ∈ pkts, pkt ≠ [] ∧ hdr_packet_type (rd pkt 0) ≤ 5 ∧
      hdr_packet_size (rd pkt 0) = pkt.length)
    (hdrop : frame_data.drop (k + 2) = pkts.flatten ++ tail)
    (hleft : 2 + pkts.flatten.length + 1 < rd frame_data (k + 1) % 2 ^ 20 ∨
      (pkts = [] ∧ 3 ≤ rd frame_data (k + 1) % 2 ^ 20))
    (htype : hdr_packet_type (rd tail 0) ≤ 5)
    (hbig : hdr_packet_size (rd tail 0) >
      rd frame_data (k + 1) % 2 ^ 20 - (2 + pkts.flatten.length) - 1) :
    VRTPacket.parse tail
        ((rd frame_data (k + 1) % 2 ^ 20 - (2 + pkts.flatten.length) - 1) * 4) =
      Except.error Exn.index_error ∧
    VRLFrame.parse frame_data size = some ⟨some k, Except.error Exn.index_error⟩ := by
  generalize hF : rd frame_data (k + 1) % 2 ^ 20 = F at *
  have hFlt : F < 2 ^ 20 := by rw [← hF]; omega
  have hraise : VRTPacket.parse tail ((F - (2 + pkts.flatten.length) - 1) * 4) =
      Except.error Exn.index_error := by
    have hno : ¬ (hdr_packet_type (rd tail 0) < PT_MIN ∨
        hdr_packet_type (rd tail 0) > PT_MAX) := by
      simp only [PT_MIN, PT_MAX, PT_IF_DATA_NO_IDENT, PT_EXTENSION_CONTEXT]
      omega
    have hgt : hdr_packet_size (rd tail 0) >
        (F - (2 + pkts.flatten.length) - 1) * 4 / 4 := by omega
    unfold VRTPacket.parse
    simp only [hno, if_false, hgt, if_true]
  refine ⟨hraise, ?_⟩
  apply parse_error_intro frame_data size k Exn.index_error hskip hfaw hroom
    (by rw [hF]; exact hfit)
  rw [hF]
  have hlenle : pkts.length ≤ pkts.flatten.length :=
    length_le_flatten_length pkts (fun q hq => (hgood q hq).1)
  have hnF : 2 + pkts.flatten.length + 1 ≤ F := by
    rcases hleft with h | ⟨h, h3⟩
    · omega
    · subst h; simpa using h3
  have hstep : parse_packets (F - pkts.length + 1) (frame_data.drop k) F
      (2 + pkts.flatten.length) ([] ++ suffix_packets pkts tail) =
      some (Except.error Exn.index_error) := by
    have hbr : (F + SIZE_MOD - (2 + pkts.flatten.length) - 1) % SIZE_MOD * 4 % SIZE_MOD =
        (F - (2 + pkts.flatten.length) - 1) * 4 := by
      unfold SIZE_MOD; omega
    have hd : (frame_data.drop k).drop (2 + pkts.flatten.length) = tail := by
      rw [List.drop_drop]
      have h3 := congrArg (List.drop pkts.flatten.length) hdrop
      rw [List.drop_drop, List.drop_left] at h3
      rw [← h3]
      congr 1
      omega
    simp only [parse_packets]
    rw [hbr, hd, hraise]
  rcases hleft with h | ⟨h, _⟩
  · have hpre := parse_packets_prefix pkts (F - pkts.length + 1) (frame_data.drop k) F 2 []
      tail hgood (by rw [List.drop_drop]; rw [← hdrop]) h (by omega)
    have e1 : F + 1 = F - pkts.length + 1 + pkts.length := by omega
    rw [e1, hpre, hstep]
  · subst h
    simpa using hstep

end Vita49

namespace Vita49

theorem C11_packet_index_error_propagates_witness :
    VRTPacket.parse [0x10000005, 0, 0x56454E44]
        ((rd [0x56524C50, 0x00100006, 0x10000002, 7, 0x10000005, 0, 0x56454E44] (0 + 1) % 2 ^ 20 -
          (2 + [[0x10000002, 7]].flatten.length) - 1) * 4) =
      Except.error Exn.index_error ∧
    VRLFrame.parse [0x56524C50, 0x00100006, 0x10000002, 7, 0x10000005, 0, 0x56454E44] 28 =
      some ⟨some 0, Except.error Exn.index_error⟩ :=
  C11_packet_index_error_propagates
    [0x56524C50, 0x00100006, 0x10000002, 7, 0x10000005, 0, 0x56454E44] 28 0
    [[0x10000002, 7]] [0x10000005, 0, 0x56454E44]
    (by decide) (by decide) (by decide) (by decide) (by decide) (by decide) (by decide)
    (by decide) (by decide)

end Vita49

namespace Pico

open Vita49

/-! ## Reconfiguration -/

theorem update_tuners_get (st : complex_manager) (ts : List Int) (i : Nat) :
    (update_tuners st ts).m_mang.get? i =
      (st.m_mang.get? i).map (update_tuner_flag ts i) := by
  unfold update_tuners
  simp only [List.get?_eq_getElem?, List.getElem?_map, List.getElem?_enum]
  cases st.m_mang[i]? <;> simp

theorem handle_update_get (m_mang : List buffer_manager) (i : Nat) :
    (handle_update m_mang).get? i = (m_mang.get? i).map update_channel := by
  unfold handle_update
  simp only [List.get?_eq_getElem?, List.getElem?_map]

/-- C18: after `update_tuners(tuners, n)` has been applied by `handle_update`,
every channel `i` of the array, whatever its state before, is valid exactly
when `i + 1` occurs in `tuners[0..n)`, has both fill counts 0, both read
cursors 0, the active index 0 and the loss counter back to -1; so the unread
count of its inactive buffer, the amount it reports as available, is 0. -/
theorem C18_reconfiguration_resets (st : complex_manager) (tuners : List Int) (i : Nat)
    (bm : buffer_manager) (hbm : st.m_mang.get? i = some bm) :
    ∃ bm', (step (update_tuners st tuners) Event.update).m_mang.get? i = some bm' ∧
      (bm'.tuner_valid = true ↔ ((i : Int) + 1) ∈ tuners) ∧
      bm'.out_count = (0, 0) ∧
      bm'.read_index = (0, 0) ∧
      bm'.out_pointer = 0 ∧
      bm'.last_count = -1 ∧
      at2 bm'.out_count (lnot bm'.out_pointer) = 0 ∧
      (step (update_tuners st tuners) Event.update).m_update_valid_streams = false := by
  have h1 : (update_tuners st tuners).m_update_valid_streams = true := rfl
  refine ⟨update_channel (update_tuner_flag tuners i bm), ?_, ?_, rfl, rfl, rfl, rfl, rfl, ?_⟩
  · simp only [step, h1, if_true]
    rw [handle_update_get, update_tuners_get, hbm]
    rfl
  · simp [update_channel, update_tuner_flag]
  · simp only [step, h1, if_true]

theorem C18_reconfiguration_resets_witness :
    ∃ bm', (step (update_tuners sample_busy_state [2]) Event.update).m_mang.get? 0 = some bm' ∧
      (bm'.tuner_valid = true ↔ (((0 : Nat) : Int) + 1) ∈ [(2 : Int)]) ∧
      bm'.out_count = (0, 0) ∧
      bm'.read_index = (0, 0) ∧
      bm'.out_pointer = 0 ∧
      bm'.last_count = -1 ∧
      at2 bm'.out_count (lnot bm'.out_pointer) = 0 ∧
      (step (update_tuners sample_busy_state [2]) Event.update).m_update_valid_streams = false :=
  C18_reconfiguration_resets sample_busy_state [2] 0 sample_busy_channel rfl

end Pico

namespace Pico

open Vita49

/-! ## Two-element arrays and conversions -/

theorem at2_set2_same {α : Type} (a : α × α) (i : Nat) (v : α) : at2 (set2 a i v) i = v := by
  unfold at2 set2
  split <;> simp_all

theorem at2_set2_lnot {α : Type} (a : α × α) (p : Nat) (v : α) :
    at2 (set2 a (lnot p) v) p = at2 a p := by
  unfold at2 set2 lnot
  by_cases h : p = 0 <;> simp [h]

theorem at2_lnot_set2 {α : Type} (a : α × α) (p : Nat) (v : α) :
    at2 (set2 a p v) (lnot p) = at2 a (lnot p) := by
  unfold at2 set2 lnot
  by_cases h : p = 0 <;> simp [h]

theorem to_size_t_of_nonneg (x : Int) (h0 : 0 ≤ x) (h1 : x < 2 ^ 63) :
    ((to_size_t x : Nat) : Int) = x := by
  unfold to_size_t SIZE_MOD
  have : x % ((2 ^ 64 : Nat) : Int) = x := Int.emod_eq_of_lt h0 (by push_cast; omega)
  rw [this]
  exact Int.toNat_of_nonneg h0

theorem to_int_of_small (x : Nat) (h : x < 2 ^ 31) : to_int x = (x : Int) := by
  unfold to_int
  have h1 : x % 2 ^ 32 = x := Nat.mod_eq_of_lt (by omega)
  rw [h1, if_pos h]

/-! ## The packet step -/

/-- What an admission went through and what it leaves. -/
theorem handle_packet_admitted (m_mang : List buffer_manager) (p : VRTPacketImpl)
    (m' : List buffer_manager) (loss : Bool) (job : Job)
    (h : handle_packet m_mang p = PacketOutcome.admitted m' loss job) :
    ∃ sid bm, p.get_packet_type = 1 ∧ p.get_stream_id = Except.ok sid ∧
      m_mang.get? (sid % 256) = some bm ∧ bm.tuner_valid = true ∧
      (to_size_t (at2 bm.out_count bm.out_pointer) + p.get_payload_size / 4) % SIZE_MOD <
        NUM_COMPLEX ∧
      loss = decide (expected_count bm.last_count (p.get_packet_count : Int) ≠
        (p.get_packet_count : Int)) ∧
      job = { m_packet_buffer := p.get_payload
              m_sample_count := p.get_payload_size / 4 % WORD_MOD
              target_channel := sid % 256
              target_buffer := bm.out_pointer
              m_start_index := to_uint32 (at2 bm.out_count bm.out_pointer) } ∧
      m' = m_mang.set (sid % 256)
        { bm with
          last_count := (p.get_packet_count : Int)
          out_count := (set2 bm.out_count bm.out_pointer
            (to_int ((to_size_t (at2 bm.out_count bm.out_pointer) +
              p.get_payload_size / 4) % SIZE_MOD))) } := by
  unfold handle_packet at h
  split at h
  · cases h
  · rename_i htype
    split at h
    · cases h
    · rename_i sid hsid
      simp only [Int.toNat_ofNat] at h
      split at h
      · cases h
      · split at h
        · cases h
        · rename_i bm hbm
          split at h
          · cases h
          · rename_i hvalid
            split at h
            · cases h
            · rename_i hcap
              injection h with h1 h2 h3
              refine ⟨sid, bm, by simpa using htype, hsid, hbm, by simpa using hvalid,
                by omega, h2.symm, ?_, h1.symm⟩
              rw [← h3]
              rfl

end Pico

namespace Pico

open Vita49

theorem stream_id_of_type_one (p : VRTPacketImpl) (htype : p.get_packet_type = 1) :
    p.get_stream_id = Except.ok (rd p.m_packet_data 1) := by
  rw [get_stream_id_eq]
  have : p.get_field_offset VS49_FIELD.STREAM_ID = 1 := by
    unfold VRTPacketImpl.get_field_offset
    simp
  simp [htype, this]

/-- The packet step on a type-1 packet whose channel exists and is valid:
the capacity check decides between deferral and admission. -/
theorem handle_packet_on_valid (m_mang : List buffer_manager) (p : VRTPacketImpl)
    (bm : buffer_manager) (htype : p.get_packet_type = 1)
    (hbm : m_mang.get? (rd p.m_packet_data 1 % 256) = some bm)
    (hvalid : bm.tuner_valid = true) :
    handle_packet m_mang p =
      if (to_size_t (at2 bm.out_count bm.out_pointer) + p.get_payload_size / 4) % SIZE_MOD ≥
          NUM_COMPLEX
      then PacketOutcome.deferred
      else PacketOutcome.admitted
        (m_mang.set (rd p.m_packet_data 1 % 256)
          { bm with
            last_count := (p.get_packet_count : Int)
            out_count := (set2 bm.out_count bm.out_pointer
              (to_int ((to_size_t (at2 bm.out_count bm.out_pointer) +
                p.get_payload_size / 4) % SIZE_MOD))) })
        (decide (expected_count bm.last_count (p.get_packet_count : Int) ≠
          (p.get_packet_count : Int)))
        { m_packet_buffer := p.get_payload
          m_sample_count := p.get_payload_size / 4 % WORD_MOD
          target_channel := rd p.m_packet_data 1 % 256
          target_buffer := bm.out_pointer
          m_start_index := to_uint32 (at2 bm.out_count bm.out_pointer) } := by
  have hlt : rd p.m_packet_data 1 % 256 < m_mang.length := by
    rw [List.get?_eq_getElem?] at hbm
    exact (List.getElem?_eq_some_iff.1 hbm).1
  have hsid := stream_id_of_type_one p htype
  have hrange : ¬ ((((rd p.m_packet_data 1 % 256 : Nat) : Int)) < 0 ∨
      (((rd p.m_packet_data 1 % 256 : Nat) : Int)) > (m_mang.length : Int)) := by
    omega
  unfold handle_packet
  simp only [htype, ne_eq, not_true_eq_false, if_false, hsid, hrange, Int.toNat_ofNat, hbm,
    hvalid]
  rfl

theorem run_job_get_counts (m_mang : List buffer_manager) (job : Job) (i : Nat)
    (bm : buffer_manager) (h : (run_job m_mang job).get? i = some bm) :
    ∃ bm0, m_mang.get? i = some bm0 ∧ bm.out_pointer = bm0.out_pointer ∧
      bm.out_count = bm0.out_count ∧ bm.last_count = bm0.last_count ∧
      bm.read_index = bm0.read_index ∧ bm.tuner_valid_safe = bm0.tuner_valid_safe ∧
      bm.tuner_valid = bm0.tuner_valid ∧ bm.flip = bm0.flip := by
  unfold run_job at h
  split at h
  · exact ⟨bm, h, rfl, rfl, rfl, rfl, rfl, rfl, rfl⟩
  · rename_i bmj hj
    rw [List.get?_eq_getElem?, List.getElem?_set] at h
    rw [List.get?_eq_getElem?] at hj
    split at h
    · rename_i heq
      split at h
      · injection h with h
        subst heq
        exact ⟨bmj, by rw [List.get?_eq_getElem?]; exact hj, by rw [← h], by rw [← h],
          by rw [← h], by rw [← h], by rw [← h], by rw [← h], by rw [← h]⟩
      · cases h
    · exact ⟨bm, by rw [List.get?_eq_getElem?]; exact h, rfl, rfl, rfl, rfl, rfl, rfl, rfl⟩

end Pico

namespace Pico

open Vita49

/-! ## Preservation of the channel invariant -/

theorem at2_lnot_lnot {α : Type} (a : α × α) (p : Nat) : at2 a (lnot (lnot p)) = at2 a p := by
  unfold at2 lnot
  by_cases h : p = 0 <;> simp [h]

theorem channel_ok_initial : channel_ok initial_buffer_manager := by
  unfold channel_ok buffer_manager.active_count buffer_manager.unread_count
    initial_buffer_manager
  simp [at2, lnot, NUM_COMPLEX]

theorem channel_ok_update (bm : buffer_manager) : channel_ok (update_channel bm) := by
  unfold channel_ok buffer_manager.active_count buffer_manager.unread_count update_channel
  simp [at2, lnot, NUM_COMPLEX]

theorem channel_ok_tuner_flag (ts : List Int) (i : Nat) (bm : buffer_manager)
    (h : channel_ok bm) : channel_ok (update_tuner_flag ts i bm) := h

theorem flip_channel_counts (bm : buffer_manager) (hv : bm.tuner_valid = true)
    (hf : bm.flip = true) :
    (flip_channel bm).active_count = 0 ∧
    (flip_channel bm).unread_count = bm.active_count ∧
    (flip_channel bm).tuner_valid = true ∧ (flip_channel bm).flip = false ∧
    (flip_channel bm).read_index = (0, 0) ∧
    (flip_channel bm).out_pointer = lnot bm.out_pointer := by
  have e : flip_channel bm =
      { bm with
        out_pointer := lnot bm.out_pointer
        out_count := set2 bm.out_count (lnot bm.out_pointer) 0
        read_index := (0, 0)
        flip := false } := by
    unfold flip_channel
    rw [if_pos ⟨hv, hf⟩]
  rw [e]
  refine ⟨?_, ?_, hv, rfl, rfl, rfl⟩
  · exact at2_set2_same _ _ _
  · unfold buffer_manager.unread_count buffer_manager.active_count
    simp only
    rw [at2_lnot_set2, at2_lnot_lnot]

theorem flip_channel_unchanged (bm : buffer_manager)
    (h : ¬ (bm.tuner_valid = true ∧ bm.flip = true)) : flip_channel bm = bm := by
  unfold flip_channel
  rw [if_neg h]

theorem channel_ok_flip (bm : buffer_manager) (h : channel_ok bm) :
    channel_ok (flip_channel bm) := by
  by_cases hc : bm.tuner_valid = true ∧ bm.flip = true
  · obtain ⟨h1, h2, h3, h4, _, _⟩ := flip_channel_counts bm hc.1 hc.2
    refine ⟨by rw [h1], by rw [h1]; simp [NUM_COMPLEX], fun _ => by rw [h2]; exact h.1,
      fun _ hh => by rw [h4] at hh; cases hh⟩
  · rw [flip_channel_unchanged bm hc]
    exact h

theorem scan_channel_same (bm : buffer_manager) (min : Int) :
    same_but_flip bm (scan_channel bm min).1 := by
  unfold scan_channel same_but_flip
  simp only
  split
  · split <;> rfl
  · rfl

theorem scan_channel_min (bm : buffer_manager) (min : Int) :
    (scan_channel bm min).2 =
      if bm.unread_count ≤ min ∧ bm.tuner_valid = true then bm.unread_count else min := by
  unfold scan_channel buffer_manager.unread_count
  simp only
  split
  · split <;> rfl
  · rfl

theorem scan_channel_flip (bm : buffer_manager) (min : Int) :
    (scan_channel bm min).1.flip = true ↔
      (bm.unread_count ≤ min ∧ bm.tuner_valid = true) ∧ bm.unread_count = 0 := by
  unfold scan_channel buffer_manager.unread_count
  simp only
  split
  · rename_i h
    split
    · rename_i h0
      exact ⟨fun _ => ⟨h, h0⟩, fun _ => rfl⟩
    · rename_i h0
      exact ⟨fun hh => (by cases hh), fun hh => absurd hh.2 h0⟩
  · rename_i h
    exact ⟨fun hh => (by cases hh), fun hh => absurd hh.1 h⟩

theorem same_but_flip_fields (a b : buffer_manager) (h : same_but_flip a b) :
    b.out_buff = a.out_buff ∧ b.out_pointer = a.out_pointer ∧ b.out_count = a.out_count ∧
    b.last_count = a.last_count ∧ b.read_index = a.read_index ∧
    b.tuner_valid_safe = a.tuner_valid_safe ∧ b.tuner_valid = a.tuner_valid ∧
    b.active_count = a.active_count ∧ b.unread_count = a.unread_count ∧
    b.read_cursor = a.read_cursor := by
  unfold same_but_flip at h
  unfold buffer_manager.active_count buffer_manager.unread_count buffer_manager.read_cursor
  rw [h]
  exact ⟨rfl, rfl, rfl, rfl, rfl, rfl, rfl, rfl, rfl, rfl⟩

/-- The first loop of `fill_buffers`: it only touches the flip flags, its
result is below `count` and below the unread count of every valid channel, and
when the valid channels have non-negative unread counts a flag is raised only
for a valid channel without unread samples, and then the result is 0. -/
theorem scan_min_props (m : List buffer_manager) :
    ∀ min0 : Int,
      (scan_min m min0).2 ≤ min0 ∧
      (scan_min m min0).1.length = m.length ∧
      (∀ bm ∈ m, bm.tuner_valid = true → (scan_min m min0).2 ≤ bm.unread_count) ∧
      (∀ i bm', (scan_min m min0).1.get? i = some bm' →
        ∃ bm, m.get? i = some bm ∧ same_but_flip bm bm') ∧
      ((∀ bm ∈ m, bm.tuner_valid = true → 0 ≤ bm.unread_count) →
        (0 ≤ min0 → 0 ≤ (scan_min m min0).2) ∧
        (∀ bm' ∈ (scan_min m min0).1, bm'.flip = true →
          bm'.tuner_valid = true ∧ bm'.unread_count = 0 ∧ (scan_min m min0).2 = 0)) := by
  induction m with
  | nil =>
    intro min0
    simp [scan_min]
  | cons bm rest ih =>
    intro min0
    obtain ⟨i1, i2, i3, i4, i5⟩ := ih (scan_channel bm min0).2
    have hmin := scan_channel_min bm min0
    have hle : (scan_channel bm min0).2 ≤ min0 := by
      rw [hmin]; split <;> omega
    simp only [scan_min]
    refine ⟨le_trans i1 hle, by simp [i2], ?_, ?_, ?_⟩
    · intro b hb hv
      rcases List.mem_cons.1 hb with rfl | hb
      · have : (scan_channel b min0).2 ≤ b.unread_count := by
          rw [hmin]; split <;> rename_i hc
          · exact le_refl _
          · have hn : ¬ b.unread_count ≤ min0 := fun hh => hc ⟨hh, hv⟩
            omega
        exact le_trans i1 this
      · exact i3 b hb hv
    · intro i bm' hget
      cases i with
      | zero =>
        simp only [List.get?_cons_zero] at hget
        injection hget with hget
        exact ⟨bm, rfl, by rw [← hget]; exact scan_channel_same bm min0⟩
      | succ i =>
        simp only [List.get?_cons_succ] at hget ⊢
        exact i4 i bm' hget
    · intro hnn
      obtain ⟨j1, j2⟩ := i5 (fun b hb => hnn b (List.mem_cons_of_mem _ hb))
      have hhead := hnn bm (List.mem_cons_self _ _)
      have h0 : 0 ≤ min0 → 0 ≤ (scan_channel bm min0).2 := by
        intro h; rw [hmin]; split
        · rename_i hc; exact hhead hc.2
        · exact h
      refine ⟨fun h => j1 (h0 h), ?_⟩
      intro bm' hb hflip
      rcases List.mem_cons.1 hb with rfl | hb
      · have hf := (scan_channel_flip bm min0).1 hflip
        obtain ⟨_, _, _, _, _, _, e7, _, e9, _⟩ :=
          same_but_flip_fields bm _ (scan_channel_same bm min0)
        have hz : (scan_channel bm min0).2 = 0 := by
          rw [hmin, if_pos hf.1]; exact hf.2
        refine ⟨by rw [e7]; exact hf.1.2, by rw [e9]; exact hf.2, ?_⟩
        have hge := j1 (by rw [hz])
        have hle0 : (scan_min rest (scan_channel bm min0).2).2 ≤ 0 :=
          le_trans i1 (le_of_eq hz)
        omega
      · exact j2 bm' hb hflip

/-- The first loop of `fill_buffers` computes `available` of the
specification. -/
theorem scan_min_eq_spec_available (m : List buffer_manager) :
    ∀ count : Int, (scan_min m count).2 = spec_available m count := by
  induction m with
  | nil => intro count; rfl
  | cons bm rest ih =>
    intro count
    simp only [scan_min]
    rw [ih, scan_channel_min]
    unfold spec_available
    by_cases hv : bm.tuner_valid = true
    · simp only [hv, and_true, List.filter_cons_of_pos, List.map_cons, List.foldl_cons]
      congr 1
      by_cases hle : bm.unread_count ≤ count
      · rw [if_pos hle, min_eq_right hle]
      · rw [if_neg hle, min_eq_left (by omega)]
    · have hcond : ¬ (bm.unread_count ≤ count ∧ bm.tuner_valid = true) := fun h => hv h.2
      rw [if_neg hcond, List.filter_cons_of_neg (by simpa using hv)]

end Pico

namespace Pico

open Vita49

/-! ## One pass of `fill_buffers` -/

theorem set_targets_length (pairs : List (Nat × Int)) :
    ∀ targets : List Nat, (set_targets pairs targets).length = targets.length := by
  induction pairs with
  | nil => intro targets; rfl
  | cons bt rest ih =>
    intro targets
    obtain ⟨b, t⟩ := bt
    simp only [set_targets]
    split
    · rw [ih, List.length_set]
    · rw [ih]

theorem fill_targets_length (n : Nat) (buffs : List Nat) (tuners : List Int) :
    (fill_targets n buffs tuners).length = n := by
  unfold fill_targets
  rw [set_targets_length, List.length_replicate]

/-- The three ways a pass of `fill_buffers` can go. -/
theorem fill_pass_cases (st : complex_manager) (buffs : List Nat) (tuners : List Int)
    (count : Int) :
    (st.m_update_valid_streams = true ∧
      fill_pass st buffs tuners count = { state := st, ret := some 0, copies := [] }) ∨
    (st.m_update_valid_streams ≠ true ∧ (scan_min st.m_mang count).2 = 0 ∧
      fill_pass st buffs tuners count =
        { state := { st with
            m_safety_count := st.m_safety_count + 1
            m_mang := (scan_min st.m_mang count).1
            m_request_flip := true }
          ret := none
          copies := [] }) ∨
    (st.m_update_valid_streams ≠ true ∧ (scan_min st.m_mang count).2 ≠ 0 ∧
      fill_pass st buffs tuners count =
        { state := { st with
            m_mang := (List.zipWith (copy_channel (scan_min st.m_mang count).2)
              (scan_min st.m_mang count).1
              (fill_targets st.m_mang.length buffs tuners)).map Prod.fst
            m_safety_count := 0 }
          ret := some (scan_min st.m_mang count).2
          copies := (List.zipWith (copy_channel (scan_min st.m_mang count).2)
              (scan_min st.m_mang count).1
              (fill_targets st.m_mang.length buffs tuners)).map Prod.snd }) := by
  by_cases hu : st.m_update_valid_streams = true
  · left
    refine ⟨hu, ?_⟩
    unfold fill_pass
    rw [if_pos hu]
  · right
    by_cases hz : (scan_min st.m_mang count).2 = 0
    · left
      refine ⟨hu, hz, ?_⟩
      unfold fill_pass
      rw [if_neg hu]
      simp only [hz, if_true]
    · right
      refine ⟨hu, hz, ?_⟩
      unfold fill_pass
      rw [if_neg hu]
      simp only [hz, if_false, fill_targets, (scan_min_props st.m_mang count).2.1]

theorem copy_channel_fields (min : Int) (bm : buffer_manager) (t : Nat) :
    (copy_channel min bm t).1.out_buff = bm.out_buff ∧
    (copy_channel min bm t).1.out_pointer = bm.out_pointer ∧
    (copy_channel min bm t).1.last_count = bm.last_count ∧
    (copy_channel min bm t).1.tuner_valid_safe = bm.tuner_valid_safe ∧
    (copy_channel min bm t).1.tuner_valid = bm.tuner_valid ∧
    (copy_channel min bm t).1.flip = bm.flip ∧
    (copy_channel min bm t).1.active_count = bm.active_count ∧
    at2 (copy_channel min bm t).1.read_index bm.out_pointer = at2 bm.read_index bm.out_pointer ∧
    (copy_channel min bm t).1.unread_count =
      (if t ≠ 0 then bm.unread_count - min else bm.unread_count) ∧
    (copy_channel min bm t).1.read_cursor =
      (if t ≠ 0 then bm.read_cursor + min else bm.read_cursor) := by
  by_cases ht : t ≠ 0
  · have e : copy_channel min bm t =
        ({ bm with
            read_index := (set2 bm.read_index (lnot bm.out_pointer)
              (at2 bm.read_index (lnot bm.out_pointer) + min))
            out_count := (set2 bm.out_count (lnot bm.out_pointer)
              (at2 bm.out_count (lnot bm.out_pointer) - min)) },
          some (t, (List.range (copied_samples min)).map bm.get_read_buffer)) := by
      unfold copy_channel
      rw [if_pos ht]
    rw [e, if_pos ht, if_pos ht]
    unfold buffer_manager.active_count buffer_manager.unread_count
      buffer_manager.read_cursor
    refine ⟨rfl, rfl, rfl, rfl, rfl, rfl, ?_, ?_, ?_, ?_⟩
    · exact at2_set2_lnot _ _ _
    · exact at2_set2_lnot _ _ _
    · exact at2_set2_same _ _ _
    · exact at2_set2_same _ _ _
  · have e : copy_channel min bm t = (bm, none) := by
      unfold copy_channel
      rw [if_neg ht]
    rw [e, if_neg ht, if_neg ht]
    exact ⟨rfl, rfl, rfl, rfl, rfl, rfl, rfl, rfl, rfl, rfl⟩

/-- A channel after the copy loop: it comes from the channel at the same
index, through the first loop and through the body of the copy loop with the
target of that index. -/
theorem copy_get (m : List buffer_manager) (count : Int) (n : Nat) (buffs : List Nat)
    (tuners : List Int) (i : Nat) (bm' : buffer_manager)
    (h : ((List.zipWith (copy_channel (scan_min m count).2) (scan_min m count).1
        (fill_targets n buffs tuners)).map Prod.fst).get? i = some bm') :
    ∃ bm bms, m.get? i = some bm ∧ same_but_flip bm bms ∧
      (scan_min m count).1.get? i = some bms ∧
      bm' = (copy_channel (scan_min m count).2 bms
        ((fill_targets n buffs tuners).getD i 0)).1 := by
  rw [List.get?_eq_getElem?, List.getElem?_map] at h
  cases hz : (List.zipWith (copy_channel (scan_min m count).2) (scan_min m count).1
      (fill_targets n buffs tuners))[i]? with
  | none => rw [hz] at h; cases h
  | some z =>
    rw [hz] at h
    injection h with h
    obtain ⟨x, y, hx, hy, hf⟩ := List.getElem?_zipWith_eq_some.1 hz
    obtain ⟨bm, hbm, hsame⟩ := (scan_min_props m count).2.2.2.1 i x
      (by rw [List.get?_eq_getElem?]; exact hx)
    refine ⟨bm, x, hbm, hsame, by rw [List.get?_eq_getElem?]; exact hx, ?_⟩
    rw [← h, ← hf]
    simp [hy]

theorem copy_length (m : List buffer_manager) (count : Int) (n : Nat) (buffs : List Nat)
    (tuners : List Int) (hn : n = m.length) :
    ((List.zipWith (copy_channel (scan_min m count).2) (scan_min m count).1
        (fill_targets n buffs tuners)).map Prod.fst).length = m.length := by
  rw [List.length_map, List.length_zipWith, fill_targets_length,
    (scan_min_props m count).2.1, hn, Nat.min_self]

end Pico

namespace Pico

open Vita49

/-! ## Steps preserve the invariant -/

theorem channel_ok_congr (a b : buffer_manager) (h1 : b.out_pointer = a.out_pointer)
    (h2 : b.out_count = a.out_count) (h3 : b.tuner_valid = a.tuner_valid)
    (h4 : b.flip = a.flip) (h : channel_ok a) : channel_ok b := by
  unfold channel_ok buffer_manager.active_count buffer_manager.unread_count at *
  rw [h1, h2, h3, h4]
  exact h

theorem mem_of_get? {α : Type} (l : List α) (i : Nat) (a : α) (h : l.get? i = some a) :
    a ∈ l := by
  rw [List.get?_eq_getElem?] at h
  exact List.mem_iff_getElem?.2 ⟨i, h⟩

theorem get?_of_mem {α : Type} (l : List α) (a : α) (h : a ∈ l) : ∃ i, l.get? i = some a := by
  obtain ⟨i, hi⟩ := List.mem_iff_getElem?.1 h
  exact ⟨i, by rw [List.get?_eq_getElem?]; exact hi⟩

/-- The channel state that an admission writes: its active fill count is the
old one plus the samples of the packet. -/
theorem payload_samples_lt (p : VRTPacketImpl) : p.get_payload_size / 4 < 2 ^ 62 := by
  have : p.get_payload_size < 2 ^ 64 := by
    unfold VRTPacketImpl.get_payload_size SIZE_MOD
    exact Nat.mod_lt _ (by norm_num)
  omega

theorem admitted_channel_counts (bm : buffer_manager) (n : Nat) (got : Int)
    (hok : channel_ok bm) (hn : n < 2 ^ 62)
    (hcap : (to_size_t (at2 bm.out_count bm.out_pointer) + n) % SIZE_MOD < NUM_COMPLEX) :
    let bm2 : buffer_manager :=
      { bm with
        last_count := got
        out_count := (set2 bm.out_count bm.out_pointer
          (to_int ((to_size_t (at2 bm.out_count bm.out_pointer) + n) % SIZE_MOD))) }
    bm2.active_count = bm.active_count + n ∧ bm2.unread_count = bm.unread_count ∧
    bm.active_count + n < (NUM_COMPLEX : Int) ∧ channel_ok bm2 := by
  intro bm2
  obtain ⟨h1, h2, h3, h4⟩ := hok
  unfold buffer_manager.active_count at h1 h2
  have hc := to_size_t_of_nonneg (at2 bm.out_count bm.out_pointer) h1
    (by unfold NUM_COMPLEX at h2; omega)
  have hlt : to_size_t (at2 bm.out_count bm.out_pointer) < 20000000 := by
    unfold NUM_COMPLEX at h2; omega
  have hmod : (to_size_t (at2 bm.out_count bm.out_pointer) + n) % SIZE_MOD =
      to_size_t (at2 bm.out_count bm.out_pointer) + n := by
    unfold SIZE_MOD NUM_COMPLEX at *
    omega
  have hsmall : to_size_t (at2 bm.out_count bm.out_pointer) + n < 20000000 := by
    rw [hmod] at hcap
    unfold NUM_COMPLEX at hcap
    exact hcap
  have hact : bm2.active_count = bm.active_count + n := by
    show at2 (set2 bm.out_count bm.out_pointer _) bm.out_pointer = _
    rw [at2_set2_same, hmod, to_int_of_small _ (by omega)]
    unfold buffer_manager.active_count
    push_cast
    rw [hc]
  have hunr : bm2.unread_count = bm.unread_count := by
    show at2 (set2 bm.out_count bm.out_pointer _) (lnot bm.out_pointer) = _
    rw [at2_lnot_set2]
    rfl
  have hbound : bm.active_count + n < (NUM_COMPLEX : Int) := by
    unfold buffer_manager.active_count NUM_COMPLEX
    omega
  refine ⟨hact, hunr, hbound, ?_⟩
  unfold channel_ok
  rw [hact, hunr]
  refine ⟨?_, hbound, h3, h4⟩
  unfold buffer_manager.active_count
  omega

theorem step_packet_admitted (st : complex_manager) (p : VRTPacketImpl)
    (m' : List buffer_manager) (loss : Bool) (job : Job)
    (h : handle_packet st.m_mang p = PacketOutcome.admitted m' loss job) :
    step st (Event.packet p) = { st with m_mang := run_job m' job } := by
  simp only [step, h]

theorem step_packet_other (st : complex_manager) (p : VRTPacketImpl)
    (h : ∀ m' loss job, handle_packet st.m_mang p ≠ PacketOutcome.admitted m' loss job) :
    step st (Event.packet p) = st := by
  cases hhp : handle_packet st.m_mang p with
  | admitted m' loss job => exact absurd hhp (h m' loss job)
  | _ => simp only [step, hhp]

theorem run_job_length (m : List buffer_manager) (job : Job) :
    (run_job m job).length = m.length := by
  unfold run_job
  split
  · rfl
  · exact List.length_set _ _ _

/-- Every step keeps the number of channels. -/
theorem step_length (st : complex_manager) (e : Event) :
    (step st e).m_mang.length = st.m_mang.length := by
  cases e with
  | packet p =>
    by_cases hadm : ∃ m' loss job,
        handle_packet st.m_mang p = PacketOutcome.admitted m' loss job
    · obtain ⟨m', loss, job, hhp⟩ := hadm
      obtain ⟨sid, bm, _, _, _, _, _, _, _, hm'⟩ := handle_packet_admitted _ _ _ _ _ hhp
      rw [step_packet_admitted st p m' loss job hhp]
      show (run_job m' job).length = _
      rw [run_job_length, hm', List.length_set]
    · rw [step_packet_other st p (fun m' loss job hh => hadm ⟨m', loss, job, hh⟩)]
  | flip =>
    simp only [step]
    split
    · simp [handle_flip]
    · rfl
  | update =>
    simp only [step]
    split
    · simp [handle_update]
    · rfl
  | fill buffs tuners count =>
    simp only [step]
    rcases fill_pass_cases st buffs tuners count with ⟨_, h⟩ | ⟨_, _, h⟩ | ⟨_, _, h⟩
    · rw [h]
    · rw [h]; exact (scan_min_props st.m_mang count).2.1
    · rw [h]; exact copy_length st.m_mang count _ buffs tuners rfl
  | tuners ts =>
    simp [step, update_tuners]

theorem run_length (events : List Event) :
    ∀ st : complex_manager, (run st events).m_mang.length = st.m_mang.length := by
  induction events with
  | nil => intro st; rfl
  | cons e rest ih =>
    intro st
    show (run (step st e) rest).m_mang.length = _
    rw [ih, step_length]

end Pico

namespace Pico

open Vita49

/-- What a step does to one channel: the channel after the step comes from the
channel at the same index, it satisfies the invariant again, and unless the
step applies a reconfiguration its fill counts change by the samples admitted
into it and, when it is one of the requested channels of a `fill_buffers`
pass, by the value that the pass returns. -/
theorem step_channel (st : complex_manager) (e : Event) (i : Nat) (bm' : buffer_manager)
    (hok : state_ok st) (hget : (step st e).m_mang.get? i = some bm') :
    ∃ bm, st.m_mang.get? i = some bm ∧ channel_ok bm' ∧
      (e ≠ Event.update →
        (∀ buffs tuners count, e = Event.fill buffs tuners count →
          (fill_targets st.m_mang.length buffs tuners).getD i 0 ≠ 0) →
        bm'.unread_count + bm'.active_count =
          bm.unread_count + bm.active_count + admitted_samples st i e -
            returned_samples st e) := by
  have hch : ∀ j b, st.m_mang.get? j = some b → channel_ok b :=
    fun j b hb => hok.1 b (mem_of_get? _ _ _ hb)
  cases e with
  | packet p =>
    by_cases hadm : ∃ m' loss job,
        handle_packet st.m_mang p = PacketOutcome.admitted m' loss job
    · obtain ⟨m', loss, job, hhp⟩ := hadm
      obtain ⟨sid, bms, _, _, hbms, _, hcap, _, hjob, hm'⟩ :=
        handle_packet_admitted _ _ _ _ _ hhp
      rw [step_packet_admitted st p m' loss job hhp] at hget
      obtain ⟨bm0, hbm0, e1, e2, _, _, _, e6, e7⟩ := run_job_get_counts m' job i bm' hget
      obtain ⟨c1, c2, _, c4⟩ := admitted_channel_counts bms (p.get_payload_size / 4)
        (p.get_packet_count : Int) (hch _ _ hbms) (payload_samples_lt p) hcap
      have htc : job.target_channel = sid % 256 := by rw [hjob]
      have hadm_s : admitted_samples st i (Event.packet p) =
          if sid % 256 = i then ((p.get_payload_size / 4 : Nat) : Int) else 0 := by
        simp only [admitted_samples, hhp, htc]
      have hret : returned_samples st (Event.packet p) = 0 := rfl
      have hu : bm'.unread_count = bm0.unread_count := by
        unfold buffer_manager.unread_count; rw [e1, e2]
      have ha : bm'.active_count = bm0.active_count := by
        unfold buffer_manager.active_count; rw [e1, e2]
      rw [hm', List.get?_eq_getElem?, List.getElem?_set] at hbm0
      by_cases his : sid % 256 = i
      · rw [if_pos his] at hbm0
        subst his
        have hlt : sid % 256 < st.m_mang.length := by
          rw [List.get?_eq_getElem?] at hbms
          exact (List.getElem?_eq_some_iff.1 hbms).1
        rw [if_pos hlt] at hbm0
        injection hbm0 with hbm0
        refine ⟨bms, hbms, ?_, ?_⟩
        · exact channel_ok_congr _ bm' e1 e2 e6 e7 (hbm0 ▸ c4)
        · intro _ _
          rw [hadm_s, if_pos rfl, hret, hu, ha, ← hbm0, c1, c2]
          omega
      · rw [if_neg his] at hbm0
        refine ⟨bm0, by rw [List.get?_eq_getElem?]; exact hbm0, ?_, ?_⟩
        · exact channel_ok_congr _ bm' e1 e2 e6 e7
            (hch i bm0 (by rw [List.get?_eq_getElem?]; exact hbm0))
        · intro _ _
          rw [hadm_s, if_neg his, hret, hu, ha]
          omega
    · have hst := step_packet_other st p (fun m' loss job hh => hadm ⟨m', loss, job, hh⟩)
      rw [hst] at hget
      refine ⟨bm', hget, hch i bm' hget, ?_⟩
      intro _ _
      have : admitted_samples st i (Event.packet p) = 0 := by
        simp only [admitted_samples]
        cases hhp : handle_packet st.m_mang p with
        | admitted m' loss job => exact absurd ⟨m', loss, job, hhp⟩ hadm
        | _ => rfl
      rw [this]
      show _ = _ + _ + 0 - 0
      omega
  | flip =>
    have hadm_s : admitted_samples st i Event.flip = 0 := rfl
    have hret : returned_samples st Event.flip = 0 := rfl
    rw [hadm_s, hret]
    by_cases hr : st.m_request_flip = true
    · have hst : (step st Event.flip).m_mang = handle_flip st.m_mang := by
        simp only [step, hr, if_true]
      rw [hst] at hget
      unfold handle_flip at hget
      rw [List.get?_eq_getElem?, List.getElem?_map] at hget
      cases hb : st.m_mang[i]? with
      | none => rw [hb] at hget; cases hget
      | some bm =>
        rw [hb] at hget
        injection hget with hget
        have hbm : st.m_mang.get? i = some bm := by rw [List.get?_eq_getElem?]; exact hb
        have hokb := hch i bm hbm
        refine ⟨bm, hbm, by rw [← hget]; exact channel_ok_flip bm hokb, ?_⟩
        intro _ _
        rw [← hget]
        by_cases hc : bm.tuner_valid = true ∧ bm.flip = true
        · obtain ⟨f1, f2, _, _, _, _⟩ := flip_channel_counts bm hc.1 hc.2
          have hz := hokb.2.2.2 hc.1 hc.2
          rw [f1, f2, hz]
          omega
        · rw [flip_channel_unchanged bm hc]
          omega
    · have hst : step st Event.flip = st := by
        simp only [step, hr]
        rfl
      rw [hst] at hget
      exact ⟨bm', hget, hch i bm' hget, fun _ _ => by omega⟩
  | update =>
    by_cases hr : st.m_update_valid_streams = true
    · have hst : (step st Event.update).m_mang = handle_update st.m_mang := by
        simp only [step, hr, if_true]
      rw [hst, handle_update_get] at hget
      cases hb : st.m_mang.get? i with
      | none => rw [hb] at hget; cases hget
      | some bm =>
        rw [hb] at hget
        injection hget with hget
        exact ⟨bm, rfl, by rw [← hget]; exact channel_ok_update bm,
          fun h _ => absurd rfl h⟩
    · have hst : step st Event.update = st := by
        simp only [step, hr]
        rfl
      rw [hst] at hget
      exact ⟨bm', hget, hch i bm' hget, fun h _ => absurd rfl h⟩
  | fill buffs tuners count =>
    have hadm_s : admitted_samples st i (Event.fill buffs tuners count) = 0 := rfl
    rw [hadm_s]
    have hnn : ∀ b ∈ st.m_mang, b.tuner_valid = true → 0 ≤ b.unread_count :=
      fun b hb hv => (hok.1 b hb).2.2.1 hv
    obtain ⟨s1, s2, s3, s4, s5⟩ := scan_min_props st.m_mang count
    obtain ⟨_, s6⟩ := s5 hnn
    rcases fill_pass_cases st buffs tuners count with ⟨_, h⟩ | ⟨_, hz, h⟩ | ⟨_, hz, h⟩
    · have hst : step st (Event.fill buffs tuners count) = st := by
        simp only [step, h]
      have hret : returned_samples st (Event.fill buffs tuners count) = 0 := by
        simp only [returned_samples, h]
      rw [hst] at hget
      exact ⟨bm', hget, hch i bm' hget, fun _ _ => by rw [hret]; omega⟩
    · have hst : (step st (Event.fill buffs tuners count)).m_mang =
          (scan_min st.m_mang count).1 := by
        simp only [step, h]
      have hret : returned_samples st (Event.fill buffs tuners count) = 0 := by
        simp only [returned_samples, h]
      rw [hst] at hget
      obtain ⟨bm, hbm, hsame⟩ := s4 i bm' hget
      obtain ⟨_, e2, e3, _, _, _, e7, e8, e9, _⟩ := same_but_flip_fields bm bm' hsame
      have hokb := hch i bm hbm
      refine ⟨bm, hbm, ?_, fun _ _ => by rw [hret, e8, e9]; omega⟩
      unfold channel_ok
      rw [e8, e9, e7]
      refine ⟨hokb.1, hokb.2.1, hokb.2.2.1, fun _ hf => ?_⟩
      exact (s6 bm' (mem_of_get? _ _ _ hget) hf).2.1 ▸ e9 ▸ rfl
    · have hst : (step st (Event.fill buffs tuners count)).m_mang =
          (List.zipWith (copy_channel (scan_min st.m_mang count).2)
              (scan_min st.m_mang count).1
              (fill_targets st.m_mang.length buffs tuners)).map Prod.fst := by
        simp only [step, h]
      have hret : returned_samples st (Event.fill buffs tuners count) =
          (scan_min st.m_mang count).2 := by
        simp only [returned_samples, h]
      rw [hst] at hget
      obtain ⟨bm, bms, hbm, hsame, hbms, hbm'⟩ :=
        copy_get st.m_mang count _ buffs tuners i bm' hget
      obtain ⟨_, e2, e3, _, _, _, e7, e8, e9, _⟩ := same_but_flip_fields bm bms hsame
      obtain ⟨_, c2, _, _, c5, c6, c7, _, c9, _⟩ :=
        copy_channel_fields (scan_min st.m_mang count).2 bms
          ((fill_targets st.m_mang.length buffs tuners).getD i 0)
      have hokb := hch i bm hbm
      have hflip : bms.flip = false := by
        by_contra hf
        have hf' : bms.flip = true := by simpa using hf
        exact hz (s6 bms (mem_of_get? _ _ _ hbms) hf').2.2
      refine ⟨bm, hbm, ?_, ?_⟩
      · unfold channel_ok
        rw [hbm', c7, c9, c5, c6, e7, e8, e9, hflip]
        refine ⟨hokb.1, hokb.2.1, fun hv => ?_, fun _ hf => by cases hf⟩
        have hle := s3 bm (mem_of_get? _ _ _ hbm) hv
        have hnn0 := hokb.2.2.1 hv
        split <;> omega
      · intro _ hreq
        have ht := hreq buffs tuners count rfl
        rw [hret, hbm', c7, c9, if_pos ht, e8, e9]
        omega
  | tuners ts =>
    have hadm_s : admitted_samples st i (Event.tuners ts) = 0 := rfl
    have hret : returned_samples st (Event.tuners ts) = 0 := rfl
    rw [hadm_s, hret]
    have hst : step st (Event.tuners ts) = update_tuners st ts := rfl
    rw [hst, update_tuners_get] at hget
    cases hb : st.m_mang.get? i with
    | none => rw [hb] at hget; cases hget
    | some bm =>
      rw [hb] at hget
      injection hget with hget
      refine ⟨bm, rfl, by rw [← hget]; exact hch i bm hb, fun _ _ => ?_⟩
      rw [← hget]
      show bm.unread_count + bm.active_count = _
      omega

end Pico

namespace Pico

open Vita49

theorem step_safety_count (st : complex_manager) (e : Event) (h : 0 ≤ st.m_safety_count) :
    0 ≤ (step st e).m_safety_count := by
  cases e with
  | packet p =>
    by_cases hadm : ∃ m' loss job,
        handle_packet st.m_mang p = PacketOutcome.admitted m' loss job
    · obtain ⟨m', loss, job, hhp⟩ := hadm
      rw [step_packet_admitted st p m' loss job hhp]
      exact h
    · rw [step_packet_other st p (fun m' loss job hh => hadm ⟨m', loss, job, hh⟩)]
      exact h
  | flip =>
    simp only [step]
    split
    · exact h
    · exact h
  | update =>
    simp only [step]
    split
    · exact h
    · exact h
  | fill buffs tuners count =>
    simp only [step]
    rcases fill_pass_cases st buffs tuners count with ⟨_, hh⟩ | ⟨_, _, hh⟩ | ⟨_, _, hh⟩
    · rw [hh]; exact h
    · rw [hh]; show 0 ≤ st.m_safety_count + 1; omega
    · rw [hh]
  | tuners ts => exact h

/-- The steps of the demultiplexer thread leave `m_safety_count` alone. -/
theorem step_demux_safety_count (st : complex_manager) (e : Event) (h : e.is_demux = true) :
    (step st e).m_safety_count = st.m_safety_count := by
  cases e with
  | packet p =>
    by_cases hadm : ∃ m' loss job,
        handle_packet st.m_mang p = PacketOutcome.admitted m' loss job
    · obtain ⟨m', loss, job, hhp⟩ := hadm
      rw [step_packet_admitted st p m' loss job hhp]
    · rw [step_packet_other st p (fun m' loss job hh => hadm ⟨m', loss, job, hh⟩)]
  | flip =>
    simp only [step]
    split <;> rfl
  | update =>
    simp only [step]
    split <;> rfl
  | fill buffs tuners count => cases h
  | tuners ts => cases h

theorem state_ok_step (st : complex_manager) (e : Event) (h : state_ok st) :
    state_ok (step st e) := by
  refine ⟨?_, step_safety_count st e h.2⟩
  intro bm' hmem
  obtain ⟨i, hi⟩ := get?_of_mem _ _ hmem
  obtain ⟨_, _, hok, _⟩ := step_channel st e i bm' h hi
  exact hok

theorem state_ok_run (events : List Event) :
    ∀ st : complex_manager, state_ok st → state_ok (run st events) := by
  induction events with
  | nil => intro st h; exact h
  | cons e rest ih =>
    intro st h
    exact ih (step st e) (state_ok_step st e h)

theorem run_demux_safety_count (events : List Event) :
    ∀ st : complex_manager, (∀ e ∈ events, e.is_demux = true) →
      (run st events).m_safety_count = st.m_safety_count := by
  induction events with
  | nil => intro st _; rfl
  | cons e rest ih =>
    intro st h
    show (run (step st e) rest).m_safety_count = _
    rw [ih (step st e) (fun x hx => h x (List.mem_cons_of_mem _ hx)),
      step_demux_safety_count st e (h e (List.mem_cons_self _ _))]

theorem state_ok_initial (n u : Nat) : state_ok (initial_state n u) := by
  refine ⟨?_, le_refl _⟩
  intro bm hbm
  have : bm = initial_buffer_manager := List.eq_of_mem_replicate hbm
  rw [this]
  exact channel_ok_initial

theorem run_append (st : complex_manager) (a b : List Event) :
    run st (a ++ b) = run (run st a) b := by
  unfold run
  rw [List.foldl_append]

/-- Conservation along a sequence of steps without reconfiguration, for a
channel that every `fill_buffers` pass requests: what was admitted is what was
returned plus the change of the two fill counts. -/
theorem run_conservation (events : List Event) :
    ∀ (st : complex_manager) (i : Nat) (bm0 bm : buffer_manager),
      state_ok st →
      (∀ e ∈ events, e ≠ Event.update) →
      (∀ buffs tuners count, Event.fill buffs tuners count ∈ events →
        (fill_targets st.m_mang.length buffs tuners).getD i 0 ≠ 0) →
      st.m_mang.get? i = some bm0 →
      (run st events).m_mang.get? i = some bm →
      total_admitted st i events + bm0.unread_count + bm0.active_count =
        total_returned st events + bm.unread_count + bm.active_count := by
  induction events with
  | nil =>
    intro st i bm0 bm _ _ _ h0 h1
    have : bm0 = bm := by
      have h2 : (run st []).m_mang.get? i = st.m_mang.get? i := rfl
      rw [h2, h0] at h1
      injection h1
    rw [this]
    simp [total_admitted, total_returned]
  | cons e rest ih =>
    intro st i bm0 bm hok hupd hreq h0 h1
    have hlen := step_length st e
    have hsome : ∃ bm1, (step st e).m_mang.get? i = some bm1 := by
      have hlt : i < st.m_mang.length := by
        rw [List.get?_eq_getElem?] at h0
        exact (List.getElem?_eq_some_iff.1 h0).1
      have hlt' : i < (step st e).m_mang.length := by rw [hlen]; exact hlt
      exact ⟨(step st e).m_mang[i], by rw [List.get?_eq_getElem?]; exact List.getElem?_eq_getElem hlt'⟩
    obtain ⟨bm1, hbm1⟩ := hsome
    obtain ⟨b, hb, _, hdelta⟩ := step_channel st e i bm1 hok hbm1
    have hb0 : b = bm0 := by
      rw [h0] at hb
      injection hb with hb
      exact hb.symm
    subst hb0
    have hd := hdelta (hupd e (List.mem_cons_self _ _))
      (fun buffs tuners count he =>
        hreq buffs tuners count (by rw [← he]; exact List.mem_cons_self _ _))
    have hrec := ih (step st e) i bm1 bm (state_ok_step st e hok)
      (fun x hx => hupd x (List.mem_cons_of_mem _ hx))
      (fun buffs tuners count hmem => by
        rw [hlen]
        exact hreq buffs tuners count (List.mem_cons_of_mem _ hmem))
      hbm1 h1
    simp only [total_admitted, total_returned]
    omega

end Pico

namespace Pico

open Vita49

/-! ## Sample conservation and the capacity check -/

/-- C17: sample conservation. Take any history of the manager, a
reconfiguration applied by `handle_update` at its end, and after it any
interleaving of packet admissions, `fill_buffers` passes, flips served on
request and `update_tuners` calls that are not applied yet. For a channel
that every `fill_buffers` call requests, the samples admitted since the
reconfiguration equal the sum of the values returned by `fill_buffers` plus the
unread count of the inactive buffer plus the fill count of the active buffer;
so when both counts are zero the returned values sum to exactly the admitted
samples. This holds in particular for a single valid, requested channel. -/
theorem C17_sample_conservation (n u : Nat) (history events : List Event) (i : Nat)
    (bm : buffer_manager)
    (hpending : (run (initial_state n u) history).m_update_valid_streams = true)
    (hupd : ∀ e ∈ events, e ≠ Event.update)
    (hreq : ∀ buffs tuners count, Event.fill buffs tuners count ∈ events →
      (fill_targets n buffs tuners).getD i 0 ≠ 0)
    (hbm : (run (step (run (initial_state n u) history) Event.update) events).m_mang.get? i =
      some bm) :
    total_admitted (step (run (initial_state n u) history) Event.update) i events =
      total_returned (step (run (initial_state n u) history) Event.update) events +
        bm.unread_count + bm.active_count ∧
    (bm.unread_count = 0 → bm.active_count = 0 →
      total_returned (step (run (initial_state n u) history) Event.update) events =
        total_admitted (step (run (initial_state n u) history) Event.update) i events) := by
  have hok0 : state_ok (run (initial_state n u) history) :=
    state_ok_run history _ (state_ok_initial n u)
  have hok1 := state_ok_step _ Event.update hok0
  have hlen0 : (run (initial_state n u) history).m_mang.length = n := by
    rw [run_length]; simp [initial_state]
  have hlen1 : (step (run (initial_state n u) history) Event.update).m_mang.length = n := by
    rw [step_length, hlen0]
  have hlt : i < n := by
    have h1 := run_length events (step (run (initial_state n u) history) Event.update)
    rw [List.get?_eq_getElem?] at hbm
    have h2 := (List.getElem?_eq_some_iff.1 hbm).1
    omega
  have hst : (step (run (initial_state n u) history) Event.update).m_mang =
      handle_update (run (initial_state n u) history).m_mang := by
    simp only [step, hpending, if_true]
  obtain ⟨b0, hb0⟩ : ∃ b0, (run (initial_state n u) history).m_mang.get? i = some b0 :=
    ⟨(run (initial_state n u) history).m_mang[i],
      by rw [List.get?_eq_getElem?]; exact List.getElem?_eq_getElem (by omega)⟩
  have hget1 : (step (run (initial_state n u) history) Event.update).m_mang.get? i =
      some (update_channel b0) := by
    rw [hst, handle_update_get, hb0]
    rfl
  have hcons := run_conservation events _ i (update_channel b0) bm hok1 hupd
    (by rw [hlen1]; exact hreq) hget1 hbm
  have hz1 : (update_channel b0).unread_count = 0 := by
    simp [update_channel, buffer_manager.unread_count, at2, lnot]
  have hz2 : (update_channel b0).active_count = 0 := by
    simp [update_channel, buffer_manager.active_count, at2]
  rw [hz1, hz2] at hcons
  constructor
  · omega
  · intro h1 h2
    omega

/-- C20: a type-1 packet for an existing, valid channel whose active buffer
holds `c` samples (`c` is the active fill count of a channel that satisfies
the invariant), carrying `n = get_payload_size / 4` samples, is admitted if
and only if `c + n < NUM_COMPLEX`. When it is not admitted it is deferred and
the step leaves the whole state as it was; when it is admitted the active fill
count of the channel becomes `c + n` and its unread count stays. And in every
state that the manager reaches from its constructor, the active fill count of
every channel is a count below `NUM_COMPLEX`. -/
theorem C20_capacity_check (st : complex_manager) (p : VRTPacketImpl) (bm : buffer_manager)
    (hok : state_ok st) (htype : p.get_packet_type = 1)
    (hbm : st.m_mang.get? (rd p.m_packet_data 1 % 256) = some bm)
    (hvalid : bm.tuner_valid = true) :
    ((∃ m' loss job, handle_packet st.m_mang p = PacketOutcome.admitted m' loss job) ↔
      bm.active_count + ((p.get_payload_size / 4 : Nat) : Int) < (NUM_COMPLEX : Int)) ∧
    (¬ bm.active_count + ((p.get_payload_size / 4 : Nat) : Int) < (NUM_COMPLEX : Int) →
      handle_packet st.m_mang p = PacketOutcome.deferred ∧
      step st (Event.packet p) = st) ∧
    (bm.active_count + ((p.get_payload_size / 4 : Nat) : Int) < (NUM_COMPLEX : Int) →
      ∃ bm', (step st (Event.packet p)).m_mang.get? (rd p.m_packet_data 1 % 256) = some bm' ∧
        bm'.active_count = bm.active_count + ((p.get_payload_size / 4 : Nat) : Int) ∧
        bm'.unread_count = bm.unread_count ∧ bm'.read_index = bm.read_index) ∧
    (∀ (n u : Nat) (events : List Event) (i : Nat) (b : buffer_manager),
      (run (initial_state n u) events).m_mang.get? i = some b →
        0 ≤ b.active_count ∧ b.active_count < (NUM_COMPLEX : Int)) := by
  have hokb := hok.1 bm (mem_of_get? _ _ _ hbm)
  have hsplit := handle_packet_on_valid st.m_mang p bm htype hbm hvalid
  have hc := to_size_t_of_nonneg (at2 bm.out_count bm.out_pointer) hokb.1
    (by have := hokb.2.1; unfold buffer_manager.active_count NUM_COMPLEX at this; omega)
  have hn := payload_samples_lt p
  have hcapiff : (to_size_t (at2 bm.out_count bm.out_pointer) + p.get_payload_size / 4) %
      SIZE_MOD ≥ NUM_COMPLEX ↔
      ¬ bm.active_count + ((p.get_payload_size / 4 : Nat) : Int) < (NUM_COMPLEX : Int) := by
    have h1 := hokb.1
    have h2 := hokb.2.1
    unfold buffer_manager.active_count at h1 h2 ⊢
    unfold SIZE_MOD NUM_COMPLEX at *
    omega
  refine ⟨?_, ?_, ?_, ?_⟩
  · constructor
    · rintro ⟨m', loss, job, hadm⟩
      by_contra hcon
      rw [hsplit, if_pos (hcapiff.2 hcon)] at hadm
      cases hadm
    · intro hlt
      rw [hsplit, if_neg (fun hh => (hcapiff.1 hh) hlt)]
      exact ⟨_, _, _, rfl⟩
  · intro hnot
    have hdef : handle_packet st.m_mang p = PacketOutcome.deferred := by
      rw [hsplit, if_pos (hcapiff.2 hnot)]
    refine ⟨hdef, ?_⟩
    exact step_packet_other st p (fun m' loss job hh => by rw [hdef] at hh; cases hh)
  · intro hlt
    have hadm := hsplit
    rw [if_neg (fun hh => (hcapiff.1 hh) hlt)] at hadm
    have hlen : rd p.m_packet_data 1 % 256 < st.m_mang.length := by
      rw [List.get?_eq_getElem?] at hbm
      exact (List.getElem?_eq_some_iff.1 hbm).1
    have hlen' : rd p.m_packet_data 1 % 256 <
        (step st (Event.packet p)).m_mang.length := by
      rw [step_length]; exact hlen
    obtain ⟨bm', hbm'⟩ : ∃ bm',
        (step st (Event.packet p)).m_mang.get? (rd p.m_packet_data 1 % 256) = some bm' :=
      ⟨_, by rw [List.get?_eq_getElem?]; exact List.getElem?_eq_getElem hlen'⟩
    refine ⟨bm', hbm', ?_⟩
    have hcap : (to_size_t (at2 bm.out_count bm.out_pointer) + p.get_payload_size / 4) %
        SIZE_MOD < NUM_COMPLEX := by
      by_contra hh
      exact (hcapiff.1 (by omega)) hlt
    obtain ⟨c1, c2, _, _⟩ := admitted_channel_counts bm (p.get_payload_size / 4)
      (p.get_packet_count : Int) hokb hn hcap
    rw [step_packet_admitted st p _ _ _ hadm] at hbm'
    obtain ⟨bm0, hbm0, e1, e2, _, e4, _, _, _⟩ := run_job_get_counts _ _ _ bm' hbm'
    rw [List.get?_eq_getElem?, List.getElem?_set, if_pos rfl, if_pos hlen] at hbm0
    injection hbm0 with hbm0
    refine ⟨?_, ?_, ?_⟩
    · unfold buffer_manager.active_count
      rw [e1, e2, ← hbm0]
      exact c1
    · unfold buffer_manager.unread_count
      rw [e1, e2, ← hbm0]
      exact c2
    · rw [e4, ← hbm0]
  · intro n u events i b hb
    have hokr := state_ok_run events _ (state_ok_initial n u)
    have := hokr.1 b (mem_of_get? _ _ _ hb)
    exact ⟨this.1, this.2.1⟩

end Pico

namespace Pico

open Vita49

theorem C17_sample_conservation_witness :
    total_admitted (step (run (initial_state 1 64) [Event.tuners [1]]) Event.update) 0
        [Event.packet (sample_packet 0), Event.fill [1000] [1] 10, Event.flip,
          Event.fill [1000] [1] 10] = 1 ∧
    total_returned (step (run (initial_state 1 64) [Event.tuners [1]]) Event.update)
        [Event.packet (sample_packet 0), Event.fill [1000] [1] 10, Event.flip,
          Event.fill [1000] [1] 10] = 1 :=
  have h := C17_sample_conservation 1 64 [Event.tuners [1]]
    [Event.packet (sample_packet 0), Event.fill [1000] [1] 10, Event.flip,
      Event.fill [1000] [1] 10] 0
    ((run (step (run (initial_state 1 64) [Event.tuners [1]]) Event.update)
      [Event.packet (sample_packet 0), Event.fill [1000] [1] 10, Event.flip,
        Event.fill [1000] [1] 10]).m_mang.getD 0 initial_buffer_manager)
    (by decide) (by simp)
    (by
      intro b t c hmem
      simp only [List.mem_cons, List.mem_singleton, Event.fill.injEq, reduceCtorEq, false_or,
        List.not_mem_nil, or_false] at hmem
      rcases hmem with ⟨hb, ht, _⟩ | ⟨hb, ht, _⟩ <;> subst hb <;> subst ht <;> decide)
    (by rfl)
  ⟨by decide, (h.2 (by decide) (by decide)).trans (by decide)⟩

theorem C20_capacity_check_witness :
    (∃ m' loss job, handle_packet sample_valid_state.m_mang (sample_packet 0) =
      PacketOutcome.admitted m' loss job) ∧
    ∃ bm', (step sample_valid_state (Event.packet (sample_packet 0))).m_mang.get? 0 = some bm' ∧
      bm'.active_count = 1 :=
  have h := C20_capacity_check sample_valid_state (sample_packet 0)
    (update_channel (update_tuner_flag [1] 0 initial_buffer_manager))
    (state_ok_step _ Event.update (state_ok_step _ (Event.tuners [1]) (state_ok_initial 1 64)))
    (by decide) (by rfl) (by rfl)
  ⟨h.1.2 (by decide), (h.2.2.1 (by decide)).imp (fun _ hb => ⟨hb.1, hb.2.1.trans (by decide)⟩)⟩

end Pico

namespace Pico

open Vita49

/-! ## `fill_buffers`: bounds on the returned value -/

theorem fill_pass_state_eq_step (st : complex_manager) (buffs : List Nat) (tuners : List Int)
    (count : Int) : (fill_pass st buffs tuners count).state = step st (Event.fill buffs tuners count) :=
  rfl

theorem fill_buffers_rec_bounds (wait : Nat → complex_manager → complex_manager)
    (hwait : ∀ k s, ∃ evs : List Event, (∀ e ∈ evs, e.is_demux = true) ∧ wait k s = run s evs)
    (buffs : List Nat) (tuners : List Int) (count : Int) (hcount : 0 ≤ count) :
    ∀ (fuel : Nat) (st : complex_manager), state_ok st →
      (NUM_RECURSIVE - st.m_safety_count).toNat + 1 ≤ fuel →
      ∃ res, fill_buffers_rec wait fuel st buffs tuners count = some res ∧
        0 ≤ res.ret ∧ res.ret ≤ count := by
  intro fuel
  induction fuel with
  | zero => intro st _ h; omega
  | succ fuel ih =>
    intro st hok hfuel
    have hnn : ∀ bm ∈ st.m_mang, bm.tuner_valid = true → 0 ≤ bm.unread_count :=
      fun bm hb => (hok.1 bm hb).2.2.1
    obtain ⟨s1, s2, s3, s4, s5⟩ := scan_min_props st.m_mang count
    have s6 := (s5 hnn).1 hcount
    rcases fill_pass_cases st buffs tuners count with ⟨_, hp⟩ | ⟨_, hz, hp⟩ | ⟨_, hz, hp⟩
    · refine ⟨{ state := st, ret := 0, copies := [] }, ?_, le_refl _, hcount⟩
      simp only [fill_buffers_rec, hp]
    · have hokp : state_ok (fill_pass st buffs tuners count).state := by
        rw [fill_pass_state_eq_step]
        exact state_ok_step _ _ hok
      have hsp : (fill_pass st buffs tuners count).state.m_safety_count =
          st.m_safety_count + 1 := by rw [hp]
      obtain ⟨evs, hevs, hw⟩ := hwait fuel (fill_pass st buffs tuners count).state
      have hokw : state_ok (wait fuel (fill_pass st buffs tuners count).state) := by
        rw [hw]; exact state_ok_run _ _ hokp
      have hsw : (wait fuel (fill_pass st buffs tuners count).state).m_safety_count =
          st.m_safety_count + 1 := by
        rw [hw, run_demux_safety_count _ _ hevs, hsp]
      have hret : (fill_pass st buffs tuners count).ret = none := by rw [hp]
      by_cases hlt : (wait fuel (fill_pass st buffs tuners count).state).m_safety_count <
          NUM_RECURSIVE
      · have hfuel' : (NUM_RECURSIVE -
            (wait fuel (fill_pass st buffs tuners count).state).m_safety_count).toNat + 1 ≤
            fuel := by
          rw [hsw] at hlt ⊢
          unfold NUM_RECURSIVE at *
          omega
        obtain ⟨res, hres, hb⟩ := ih _ hokw hfuel'
        refine ⟨res, ?_, hb⟩
        simp only [fill_buffers_rec, hret, if_pos hlt]
        exact hres
      · refine ⟨{ state := { wait fuel (fill_pass st buffs tuners count).state with
            m_safety_count := 0 }, ret := 0, copies := [] }, ?_, le_refl _, hcount⟩
        simp only [fill_buffers_rec, hret, if_neg hlt]
    · refine ⟨{ state := (fill_pass st buffs tuners count).state
                ret := (scan_min st.m_mang count).2
                copies := (fill_pass st buffs tuners count).copies }, ?_, s6, s1⟩
      simp only [fill_buffers_rec, hp]

/-- C15: from every state that the manager reaches from its constructor, for
every list of destination buffers and tuners and every `count >= 0`,
`fill_buffers` returns, and the value `r` it returns satisfies
`0 <= r <= count`, whichever path it takes (reconfiguration pending, retry
budget exhausted, or copy). While `fill_buffers` waits for a flip the other
thread may take any number of demultiplexer steps. -/
theorem C15_fill_buffers_bounds (n u : Nat) (history : List Event)
    (wait : Nat → complex_manager → complex_manager)
    (hwait : ∀ k s, ∃ evs : List Event, (∀ e ∈ evs, e.is_demux = true) ∧ wait k s = run s evs)
    (buffs : List Nat) (tuners : List Int) (count : Int) (hcount : 0 ≤ count) :
    ∃ res, fill_buffers wait (run (initial_state n u) history) buffs tuners count = some res ∧
      0 ≤ res.ret ∧ res.ret ≤ count :=
  fill_buffers_rec_bounds wait hwait buffs tuners count hcount _ _
    (state_ok_run history _ (state_ok_initial n u)) (le_refl _)

theorem C15_fill_buffers_bounds_witness :
    ∃ res, fill_buffers (fun _ s => step s Event.flip)
        (run (initial_state 1 64) [Event.tuners [1], Event.update,
          Event.packet (sample_packet 0)]) [1000] [1] 10 = some res ∧
      0 ≤ res.ret ∧ res.ret ≤ 10 :=
  C15_fill_buffers_bounds 1 64
    [Event.tuners [1], Event.update, Event.packet (sample_packet 0)]
    (fun _ s => step s Event.flip) (fun _ s => ⟨[Event.flip], by simp [Event.is_demux], rfl⟩)
    [1000] [1] 10 (by decide)

end Pico

namespace Pico

open Vita49

/-! ## `fill_buffers`: the copy path -/

theorem getD_set_ne (l : List Nat) (i j v : Nat) (h : j ≠ i) :
    (l.set j v).getD i 0 = l.getD i 0 := by
  rw [List.getD_eq_getElem?_getD, List.getD_eq_getElem?_getD, List.getElem?_set_ne h]

theorem getD_set_same (l : List Nat) (i v : Nat) (h : i < l.length) :
    (l.set i v).getD i 0 = v := by
  rw [List.getD_eq_getElem?_getD, List.getElem?_set_self h]
  rfl

/-- The target of channel `i`: the buffer of the last pair whose tuner is
`i + 1`, or what `targets` held. -/
theorem set_targets_getD (pairs : List (Nat × Int)) :
    ∀ (targets : List Nat) (i : Nat), i < targets.length →
      (set_targets pairs targets).getD i 0 =
        (((pairs.filter (fun bt => decide (bt.2 = (i : Int) + 1))).getLast?.map
          Prod.fst).getD (targets.getD i 0)) := by
  induction pairs with
  | nil => intro targets i _; rfl
  | cons p rest ih =>
    obtain ⟨b, t⟩ := p
    intro targets i hi
    by_cases ht : t = (i : Int) + 1
    · have hc : t ≤ (targets.length : Int) ∧ t > 0 := by omega
      have e : set_targets ((b, t) :: rest) targets =
          set_targets rest (targets.set (t - 1).toNat b) := by
        show (if t ≤ (targets.length : Int) ∧ t > 0 then _ else _) = _
        rw [if_pos hc]
      have hidx : (t - 1).toNat = i := by omega
      rw [e, ih _ i (by rw [List.length_set]; exact hi), hidx, getD_set_same _ _ _ hi]
      have hf : List.filter (fun bt : Nat × Int => decide (bt.2 = (i : Int) + 1))
          ((b, t) :: rest) =
          (b, t) :: List.filter (fun bt : Nat × Int => decide (bt.2 = (i : Int) + 1)) rest := by
        rw [List.filter_cons_of_pos]
        simp [ht]
      rw [hf, List.getLast?_cons]
      cases hl : (List.filter (fun bt : Nat × Int => decide (bt.2 = (i : Int) + 1))
          rest).getLast? with
      | none => simp
      | some x => simp
    · have hf : List.filter (fun bt : Nat × Int => decide (bt.2 = (i : Int) + 1))
          ((b, t) :: rest) =
          List.filter (fun bt : Nat × Int => decide (bt.2 = (i : Int) + 1)) rest := by
        rw [List.filter_cons_of_neg]
        simp [ht]
      rw [hf]
      by_cases hc : t ≤ (targets.length : Int) ∧ t > 0
      · have e : set_targets ((b, t) :: rest) targets =
            set_targets rest (targets.set (t - 1).toNat b) := by
          show (if t ≤ (targets.length : Int) ∧ t > 0 then _ else _) = _
          rw [if_pos hc]
        have hidx : (t - 1).toNat ≠ i := by omega
        rw [e, ih _ i (by rw [List.length_set]; exact hi), getD_set_ne _ _ _ _ hidx]
      · have e : set_targets ((b, t) :: rest) targets = set_targets rest targets := by
          show (if t ≤ (targets.length : Int) ∧ t > 0 then _ else _) = _
          rw [if_neg hc]
        rw [e, ih _ i hi]

theorem fill_targets_eq_spec_target (n : Nat) (buffs : List Nat) (tuners : List Int) (i : Nat)
    (hi : i < n) : (fill_targets n buffs tuners).getD i 0 = spec_target buffs tuners i := by
  unfold fill_targets spec_target
  rw [set_targets_getD _ _ i (by rw [List.length_replicate]; exact hi)]
  congr 1
  rw [List.getD_eq_getElem?_getD, List.getElem?_replicate, if_pos hi]
  rfl

/-- The channel at index `i` in the zip of the copy loop. -/
theorem copy_zip_get (m : List buffer_manager) (count : Int) (buffs : List Nat)
    (tuners : List Int) (i : Nat) (bm : buffer_manager) (h : m.get? i = some bm) :
    ∃ bms, same_but_flip bm bms ∧
      (List.zipWith (copy_channel (scan_min m count).2) (scan_min m count).1
        (fill_targets m.length buffs tuners))[i]? =
        some (copy_channel (scan_min m count).2 bms
          ((fill_targets m.length buffs tuners).getD i 0)) := by
  rw [List.get?_eq_getElem?] at h
  have hi : i < m.length := (List.getElem?_eq_some_iff.1 h).1
  have hl1 : i < (scan_min m count).1.length := by
    rw [(scan_min_props m count).2.1]; exact hi
  have hl2 : i < (fill_targets m.length buffs tuners).length := by
    rw [fill_targets_length]; exact hi
  obtain ⟨bm0, hbm0, hsame⟩ := (scan_min_props m count).2.2.2.1 i ((scan_min m count).1[i])
    (by rw [List.get?_eq_getElem?]; exact List.getElem?_eq_getElem hl1)
  rw [List.get?_eq_getElem?, h] at hbm0
  injection hbm0 with hbm0
  subst hbm0
  refine ⟨(scan_min m count).1[i], hsame, ?_⟩
  rw [List.getElem?_zipWith_eq_some]
  refine ⟨_, _, List.getElem?_eq_getElem hl1, List.getElem?_eq_getElem hl2, ?_⟩
  rw [List.getD_eq_getElem?_getD, List.getElem?_eq_getElem hl2]
  rfl

theorem fill_buffers_copy_path (wait : Nat → complex_manager → complex_manager)
    (st : complex_manager) (buffs : List Nat) (tuners : List Int) (count : Int)
    (hu : st.m_update_valid_streams = false) (hz : (scan_min st.m_mang count).2 ≠ 0) :
    fill_buffers wait st buffs tuners count =
      some { state := (fill_pass st buffs tuners count).state
             ret := (scan_min st.m_mang count).2
             copies := (fill_pass st buffs tuners count).copies } ∧
    (fill_pass st buffs tuners count).state.m_mang =
      (List.zipWith (copy_channel (scan_min st.m_mang count).2) (scan_min st.m_mang count).1
        (fill_targets st.m_mang.length buffs tuners)).map Prod.fst ∧
    (fill_pass st buffs tuners count).copies =
      (List.zipWith (copy_channel (scan_min st.m_mang count).2) (scan_min st.m_mang count).1
        (fill_targets st.m_mang.length buffs tuners)).map Prod.snd := by
  rcases fill_pass_cases st buffs tuners count with ⟨h1, _⟩ | ⟨_, h0, _⟩ | ⟨_, _, hp⟩
  · rw [hu] at h1; cases h1
  · exact absurd h0 hz
  · refine ⟨?_, by rw [hp], by rw [hp]⟩
    unfold fill_buffers
    simp only [fill_buffers_rec, hp]

/-- The copy path of `fill_buffers`: when no reconfiguration is pending and
`available = min(count, minimum over the valid channels of the unread count
of the inactive buffer)` is greater than 0, `fill_buffers` returns
`available`. For every channel index `i`, the destination is the buffer listed
with tuner `i + 1` (`spec_target`). A channel with a destination gets
`copied_samples available` samples, read from the read cursor of its inactive
buffer on, its read cursor advances by `available` and its unread count
decreases by `available`; a channel without one gets no copy and keeps its
unread count and read cursor. No channel's active index, active fill count,
other read cursor, loss counter, validity or buffer contents change. -/
theorem fill_buffers_copy_spec (wait : Nat → complex_manager → complex_manager)
    (st : complex_manager) (buffs : List Nat) (tuners : List Int) (count : Int)
    (hu : st.m_update_valid_streams = false)
    (havail : 0 < spec_available st.m_mang count) :
    ∃ res, fill_buffers wait st buffs tuners count = some res ∧
      res.ret = spec_available st.m_mang count ∧
      res.state.m_mang.length = st.m_mang.length ∧
      res.copies.length = st.m_mang.length ∧
      ∀ i bm, st.m_mang.get? i = some bm →
        ∃ bm', res.state.m_mang.get? i = some bm' ∧
          bm'.out_pointer = bm.out_pointer ∧ bm'.out_buff = bm.out_buff ∧
          bm'.active_count = bm.active_count ∧ bm'.last_count = bm.last_count ∧
          bm'.tuner_valid = bm.tuner_valid ∧
          at2 bm'.read_index bm.out_pointer = at2 bm.read_index bm.out_pointer ∧
          (spec_target buffs tuners i ≠ 0 →
            res.copies.get? i = some (some (spec_target buffs tuners i,
              (List.range (copied_samples (spec_available st.m_mang count))).map
                (fun k => at2 bm.out_buff (lnot bm.out_pointer) (bm.read_cursor.toNat + k)))) ∧
            bm'.read_cursor = bm.read_cursor + spec_available st.m_mang count ∧
            bm'.unread_count = bm.unread_count - spec_available st.m_mang count) ∧
          (spec_target buffs tuners i = 0 →
            res.copies.get? i = some none ∧ bm'.read_cursor = bm.read_cursor ∧
            bm'.unread_count = bm.unread_count) := by
  have hmin := scan_min_eq_spec_available st.m_mang count
  have hz : (scan_min st.m_mang count).2 ≠ 0 := by rw [hmin]; omega
  obtain ⟨hfb, hmang, hcopies⟩ := fill_buffers_copy_path wait st buffs tuners count hu hz
  refine ⟨_, hfb, hmin, ?_, ?_, ?_⟩
  · show (fill_pass st buffs tuners count).state.m_mang.length = _
    rw [hmang]
    exact copy_length _ _ _ _ _ rfl
  · show (fill_pass st buffs tuners count).copies.length = _
    rw [hcopies, List.length_map, List.length_zipWith, fill_targets_length,
      (scan_min_props st.m_mang count).2.1, Nat.min_self]
  · intro i bm hbm
    have hi : i < st.m_mang.length := by
      rw [List.get?_eq_getElem?] at hbm
      exact (List.getElem?_eq_some_iff.1 hbm).1
    obtain ⟨bms, hsame, hzip⟩ := copy_zip_get st.m_mang count buffs tuners i bm hbm
    rw [fill_targets_eq_spec_target _ _ _ _ hi, hmin] at hzip
    obtain ⟨f1, f2, _, f4, f5, _, f7, f8, f9, f10⟩ := same_but_flip_fields bm bms hsame
    obtain ⟨c1, c2, c3, _, c5, _, c7, c8, c9, c10⟩ :=
      copy_channel_fields (spec_available st.m_mang count) bms (spec_target buffs tuners i)
    refine ⟨(copy_channel (spec_available st.m_mang count) bms (spec_target buffs tuners i)).1,
      ?_, by rw [c2, f2], by rw [c1, f1], by rw [c7, f8], by rw [c3, f4], by rw [c5, f7],
      by rw [← f2, c8, f5], ?_, ?_⟩
    · show (fill_pass st buffs tuners count).state.m_mang.get? i = _
      rw [hmang, List.get?_eq_getElem?, List.getElem?_map, hmin, hzip]
      rfl
    · intro ht
      refine ⟨?_, by rw [c10, if_pos ht, f10], by rw [c9, if_pos ht, f9]⟩
      show (fill_pass st buffs tuners count).copies.get? i = _
      rw [hcopies, List.get?_eq_getElem?, List.getElem?_map, hmin, hzip]
      unfold copy_channel
      rw [if_pos ht]
      have hrd : bms.get_read_buffer = fun k =>
          at2 bm.out_buff (lnot bm.out_pointer) (bm.read_cursor.toNat + k) := by
        funext k
        unfold buffer_manager.get_read_buffer buffer_manager.read_cursor
        rw [f1, f2, f5]
      simp only [Option.map_some', hrd]
    · intro ht
      have hn : ¬ spec_target buffs tuners i ≠ 0 := fun hh => hh ht
      refine ⟨?_, by rw [c10, if_neg hn, f10], by rw [c9, if_neg hn, f9]⟩
      show (fill_pass st buffs tuners count).copies.get? i = _
      rw [hcopies, List.get?_eq_getElem?, List.getElem?_map, hmin, hzip]
      unfold copy_channel
      rw [if_neg hn]
      rfl

end Pico

namespace Pico

open Vita49

/-- Below `2^28` samples the byte count fits the `int`: the copy holds exactly
`min` samples. -/
theorem copied_samples_of_small (min : Int) (h0 : 0 ≤ min) (h1 : min < 2 ^ 28) :
    cpy_amnt min = min * 8 ∧ copied_samples min = min.toNat := by
  have hs : to_size_t min = min.toNat := by
    unfold to_size_t SIZE_MOD
    congr 1
    omega
  have hc : cpy_amnt min = min * 8 := by
    unfold cpy_amnt SIZEOF_COMPLEX_FLOAT SIZE_MOD
    rw [hs, Nat.mod_eq_of_lt (by omega), to_int_of_small _ (by omega)]
    omega
  refine ⟨hc, ?_⟩
  unfold copied_samples SIZEOF_COMPLEX_FLOAT
  rw [hc]
  unfold to_size_t SIZE_MOD
  omega

theorem fill_buffers_copy_example :
    ∃ res, fill_buffers (fun _ s => s) sample_busy_state [1000] [1] 4 = some res ∧
      res.ret = 4 ∧
      ∃ bm', res.state.m_mang.get? 0 = some bm' ∧ bm'.read_cursor = 6 ∧ bm'.unread_count = 1 :=
  (fill_buffers_copy_spec (fun _ s => s) sample_busy_state [1000] [1] 4 (by decide)
    (by decide)).imp (fun _ h =>
      ⟨h.1, h.2.1.trans (by decide),
        (h.2.2.2.2 0 sample_busy_channel rfl).imp (fun _ hb =>
          ⟨hb.1, ((hb.2.2.2.2.2.2.2.1 (by decide)).2.1).trans (by decide),
            ((hb.2.2.2.2.2.2.2.1 (by decide)).2.2).trans (by decide)⟩)⟩)

/-- C16: the copy of `fill_buffers` is not always `available` samples. The
size given to `memcpy` is `int cpy_amnt = min * sizeof(std::complex<float>)`.
Up to `2^28 - 1` samples the `int` holds the byte count and exactly `min`
samples are copied. On the manager left by the constructor (its channel is
not valid, so `available` is the requested count) a call for tuner 1 with
`count = 2^28` returns `2^28`, but the byte count `2^31` is stored in the `int`
as `-2^31` and `memcpy` receives `2^64 - 2^31` bytes, that is `2^61 - 2^28`
samples instead of the `2^28` available ones. -/
theorem C16_copy_size_wraps :
    (∀ min : Int, 0 ≤ min → min < 2 ^ 28 → copied_samples min = min.toNat) ∧
    (initial_state 1 64).m_update_valid_streams = false ∧
    spec_available (initial_state 1 64).m_mang (2 ^ 28) = 2 ^ 28 ∧
    spec_target [1000] [1] 0 = 1000 ∧
    cpy_amnt (2 ^ 28) = -(2 ^ 31) ∧
    to_size_t (cpy_amnt (2 ^ 28)) = 2 ^ 64 - 2 ^ 31 ∧
    copied_samples (2 ^ 28) = 2 ^ 61 - 2 ^ 28 ∧
    ∃ res, fill_buffers (fun _ s => s) (initial_state 1 64) [1000] [1] (2 ^ 28) = some res ∧
      res.ret = 2 ^ 28 ∧
      res.copies.map (Option.map (fun tc => (tc.1, tc.2.length))) =
        [some (1000, 2 ^ 61 - 2 ^ 28)] := by
  have havail : spec_available (initial_state 1 64).m_mang (2 ^ 28) = 2 ^ 28 := by decide
  have htarget : spec_target [1000] [1] 0 = 1000 := by decide
  have hcs : copied_samples (2 ^ 28) = 2 ^ 61 - 2 ^ 28 := by decide
  refine ⟨fun min h0 h1 => (copied_samples_of_small min h0 h1).2, by decide, havail, htarget,
    by decide, by decide, hcs, ?_⟩
  obtain ⟨res, hres, hret, _, hlen, hch⟩ := fill_buffers_copy_spec (fun _ s => s)
    (initial_state 1 64) [1000] [1] (2 ^ 28) (by decide) (by rw [havail]; decide)
  refine ⟨res, hres, hret.trans havail, ?_⟩
  obtain ⟨bm', _, _, _, _, _, _, _, hcopy, _⟩ := hch 0 initial_buffer_manager rfl
  have hget := (hcopy (by rw [htarget]; decide)).1
  rw [htarget, havail, hcs] at hget
  have hlen1 : res.copies.length = 1 := hlen
  match hc : res.copies, hlen1, hget with
  | [c], _, hg =>
    rw [List.get?_cons_zero] at hg
    injection hg with hg
    rw [hg]
    simp only [List.map_cons, List.map_nil, Option.map_some', List.length_map,
      List.length_range]

end Pico

namespace Pico

open Vita49

/-! ## Packet-loss events -/

theorem get?_some_of_lt {α : Type} (l : List α) (i : Nat) (h : i < l.length) :
    ∃ a, l.get? i = some a :=
  ⟨l[i], by rw [List.get?_eq_getElem?]; exact List.getElem?_eq_getElem h⟩

theorem lt_of_get? {α : Type} (l : List α) (i : Nat) (a : α) (h : l.get? i = some a) :
    i < l.length := by
  rw [List.get?_eq_getElem?] at h
  exact (List.getElem?_eq_some_iff.1 h).1

theorem flip_channel_last_count (bm : buffer_manager) :
    (flip_channel bm).last_count = bm.last_count := by
  unfold flip_channel
  by_cases h : bm.tuner_valid = true ∧ bm.flip = true
  · rw [if_pos h]
  · rw [if_neg h]

/-- A step that is not an applied reconfiguration and does not admit a packet
into channel `i` leaves the loss counter of channel `i` as it was. -/
theorem step_last_count_other (st : complex_manager) (e : Event) (i : Nat)
    (bm : buffer_manager) (hbm : st.m_mang.get? i = some bm) (hupd : e ≠ Event.update)
    (hother : ∀ p m' loss job, e = Event.packet p →
      handle_packet st.m_mang p = PacketOutcome.admitted m' loss job → job.target_channel ≠ i) :
    ∃ bm', (step st e).m_mang.get? i = some bm' ∧ bm'.last_count = bm.last_count := by
  have hi := lt_of_get? _ _ _ hbm
  obtain ⟨bm', hbm'⟩ := get?_some_of_lt (step st e).m_mang i (by rw [step_length]; exact hi)
  refine ⟨bm', hbm', ?_⟩
  cases e with
  | update => exact absurd rfl hupd
  | tuners ts =>
    have : (step st (Event.tuners ts)).m_mang = (update_tuners st ts).m_mang := rfl
    rw [this, update_tuners_get, hbm] at hbm'
    injection hbm' with hbm'
    rw [← hbm']
    rfl
  | flip =>
    by_cases hr : st.m_request_flip = true
    · have : (step st Event.flip).m_mang = handle_flip st.m_mang := by
        simp only [step, hr, if_true]
      rw [this] at hbm'
      unfold handle_flip at hbm'
      rw [List.get?_eq_getElem?, List.getElem?_map, ← List.get?_eq_getElem?, hbm] at hbm'
      injection hbm' with hbm'
      rw [← hbm']
      exact flip_channel_last_count bm
    · have : step st Event.flip = st := by
        simp only [step, hr]
        rfl
      rw [this, hbm] at hbm'
      injection hbm' with hbm'
      rw [hbm']
  | fill buffs tuners count =>
    have hs : (step st (Event.fill buffs tuners count)).m_mang =
        (fill_pass st buffs tuners count).state.m_mang := rfl
    rw [hs] at hbm'
    rcases fill_pass_cases st buffs tuners count with ⟨_, hp⟩ | ⟨_, _, hp⟩ | ⟨_, _, hp⟩
    · rw [hp, hbm] at hbm'
      injection hbm' with hbm'
      rw [hbm']
    · rw [hp] at hbm'
      obtain ⟨bm0, hbm0, hsame⟩ := (scan_min_props st.m_mang count).2.2.2.1 i bm' hbm'
      rw [hbm] at hbm0
      injection hbm0 with hbm0
      rw [hbm0]
      exact (same_but_flip_fields _ _ hsame).2.2.2.1
    · rw [hp] at hbm'
      obtain ⟨bm0, bms, hbm0, hsame, _, heq⟩ := copy_get _ _ _ _ _ _ _ hbm'
      rw [hbm] at hbm0
      injection hbm0 with hbm0
      rw [heq, (copy_channel_fields _ _ _).2.2.1, (same_but_flip_fields _ _ hsame).2.2.2.1, hbm0]
  | packet p =>
    cases hhp : handle_packet st.m_mang p with
    | admitted m' loss job =>
      obtain ⟨sid, bmx, _, _, _, _, _, _, hjob, hm'⟩ := handle_packet_admitted _ _ _ _ _ hhp
      have hne : sid % 256 ≠ i := by
        have := hother p m' loss job rfl hhp
        rw [hjob] at this
        exact this
      rw [step_packet_admitted st p _ _ _ hhp] at hbm'
      obtain ⟨bm0, hbm0, _, _, e3, _⟩ := run_job_get_counts _ _ _ _ hbm'
      rw [hm', List.get?_eq_getElem?, List.getElem?_set_ne hne, ← List.get?_eq_getElem?, hbm]
        at hbm0
      injection hbm0 with hbm0
      rw [e3, hbm0]
    | _ =>
      rw [step_packet_other st p (fun m' loss job hh => by rw [hhp] at hh; cases hh), hbm] at hbm'
      injection hbm' with hbm'
      rw [hbm']

/-- A packet admitted into channel `i`: the loss event is the comparison with
the loss counter of the channel, and the counter becomes the packet counter. -/
theorem step_last_count_admitted (st : complex_manager) (p : VRTPacketImpl) (i : Nat)
    (bm : buffer_manager) (m' : List buffer_manager) (loss : Bool) (job : Job)
    (hbm : st.m_mang.get? i = some bm)
    (hadm : handle_packet st.m_mang p = PacketOutcome.admitted m' loss job)
    (htarget : job.target_channel = i) :
    loss = decide (expected_count bm.last_count (p.get_packet_count : Int) ≠
      (p.get_packet_count : Int)) ∧
    ∃ bm', (step st (Event.packet p)).m_mang.get? i = some bm' ∧
      bm'.last_count = (p.get_packet_count : Int) := by
  have hi := lt_of_get? _ _ _ hbm
  obtain ⟨sid, bmx, _, _, hget, _, _, hloss, hjob, hm'⟩ := handle_packet_admitted _ _ _ _ _ hadm
  have hsid : sid % 256 = i := by rw [hjob] at htarget; exact htarget
  rw [hsid, hbm] at hget
  injection hget with hget
  subst hget
  refine ⟨hloss, ?_⟩
  obtain ⟨bm', hbm'⟩ := get?_some_of_lt (step st (Event.packet p)).m_mang i
    (by rw [step_length]; exact hi)
  refine ⟨bm', hbm', ?_⟩
  rw [step_packet_admitted st p _ _ _ hadm] at hbm'
  obtain ⟨bm0, hbm0, _, _, e3, _⟩ := run_job_get_counts _ _ _ _ hbm'
  rw [hm', hsid, List.get?_eq_getElem?, List.getElem?_set_self hi] at hbm0
  injection hbm0 with hbm0
  rw [e3, ← hbm0]

theorem packet_count_lt (p : VRTPacketImpl) : p.get_packet_count < 16 := by
  unfold VRTPacketImpl.get_packet_count hdr_packet_count
  omega

theorem expected_count_seeded (L got : Nat) (hL : L < 16) :
    decide (expected_count (L : Int) (got : Int) ≠ (got : Int)) =
      decide (got ≠ (L + 1) % 16) := by
  unfold expected_count MAX_PACKET_COUNT
  simp only []
  by_cases h15 : L = 15
  · subst h15
    have h1 : ¬ ((15 : Nat) : Int) + 1 = 0 := by omega
    have h2 : ((15 : Nat) : Int) + 1 > 15 := by omega
    rw [if_neg h1, if_pos h2]
    apply decide_eq_decide.2
    omega
  · have h1 : ¬ (L : Int) + 1 = 0 := by omega
    have h2 : ¬ (L : Int) + 1 > 15 := by omega
    rw [if_neg h1, if_neg h2]
    apply decide_eq_decide.2
    omega

theorem expected_count_unseeded (got : Int) :
    decide (expected_count (-1) got ≠ got) = false := by
  unfold expected_count
  simp

theorem admissions_losses (i : Nat) (events : List Event) :
    ∀ (st : complex_manager) (bm : buffer_manager), st.m_mang.get? i = some bm →
      (∀ e ∈ events, e ≠ Event.update) →
      (bm.last_count = -1 →
        (admissions st i events).map Prod.snd =
          expected_losses ((admissions st i events).map Prod.fst)) ∧
      (∀ L : Nat, L < 16 → bm.last_count = (L : Int) →
        (admissions st i events).map Prod.snd =
          (expected_losses (L :: (admissions st i events).map Prod.fst)).tail) := by
  induction events with
  | nil =>
    intro st bm _ _
    exact ⟨fun _ => rfl, fun _ _ _ => rfl⟩
  | cons e events ih =>
    intro st bm hbm hupd
    have hupd' : ∀ e ∈ events, e ≠ Event.update :=
      fun x hx => hupd x (List.mem_cons_of_mem _ hx)
    have he : e ≠ Event.update := hupd e (List.mem_cons_self _ _)
    -- the case where the step does not admit into channel i
    have hkeep : admissions st i (e :: events) = admissions (step st e) i events →
        (∀ p m' loss job, e = Event.packet p →
          handle_packet st.m_mang p = PacketOutcome.admitted m' loss job →
          job.target_channel ≠ i) →
        (bm.last_count = -1 →
          (admissions st i (e :: events)).map Prod.snd =
            expected_losses ((admissions st i (e :: events)).map Prod.fst)) ∧
        (∀ L : Nat, L < 16 → bm.last_count = (L : Int) →
          (admissions st i (e :: events)).map Prod.snd =
            (expected_losses (L :: (admissions st i (e :: events)).map Prod.fst)).tail) := by
      intro hadm hother
      obtain ⟨bm', hbm', hlc⟩ := step_last_count_other st e i bm hbm he hother
      obtain ⟨ih1, ih2⟩ := ih (step st e) bm' hbm' hupd'
      rw [hadm]
      exact ⟨fun h => ih1 (by rw [hlc, h]), fun L hL h => ih2 L hL (by rw [hlc, h])⟩
    cases e with
    | update => exact absurd rfl he
    | flip => exact hkeep rfl (fun p _ _ _ hh => by cases hh)
    | tuners ts => exact hkeep rfl (fun p _ _ _ hh => by cases hh)
    | fill b t c => exact hkeep rfl (fun p _ _ _ hh => by cases hh)
    | packet p =>
      cases hhp : handle_packet st.m_mang p with
      | admitted m' loss job =>
        by_cases htarget : job.target_channel = i
        · have hadm : admissions st i (Event.packet p :: events) =
              (p.get_packet_count, loss) :: admissions (step st (Event.packet p)) i events := by
            simp only [admissions, hhp, if_pos htarget]
          obtain ⟨hloss, bm', hbm', hlc⟩ :=
            step_last_count_admitted st p i bm m' loss job hbm hhp htarget
          obtain ⟨_, ih2⟩ := ih (step st (Event.packet p)) bm' hbm' hupd'
          have htail := ih2 p.get_packet_count (packet_count_lt p) hlc
          rw [hadm]
          simp only [List.map_cons]
          rw [htail]
          constructor
          · intro h
            rw [hloss, h, expected_count_unseeded]
            rfl
          · intro L hL h
            rw [hloss, h, expected_count_seeded L _ hL]
            rfl
        · apply hkeep
          · simp only [admissions, hhp, if_neg htarget]
          · intro p2 m2 loss2 job2 hp2 hh
            injection hp2 with hp2
            subst hp2
            rw [hhp] at hh
            injection hh with _ _ hj
            rw [← hj]
            exact htarget
      | _ =>
        apply hkeep
        · simp only [admissions, hhp]
        · intro p2 m2 loss2 job2 hp2 hh
          injection hp2 with hp2
          subst hp2
          rw [hhp] at hh
          cases hh

/-- C13: take a channel `i` whose loss counter is unseeded (`last_count = -1`,
the state after a reset) and any sequence of steps without an applied
reconfiguration. For the packets admitted into channel `i`, with counters
`c1..cn`, the demultiplexer reports a loss event exactly at the positions
`k >= 2` where `ck != (c(k-1) + 1) mod 16`, and never for the first packet.
Hence counters 0,1,2,4,5 report exactly one loss event (at 4) and the run
14,15,0,1 reports none. -/
theorem C13_loss_events (st : complex_manager) (i : Nat) (bm : buffer_manager)
    (events : List Event) (hbm : st.m_mang.get? i = some bm) (hreset : bm.last_count = -1)
    (hupd : ∀ e ∈ events, e ≠ Event.update) :
    (admissions st i events).map Prod.snd =
      expected_losses ((admissions st i events).map Prod.fst) ∧
    admissions sample_valid_state 0 (([0, 1, 2, 4, 5].map sample_packet).map Event.packet) =
      [(0, false), (1, false), (2, false), (4, true), (5, false)] ∧
    admissions sample_valid_state 0 (([14, 15, 0, 1].map sample_packet).map Event.packet) =
      [(14, false), (15, false), (0, false), (1, false)] :=
  ⟨(admissions_losses i events st bm hbm hupd).1 hreset, by decide, by decide⟩

theorem C13_loss_events_witness :
    (admissions sample_valid_state 0
        [Event.packet (sample_packet 7), Event.fill [1000] [1] 10, Event.flip,
          Event.packet (sample_packet 9), Event.packet (sample_packet 10)]).map Prod.snd =
      [false, true, false] :=
  ((C13_loss_events sample_valid_state 0
    (update_channel (update_tuner_flag [1] 0 initial_buffer_manager))
    [Event.packet (sample_packet 7), Event.fill [1000] [1] 10, Event.flip,
      Event.packet (sample_packet 9), Event.packet (sample_packet 10)]
    (by rfl) (by rfl) (by simp)).1).trans (by decide)

/-- C14: the demultiplexer prints one loss marker per counter mismatch, not
one per lost packet. After counters 0 then 3 (packets 1 and 2 lost) on the
same channel it has printed one marker, where `(3 - 0 - 1) mod 16 = 2` packets
were lost; and no step ever prints more than one marker. -/
theorem C14_one_marker_per_mismatch :
    admissions sample_valid_state 0
      [Event.packet (sample_packet 0), Event.packet (sample_packet 3)] =
      [(0, false), (3, true)] ∧
    ((admissions sample_valid_state 0
      [Event.packet (sample_packet 0), Event.packet (sample_packet 3)]).filter
        (fun a => a.2)).length = 1 ∧
    (3 - 0 - 1) % 16 = 2 ∧
    ∀ (st : complex_manager) (e : Event), loss_markers st e ≤ 1 := by
  refine ⟨by decide, by decide, by decide, ?_⟩
  intro st e
  cases e with
  | packet p =>
    cases hhp : handle_packet st.m_mang p with
    | admitted m' loss job =>
      simp only [loss_markers, hhp]
      cases loss <;> simp
    | _ => simp [loss_markers, hhp]
  | _ => simp [loss_markers]

end Pico

namespace Pico

open Vita49

/-! ## Sample conversion -/

theorem process_fold (start : Nat) (buf : List Nat) (n : Nat) :
    ∀ target : Nat → Sample, start + n ≤ 2 ^ 32 →
      (∀ j, j < n →
        (List.range n).foldl
          (fun t j => Function.update t ((start + j) % WORD_MOD) (convert_word (rd buf j)))
          target (start + j) = convert_word (rd buf j)) ∧
      (∀ k, (k < start ∨ start + n ≤ k) →
        (List.range n).foldl
          (fun t j => Function.update t ((start + j) % WORD_MOD) (convert_word (rd buf j)))
          target k = target k) := by
  induction n with
  | zero =>
    intro target _
    exact ⟨fun j hj => absurd hj (Nat.not_lt_zero j), fun k _ => rfl⟩
  | succ n ih =>
    intro target hfit
    obtain ⟨ih1, ih2⟩ := ih target (by omega)
    have hmod : (start + n) % WORD_MOD = start + n := by
      unfold WORD_MOD
      omega
    rw [List.range_succ, List.foldl_append]
    simp only [List.foldl_cons, List.foldl_nil, hmod]
    constructor
    · intro j hj
      by_cases hjn : j = n
      · subst hjn
        exact Function.update_same _ _ _
      · rw [Function.update_noteq (by omega)]
        exact ih1 j (by omega)
    · intro k hk
      rw [Function.update_noteq (by omega)]
      exact ih2 k (by omega)

theorem to_int16_eq_spec (h : Nat) (hh : h < 2 ^ 16) : to_int16 h = spec_signed16 h := by
  unfold to_int16 spec_signed16
  rw [Nat.mod_eq_of_lt hh]

theorem convert_word_eq (w : Nat) (hw : w < 2 ^ 32) :
    convert_word w =
      ((spec_signed16 (w / 2 ^ 16) : ℚ) / 32768, (spec_signed16 (w % 2 ^ 16) : ℚ) / 32768) := by
  unfold convert_word IQ_SCALE_FACTOR WORD_MOD
  simp only []
  rw [Nat.mod_eq_of_lt hw, to_int16_eq_spec _ (by omega), to_int16_eq_spec _ (by omega)]

theorem process_packet_spec (job : Job) (target : Nat → Sample)
    (hsmall : job.m_sample_count < 2 ^ 31)
    (hfit : job.m_start_index + job.m_sample_count ≤ 2 ^ 32) :
    (∀ j, j < job.m_sample_count →
      process_packet job target (job.m_start_index + j) =
        convert_word (rd job.m_packet_buffer j)) ∧
    (∀ k, (k < job.m_start_index ∨ job.m_start_index + job.m_sample_count ≤ k) →
      process_packet job target k = target k) := by
  have hend : (to_int job.m_sample_count).toNat = job.m_sample_count := by
    rw [to_int_of_small _ hsmall]
    exact Int.toNat_natCast _
  unfold process_packet
  simp only [hend]
  exact process_fold job.m_start_index job.m_packet_buffer job.m_sample_count target hfit

end Pico

namespace Pico

open Vita49

theorem admitted_job_bounds (st : complex_manager) (p : VRTPacketImpl)
    (m' : List buffer_manager) (loss : Bool) (job : Job) (hok : state_ok st)
    (hadm : handle_packet st.m_mang p = PacketOutcome.admitted m' loss job) :
    job.m_sample_count = p.get_payload_size / 4 ∧ job.m_packet_buffer = p.get_payload ∧
    job.m_sample_count < 2 ^ 31 ∧ job.m_start_index + job.m_sample_count ≤ 2 ^ 32 := by
  obtain ⟨sid, bm, _, _, hget, _, hcap, _, hjob, _⟩ := handle_packet_admitted _ _ _ _ _ hadm
  have hokb := hok.1 bm (mem_of_get? _ _ _ hget)
  have h0 := hokb.1
  have h1 := hokb.2.1
  unfold buffer_manager.active_count at h0 h1
  have hc := to_size_t_of_nonneg (at2 bm.out_count bm.out_pointer) h0
    (by unfold NUM_COMPLEX at h1; omega)
  have hn := payload_samples_lt p
  have hu : to_uint32 (at2 bm.out_count bm.out_pointer) =
      to_size_t (at2 bm.out_count bm.out_pointer) := by
    unfold to_uint32 to_size_t WORD_MOD SIZE_MOD
    unfold NUM_COMPLEX at h1
    congr 1
    omega
  have hsum : to_size_t (at2 bm.out_count bm.out_pointer) + p.get_payload_size / 4 <
      20000000 := by
    unfold NUM_COMPLEX SIZE_MOD at *
    omega
  rw [hjob]
  simp only [hu]
  unfold WORD_MOD
  refine ⟨by omega, trivial, by omega, by omega⟩

/-- C19: for every job that the demultiplexer hands to a worker (a packet
admitted in a state that satisfies the invariant; `m_sample_count` is the
payload size in words), every target buffer and every sample index
`j < m_sample_count`, with `w` the 32-bit payload word `j`: `process_packet`
stores at `target[start + j]` the sample `(I, Q)` with `I` the high 16 bits
of `w` read as a signed 16-bit value, divided by 32768, and `Q` the low 16
bits read the same way, divided by 32768, as exact rationals; and it writes
nothing outside `[start, start + m_sample_count)`. The word `0x4000C000`, the
pair (16384, -16384), gives exactly (1/2, -1/2); and a frame with one type-1
packet carrying 4 such words for channel 1 yields 4 samples (1/2, -1/2) from
`fill_buffers` for tuner 1 after one flip. -/
theorem C19_process_packet (st : complex_manager) (p : VRTPacketImpl)
    (m' : List buffer_manager) (loss : Bool) (job : Job) (hok : state_ok st)
    (hadm : handle_packet st.m_mang p = PacketOutcome.admitted m' loss job) :
    job.m_sample_count = p.get_payload_size / 4 ∧
    (∀ (target : Nat → Sample) (j : Nat), j < job.m_sample_count →
      process_packet job target (job.m_start_index + j) =
        ((spec_signed16 (rd p.get_payload j / 2 ^ 16) : ℚ) / 32768,
          (spec_signed16 (rd p.get_payload j % 2 ^ 16) : ℚ) / 32768)) ∧
    (∀ (target : Nat → Sample) (k : Nat),
      (k < job.m_start_index ∨ job.m_start_index + job.m_sample_count ≤ k) →
      process_packet job target k = target k) ∧
    convert_word 0x4000C000 = (1 / 2, -1 / 2) ∧
    ∃ frame, VRLFrame.parse sample_data_frame 36 = some ⟨some 0, Except.ok frame⟩ ∧
      (fill_buffers (fun _ s => step s Event.flip)
        (run sample_valid_state (frame.m_packets.map Event.packet)) [1000] [1] 10).map
          FillResult.ret = some 4 ∧
      (fill_buffers (fun _ s => step s Event.flip)
        (run sample_valid_state (frame.m_packets.map Event.packet)) [1000] [1] 10).map
          FillResult.copies = some [some (1000, List.replicate 4 (1 / 2, -1 / 2))] := by
  obtain ⟨h1, h2, h3, h4⟩ := admitted_job_bounds st p m' loss job hok hadm
  refine ⟨h1, ?_, ?_, ?_, ?_⟩
  · intro target j hj
    rw [(process_packet_spec job target h3 h4).1 j hj, h2]
    exact convert_word_eq _ (rd_lt _ _)
  · intro target k hk
    exact (process_packet_spec job target h3 h4).2 k hk
  · rw [convert_word_eq _ (by norm_num)]
    unfold spec_signed16
    norm_num
  · exact ⟨⟨sample_data_frame, [⟨sample_data_frame.drop 2⟩]⟩, by decide, by decide,
      by decide!⟩

end Pico

namespace Pico

open Vita49

theorem C19_process_packet_witness :
    process_packet
      { m_packet_buffer := (sample_packet 0).get_payload
        m_sample_count := 1
        target_channel := 0
        target_buffer := 0
        m_start_index := 0 } (fun _ => (0, 0)) 0 = (1 / 2, -1 / 2) ∧
    process_packet
      { m_packet_buffer := (sample_packet 0).get_payload
        m_sample_count := 1
        target_channel := 0
        target_buffer := 0
        m_start_index := 0 } (fun _ => (0, 0)) 1 = (0, 0) :=
  have h := C19_process_packet sample_valid_state (sample_packet 0) _ _ _
    (state_ok_step _ Event.update (state_ok_step _ (Event.tuners [1]) (state_ok_initial 1 64)))
    ((handle_packet_on_valid sample_valid_state.m_mang (sample_packet 0)
      (update_channel (update_tuner_flag [1] 0 initial_buffer_manager))
      (by decide) (by rfl) (by rfl)).trans (if_neg (by decide)))
  ⟨(h.2.1 (fun _ => (0, 0)) 0 (by decide)).trans (by decide!),
    h.2.2.1 (fun _ => (0, 0)) 1 (Or.inr (by decide))⟩

end Pico

namespace Pico

open Vita49

/-! ## Overflow Staging: a frame split over two reads -/

theorem words_of_bytes_append (n : Nat) :
    ∀ a b : List Nat, a.length = 4 * n →
      words_of_bytes (a ++ b) = words_of_bytes a ++ words_of_bytes b := by
  induction n with
  | zero =>
    intro a b h
    have : a = [] := List.length_eq_zero.1 (by omega)
    subst this
    rfl
  | succ n ih =>
    intro a b h
    match a, h with
    | b0 :: b1 :: b2 :: b3 :: rest, h =>
      have hr : rest.length = 4 * n := by
        simp only [List.length_cons] at h
        omega
      show word_of_bytes b0 b1 b2 b3 :: words_of_bytes (rest ++ b) =
        word_of_bytes b0 b1 b2 b3 :: words_of_bytes rest ++ words_of_bytes b
      rw [ih rest b hr]
      rfl

theorem rd_words_head (i : Nat) :
    ∀ a b : List Nat, 4 * (i + 1) ≤ a.length →
      rd (words_of_bytes (a ++ b)) i = rd (words_of_bytes a) i := by
  induction i with
  | zero =>
    intro a b h
    match a, h with
    | b0 :: b1 :: b2 :: b3 :: rest, _ => rfl
  | succ i ih =>
    intro a b h
    match a, h with
    | b0 :: b1 :: b2 :: b3 :: rest, h =>
      show rd (word_of_bytes b0 b1 b2 b3 :: words_of_bytes (rest ++ b)) (i + 1) =
        rd (word_of_bytes b0 b1 b2 b3 :: words_of_bytes rest) (i + 1)
      rw [rd_cons_succ, rd_cons_succ]
      exact ih rest b (by simp only [List.length_cons] at h; omega)

theorem rd_words_take (a b : List Nat) (L i : Nat) (hL : L ≤ a.length)
    (hi : 4 * (i + 1) ≤ L) :
    rd (words_of_bytes (a.take L ++ b)) i = rd (words_of_bytes a) i := by
  rw [rd_words_head i (a.take L) b (by rw [List.length_take]; omega)]
  have h := rd_words_head i (a.take L) (a.drop L) (by rw [List.length_take]; omega)
  rw [List.take_append_drop] at h
  exact h.symm

/-- The reference frame in a window of at least five words that holds it:
`VRLFrame::parse` succeeds with index 0 and reports the encoded values. -/
theorem encode_frame_parse (faw frame_count : Nat) (fs : List PacketFields)
    (trailer : Nat) (padding : List Nat) (size : Nat)
    (hfaw : faw = FAW_VRLP ∨ faw = FAW_VS49)
    (hcount : frame_count < 2 ^ 12)
    (hne : fs ≠ [])
    (hwf : ∀ f ∈ fs, well_formed f)
    (hF : encoded_frame_size fs < 2 ^ 20)
    (h5 : 20 ≤ size)
    (hfit : 4 * encoded_frame_size fs ≤ size) :
    ∃ frame : VRLFrameImpl,
      VRLFrame.parse (encode_frame faw frame_count fs trailer ++ padding) size =
        some ⟨some 0, Except.ok frame⟩ ∧
      frame.get_frame_size = encoded_frame_size fs ∧
      frame.get_frame_count = frame_count ∧
      frame.m_packets.map VRTPacketImpl.view = fs.map PacketFields.view := by
  have hfawlt : faw < 2 ^ 32 := by
    rcases hfaw with h | h <;> rw [h] <;> decide
  have hr0 : rd (encode_frame faw frame_count fs trailer ++ padding) 0 = faw := by
    unfold encode_frame
    simp only [List.cons_append, rd_cons_zero, WORD_MOD]
    exact Nat.mod_eq_of_lt hfawlt
  have hr1 : rd (encode_frame faw frame_count fs trailer ++ padding) (0 + 1) =
      frame_count * 2 ^ 20 + encoded_frame_size fs := by
    unfold encode_frame
    simp only [List.cons_append, rd_cons_succ, rd_cons_zero, WORD_MOD]
    omega
  have hsz : (frame_count * 2 ^ 20 + encoded_frame_size fs) % 2 ^ 20 =
      encoded_frame_size fs := by omega
  have hgood : ∀ pkt ∈ fs.map encode_packet, pkt ≠ [] ∧ hdr_packet_type (rd pkt 0) ≤ 5 ∧
      hdr_packet_size (rd pkt 0) = pkt.length := by
    intro pkt hpkt
    obtain ⟨f, hf, rfl⟩ := List.mem_map.1 hpkt
    exact encode_packet_good f (hwf f hf)
  have hwalk := parse_packets_walk (fs.map encode_packet) (encoded_frame_size fs + 1)
    ((encode_frame faw frame_count fs trailer ++ padding).drop 0)
    (encoded_frame_size fs) 2 [] ([trailer] ++ padding)
    (by simpa using hne) hgood
    (by simp [encode_frame, encode_packets])
    (by unfold encoded_frame_size encode_packets; omega)
    (by omega)
    (by
      have := length_le_flatten_length (fs.map encode_packet) (fun q hq => (hgood q hq).1)
      unfold encoded_frame_size encode_packets
      omega)
  have hparse := parse_ok_intro (encode_frame faw frame_count fs trailer ++ padding) size 0
    ([] ++ suffix_packets (fs.map encode_packet) ([trailer] ++ padding))
    (fun j hj => absurd hj (Nat.not_lt_zero j))
    (by rw [hr0]; exact hfaw)
    (by omega)
    (by rw [hr1, hsz]; omega)
    (by rw [hr1, hsz]; exact hwalk)
  refine ⟨_, hparse, ?_, ?_, ?_⟩
  · unfold VRLFrameImpl.get_frame_size VRLFrameImpl.m_frame_info
    simp only [List.drop_zero]
    rw [show (1 : Nat) = 0 + 1 from rfl, hr1, hsz]
  · unfold VRLFrameImpl.get_frame_count VRLFrameImpl.m_frame_info
    simp only [List.drop_zero]
    rw [show (1 : Nat) = 0 + 1 from rfl, hr1]
    omega
  · simp only [List.nil_append]
    exact suffix_packets_view fs _ hwf

theorem frame_loop_end (U fuel : Nat) (st : complex_manager) (buffer : List Nat)
    (total_length byte_index : Int) (frames : List VRLFrameImpl)
    (h : ¬ byte_index < total_length) :
    frame_loop U (fuel + 1) st buffer total_length byte_index frames =
      some (ReadOutcome.done st frames) := by
  unfold frame_loop
  rw [if_pos h]

theorem frame_loop_ok (U fuel : Nat) (st : complex_manager) (buffer : List Nat)
    (total_length byte_index : Int) (frames : List VRLFrameImpl) (idx : Option Nat)
    (frame : VRLFrameImpl) (h : byte_index < total_length)
    (hp : VRLFrame.parse (words_of_bytes (buffer.drop byte_index.toNat))
      (to_size_t (total_length - byte_index)) = some ⟨idx, Except.ok frame⟩) :
    frame_loop U (fuel + 1) st buffer total_length byte_index frames =
      frame_loop U fuel
        { st with m_last_frame_count := ((frame.get_frame_count : Nat) : Int) }
        buffer total_length
        (byte_index + ((idx.getD 0 : Nat) : Int) * 4 + ((frame.get_frame_size : Nat) : Int) * 4)
        (frames ++ [frame]) := by
  rw [frame_loop, if_neg (not_not.2 h)]
  simp only [hp]

theorem frame_loop_index_error (U fuel : Nat) (st : complex_manager) (buffer : List Nat)
    (total_length byte_index : Int) (frames : List VRLFrameImpl) (idx : Option Nat)
    (h : byte_index < total_length) (hU : total_length - byte_index ≤ (U : Int))
    (hp : VRLFrame.parse (words_of_bytes (buffer.drop byte_index.toNat))
      (to_size_t (total_length - byte_index)) = some ⟨idx, Except.error Exn.index_error⟩) :
    frame_loop U (fuel + 1) st buffer total_length byte_index frames =
      frame_loop U fuel
        { st with
          m_amnt_saved := total_length - byte_index
          m_overflow_buffer :=
            memcpy st.m_overflow_buffer 0 (buffer.drop byte_index.toNat)
              (total_length - byte_index).toNat }
        buffer total_length (byte_index + (total_length - byte_index)) frames := by
  rw [frame_loop, if_neg (not_not.2 h)]
  simp only [hp]
  rw [if_neg (by omega), if_neg (by omega)]

end Pico

namespace Pico

open Vita49

theorem to_size_t_natCast (n : Nat) (h : n < 2 ^ 64) : to_size_t (n : Int) = n := by
  unfold to_size_t SIZE_MOD
  have : (n : Int) % ((2 ^ 64 : Nat) : Int) = (n : Int) :=
    Int.emod_eq_of_lt (by omega) (by push_cast; omega)
  rw [this]
  exact Int.toNat_natCast n

/-- The frame loop on a window that holds exactly one whole reference frame of
at least five words: it decodes the frame and ends. -/
theorem frame_loop_whole (U fuel : Nat) (st : complex_manager) (buffer : List Nat)
    (total_length byte_index : Int) (frames : List VRLFrameImpl)
    (faw frame_count : Nat) (fs : List PacketFields) (trailer : Nat)
    (bytes stale : List Nat)
    (hfaw : faw = FAW_VRLP ∨ faw = FAW_VS49) (hcount : frame_count < 2 ^ 12) (hne : fs ≠ [])
    (hwf : ∀ f ∈ fs, well_formed f) (hF : encoded_frame_size fs < 2 ^ 20)
    (h5 : 5 ≤ encoded_frame_size fs)
    (hbytes : words_of_bytes bytes = encode_frame faw frame_count fs trailer)
    (hlen : bytes.length = 4 * encoded_frame_size fs)
    (hwin : buffer.drop byte_index.toNat = bytes ++ stale)
    (hsize : total_length - byte_index = ((bytes.length : Nat) : Int)) :
    ∃ frame, frame_loop U (fuel + 2) st buffer total_length byte_index frames =
        some (ReadOutcome.done { st with m_last_frame_count := (frame_count : Int) }
          (frames ++ [frame])) ∧
      frame_view frame = (encoded_frame_size fs, frame_count, fs.map PacketFields.view) := by
  obtain ⟨frame, hparse, hfs, hfc, hview⟩ := encode_frame_parse faw frame_count fs trailer
    (words_of_bytes stale) (4 * encoded_frame_size fs) hfaw hcount hne hwf hF (by omega)
    (le_refl _)
  have hp : VRLFrame.parse (words_of_bytes (buffer.drop byte_index.toNat))
      (to_size_t (total_length - byte_index)) = some ⟨some 0, Except.ok frame⟩ := by
    rw [hwin, hsize, to_size_t_natCast _ (by omega),
      words_of_bytes_append (encoded_frame_size fs) bytes stale hlen, hbytes, hlen]
    exact hparse
  refine ⟨frame, ?_, ?_⟩
  · rw [frame_loop_ok U (fuel + 1) st buffer total_length byte_index frames (some 0) frame
      (by omega) hp]
    rw [frame_loop_end U fuel _ buffer total_length _ _
      (by simp only [Option.getD_some]; rw [hfs]; omega)]
    rw [hfc]
  · unfold frame_view
    rw [hfs, hfc, hview]

/-- The frame loop on a window that holds only the first `L1` bytes of a
reference frame, with `0 < L1 < 4 * frame_size`: `VRLFrame::parse` throws
`index_error`, the `L1` bytes are saved in Overflow Staging and the loop
ends. -/
theorem frame_loop_short (U fuel : Nat) (st : complex_manager) (buffer : List Nat)
    (total_length byte_index : Int) (frames : List VRLFrameImpl)
    (faw frame_count : Nat) (fs : List PacketFields) (trailer : Nat)
    (bytes stale : List Nat) (L1 : Nat)
    (hfaw : faw = FAW_VRLP ∨ faw = FAW_VS49) (hcount : frame_count < 2 ^ 12)
    (hF : encoded_frame_size fs < 2 ^ 20)
    (hbytes : words_of_bytes bytes = encode_frame faw frame_count fs trailer)
    (hlen : bytes.length = 4 * encoded_frame_size fs)
    (hpos : 0 < L1) (hlt : L1 < bytes.length) (hU : L1 ≤ U)
    (hwin : buffer.drop byte_index.toNat = bytes.take L1 ++ stale)
    (hsize : total_length - byte_index = (L1 : Int)) :
    frame_loop U (fuel + 2) st buffer total_length byte_index frames =
      some (ReadOutcome.done
        { st with
          m_amnt_saved := (L1 : Int)
          m_overflow_buffer := memcpy st.m_overflow_buffer 0 (bytes.take L1 ++ stale) L1 }
        frames) := by
  have hfawlt : faw < 2 ^ 32 := by
    rcases hfaw with h | h <;> rw [h] <;> decide
  have hp : ∃ idx, VRLFrame.parse (words_of_bytes (buffer.drop byte_index.toNat))
      (to_size_t (total_length - byte_index)) = some ⟨idx, Except.error Exn.index_error⟩ := by
    rw [hwin, hsize, to_size_t_natCast _ (by omega)]
    by_cases h20 : L1 < 20
    · refine ⟨none, ?_⟩
      unfold VRLFrame.parse
      rw [if_pos (by omega)]
    · have hr0 : rd (words_of_bytes (bytes.take L1 ++ stale)) 0 = faw := by
        rw [rd_words_take bytes stale L1 0 (by omega) (by omega), hbytes]
        unfold encode_frame
        simp only [rd_cons_zero, WORD_MOD]
        exact Nat.mod_eq_of_lt hfawlt
      have hr1 : rd (words_of_bytes (bytes.take L1 ++ stale)) (0 + 1) =
          frame_count * 2 ^ 20 + encoded_frame_size fs := by
        rw [rd_words_take bytes stale L1 (0 + 1) (by omega) (by omega), hbytes]
        unfold encode_frame
        simp only [rd_cons_succ, rd_cons_zero, WORD_MOD]
        omega
      have hscan := scan_alignment_run (words_of_bytes (bytes.take L1 ++ stale)) L1 0
        (fun j hj => absurd hj (Nat.not_lt_zero j)) (Or.inl rfl)
        (Or.inr (by rw [hr0]; exact hfaw))
      refine ⟨some 0, ?_⟩
      rw [parse_of_scan _ L1 0 (L1 - 4 * 0) (by omega) hscan, if_neg (by omega), hr1,
        if_pos (by omega)]
  obtain ⟨idx, hp⟩ := hp
  rw [frame_loop_index_error U (fuel + 1) st buffer total_length byte_index frames idx
    (by omega) (by omega) hp]
  rw [frame_loop_end U fuel _ buffer total_length _ _ (by omega)]
  rw [hwin, hsize, Int.toNat_natCast]

end Pico

namespace Pico

open Vita49

theorem ingest_empty (U fuel : Nat) (st : complex_manager) (buffer : List Nat) :
    ingest U fuel st buffer 0 = some (ReadOutcome.done st []) := by
  unfold ingest
  rw [if_pos rfl]

theorem ingest_fresh (U fuel : Nat) (st : complex_manager) (buffer : List Nat) (length : Int)
    (hl : length ≠ 0) (hs : st.m_amnt_saved = 0) :
    ingest U fuel st buffer length = frame_loop U fuel st buffer (length + (U : Int)) (U : Int) [] := by
  unfold ingest
  rw [if_neg hl]
  simp only [hs, ne_eq, not_true_eq_false, if_false]

theorem ingest_staged (U fuel : Nat) (st : complex_manager) (buffer : List Nat) (length : Int)
    (hl : length ≠ 0) (hs : st.m_amnt_saved ≠ 0) (h0 : 0 ≤ st.m_amnt_saved)
    (hU : st.m_amnt_saved ≤ (U : Int)) :
    ingest U fuel st buffer length =
      frame_loop U fuel { st with m_amnt_saved := 0 }
        (memcpy buffer ((U : Int) - st.m_amnt_saved).toNat st.m_overflow_buffer
          st.m_amnt_saved.toNat)
        (length + (U : Int)) ((U : Int) - st.m_amnt_saved) [] := by
  unfold ingest
  rw [if_neg hl]
  simp only []
  rw [if_pos hs, if_neg (by omega)]

/-- The window of the second read after the staged bytes have been copied in
front of it. -/
theorem staged_window (U L1 : Nat) (ov head2 bytes stale1 stale2 : List Nat)
    (hL : L1 ≤ bytes.length) (hU : L1 ≤ U) (hh2 : head2.length = U) :
    (memcpy (head2 ++ (bytes.drop L1 ++ stale2)) (U - L1)
      (memcpy ov 0 (bytes.take L1 ++ stale1) L1) L1).drop (U - L1) = bytes ++ stale2 := by
  have ht : (bytes.take L1).length = L1 := by rw [List.length_take]; omega
  have h1 : List.take L1 (bytes.take L1 ++ stale1) = bytes.take L1 := List.take_left' ht
  have h2 : memcpy ov 0 (bytes.take L1 ++ stale1) L1 = bytes.take L1 ++ ov.drop L1 := by
    unfold memcpy
    rw [h1, List.take_zero, List.nil_append, Nat.zero_add]
  have h3 : List.take L1 (bytes.take L1 ++ ov.drop L1) = bytes.take L1 := List.take_left' ht
  have h4 : List.drop (U - L1 + L1) (head2 ++ (bytes.drop L1 ++ stale2)) =
      bytes.drop L1 ++ stale2 := List.drop_left' (by omega)
  have h5 : (List.take (U - L1) (head2 ++ (bytes.drop L1 ++ stale2))).length = U - L1 := by
    rw [List.length_take, List.length_append]
    omega
  rw [h2]
  unfold memcpy
  rw [List.drop_left' h5, h3, h4, ← List.append_assoc, List.take_append_drop]

/-- C12 (as amended): take a reference frame of at least five words
(alignment word, info word, `n >= 1` well-formed packets, trailer, as built by
`encode_frame`), any byte string `bytes` whose host-order words are the words
of the frame, and any split offset `0 <= L1 <= 4 * frame_size` such that the bytes
staged from the first read fit Overflow Staging (`L1 <= UDP_START_INDEX`
when the split cuts the frame). Starting with empty Overflow
Staging, the frame loop run on the first `L1` bytes and then on the rest
decodes exactly one frame, with the frame size, the frame count and the packet
views of the reference frame, the same as the frame loop run on the whole
frame in one read, and both runs end with `m_amnt_saved = 0`. This holds
whatever the buffers hold in front of and behind the data, with fuel 2 or
more. -/
theorem C12_split_frame (U fuel : Nat) (st : complex_manager) (faw frame_count : Nat)
    (fs : List PacketFields) (trailer : Nat)
    (bytes head1 head2 head stale1 stale2 stale : List Nat) (L1 : Nat)
    (hfaw : faw = FAW_VRLP ∨ faw = FAW_VS49) (hcount : frame_count < 2 ^ 12) (hne : fs ≠ [])
    (hwf : ∀ f ∈ fs, well_formed f) (hF : encoded_frame_size fs < 2 ^ 20)
    (h5 : 5 ≤ encoded_frame_size fs)
    (hbytes : words_of_bytes bytes = encode_frame faw frame_count fs trailer)
    (hlen : bytes.length = 4 * encoded_frame_size fs)
    (hL1 : L1 ≤ bytes.length) (hU : 0 < L1 → L1 < bytes.length → L1 ≤ U)
    (hh1 : head1.length = U) (hh2 : head2.length = U) (hh : head.length = U)
    (hsaved : st.m_amnt_saved = 0) (hfuel : 2 ≤ fuel) :
    ∃ st2 st' frames2 frames',
      ingest_reads U fuel st
        [(head1 ++ (bytes.take L1 ++ stale1), (L1 : Int)),
          (head2 ++ (bytes.drop L1 ++ stale2), ((bytes.length - L1 : Nat) : Int))] [] =
        some (ReadOutcome.done st2 frames2) ∧
      ingest_reads U fuel st [(head ++ (bytes ++ stale), (bytes.length : Int))] [] =
        some (ReadOutcome.done st' frames') ∧
      frames2.map frame_view = frames'.map frame_view ∧
      frames'.map frame_view =
        [(encoded_frame_size fs, frame_count, fs.map PacketFields.view)] ∧
      st2.m_amnt_saved = 0 ∧ st'.m_amnt_saved = 0 := by
  obtain ⟨f, rfl⟩ : ∃ f, fuel = f + 2 := ⟨fuel - 2, by omega⟩
  -- the whole frame in one read, from any state with empty staging
  have hwhole : ∀ (s : complex_manager) (hd sl : List Nat), s.m_amnt_saved = 0 →
      hd.length = U →
      ∃ frame, ingest U (f + 2) s (hd ++ (bytes ++ sl)) (bytes.length : Int) =
          some (ReadOutcome.done { s with m_last_frame_count := (frame_count : Int) }
            ([] ++ [frame])) ∧
        frame_view frame = (encoded_frame_size fs, frame_count, fs.map PacketFields.view) := by
    intro s hd sl hs hhd
    rw [ingest_fresh U (f + 2) s _ _ (by omega) hs]
    exact frame_loop_whole U f s _ _ _ [] faw frame_count fs trailer bytes sl hfaw hcount hne
      hwf hF h5 hbytes hlen (by rw [Int.toNat_natCast]; exact List.drop_left' hhd)
      (by omega)
  obtain ⟨frame', hone, hview'⟩ := hwhole st head stale hsaved hh
  have hone' : ingest_reads U (f + 2) st [(head ++ (bytes ++ stale), (bytes.length : Int))] [] =
      some (ReadOutcome.done { st with m_last_frame_count := (frame_count : Int) }
        ([] ++ ([] ++ [frame']))) := by
    simp only [ingest_reads, hone]
  by_cases hz : L1 = 0
  · -- nothing in the first read
    subst hz
    obtain ⟨frame2, htwo, hview2⟩ := hwhole st head2 stale2 hsaved hh2
    refine ⟨{ st with m_last_frame_count := (frame_count : Int) }, _, [] ++ ([] ++ [frame2]), _,
      ?_, hone', ?_, ?_, hsaved, hsaved⟩
    · simp only [ingest_reads, List.take_zero, List.nil_append, List.drop_zero, Nat.sub_zero,
        Nat.cast_zero, ingest_empty, htwo]
    · simp only [List.nil_append, List.map_cons, List.map_nil, hview2, hview']
    · simp only [List.nil_append, List.map_cons, List.map_nil, hview']
  · by_cases hall : L1 = bytes.length
    · -- the whole frame in the first read
      subst hall
      obtain ⟨frame2, htwo, hview2⟩ := hwhole st head1 stale1 hsaved hh1
      refine ⟨{ st with m_last_frame_count := (frame_count : Int) }, _,
        [] ++ ([] ++ [frame2]) ++ [], _, ?_, hone', ?_, ?_, hsaved, hsaved⟩
      · simp only [ingest_reads, List.take_length, List.drop_length, Nat.sub_self,
          Nat.cast_zero, ingest_empty, htwo]
      · simp only [List.nil_append, List.append_nil, List.map_cons, List.map_nil, hview2,
          hview']
      · simp only [List.nil_append, List.map_cons, List.map_nil, hview']
    · -- the frame is cut
      have hpos : 0 < L1 := Nat.pos_of_ne_zero hz
      have hlt : L1 < bytes.length := lt_of_le_of_ne hL1 hall
      have hLU := hU hpos hlt
      have hfirst : ingest U (f + 2) st (head1 ++ (bytes.take L1 ++ stale1)) (L1 : Int) =
          some (ReadOutcome.done
            { st with
              m_amnt_saved := (L1 : Int)
              m_overflow_buffer :=
                memcpy st.m_overflow_buffer 0 (bytes.take L1 ++ stale1) L1 } []) := by
        rw [ingest_fresh U (f + 2) st _ _ (by omega) hsaved]
        exact frame_loop_short U f st _ _ _ [] faw frame_count fs trailer bytes stale1 L1 hfaw
          hcount hF hbytes hlen hpos hlt hLU
          (by rw [Int.toNat_natCast]; exact List.drop_left' hh1) (by omega)
      have hsecond : ∃ frame2,
          ingest U (f + 2)
            { st with
              m_amnt_saved := (L1 : Int)
              m_overflow_buffer :=
                memcpy st.m_overflow_buffer 0 (bytes.take L1 ++ stale1) L1 }
            (head2 ++ (bytes.drop L1 ++ stale2)) ((bytes.length - L1 : Nat) : Int) =
            some (ReadOutcome.done
              { st with
                m_amnt_saved := 0
                m_overflow_buffer :=
                  memcpy st.m_overflow_buffer 0 (bytes.take L1 ++ stale1) L1
                m_last_frame_count := (frame_count : Int) } ([] ++ [frame2])) ∧
          frame_view frame2 =
            (encoded_frame_size fs, frame_count, fs.map PacketFields.view) := by
        rw [ingest_staged U (f + 2) _ _ _ (by omega) (by simp only []; omega)
          (by simp only []; omega) (by simp only []; omega)]
        have e1 : ((U : Int) - (L1 : Int)).toNat = U - L1 := by omega
        simp only [e1, Int.toNat_natCast]
        exact frame_loop_whole U f _ _ _ _ [] faw frame_count fs trailer bytes stale2 hfaw hcount
          hne hwf hF h5 hbytes hlen
          (by rw [e1]; exact staged_window U L1 _ head2 bytes stale1 stale2 hL1 hLU hh2)
          (by omega)
      obtain ⟨frame2, htwo, hview2⟩ := hsecond
      refine ⟨{ st with
          m_amnt_saved := 0
          m_overflow_buffer := memcpy st.m_overflow_buffer 0 (bytes.take L1 ++ stale1) L1
          m_last_frame_count := (frame_count : Int) }, _, [] ++ [] ++ ([] ++ [frame2]), _,
        ?_, hone', ?_, ?_, rfl, hsaved⟩
      · simp only [ingest_reads, hfirst, htwo]
      · simp only [List.nil_append, List.append_nil, List.map_cons, List.map_nil, hview2,
          hview']
      · simp only [List.nil_append, List.map_cons, List.map_nil, hview']

end Pico

namespace Pico

open Vita49

theorem C12_split_frame_witness :
    ∃ st2 st' frames2 frames',
      ingest_reads 64 4 (initial_state 1 64)
        [(List.replicate 64 7 ++ (sample_frame_bytes.take 30 ++ [1, 2, 3]), ((30 : Nat) : Int)),
          (List.replicate 64 9 ++ (sample_frame_bytes.drop 30 ++ [5, 5, 5, 5, 5]),
            ((sample_frame_bytes.length - 30 : Nat) : Int))] [] =
        some (ReadOutcome.done st2 frames2) ∧
      ingest_reads 64 4 (initial_state 1 64)
        [(List.replicate 64 0 ++ (sample_frame_bytes ++ []), (sample_frame_bytes.length : Int))]
        [] = some (ReadOutcome.done st' frames') ∧
      frames2.map frame_view = frames'.map frame_view ∧
      frames'.map frame_view =
        [(encoded_frame_size [sample_if_data, sample_if_context], 9,
          [sample_if_data, sample_if_context].map PacketFields.view)] ∧
      st2.m_amnt_saved = 0 ∧ st'.m_amnt_saved = 0 :=
  C12_split_frame 64 4 (initial_state 1 64) FAW_VRLP 9 [sample_if_data, sample_if_context] VEND
    sample_frame_bytes (List.replicate 64 7) (List.replicate 64 9) (List.replicate 64 0)
    [1, 2, 3] [5, 5, 5, 5, 5] [] 30
    (by decide) (by decide) (by decide) (by decide) (by decide) (by decide) (by decide)
    (by decide) (by decide) (by decide) (by decide) (by decide) (by decide) (by decide)
    (by decide)

/-- C12, counterexample: the frame of four words (alignment word, info word,
one one-word packet, trailer) is a frame of the reference encoder, but its 16
bytes are fewer than the five words that `VRLFrame::parse` asks for. Split
after byte 8, and also in one read, nothing is decoded and the 16 bytes stay
in Overflow Staging (`m_amnt_saved = 16`). -/
theorem C12_short_frame_counterexample :
    well_formed sample_bare_packet ∧
    words_of_bytes sample_short_frame_bytes =
      encode_frame FAW_VRLP 1 [sample_bare_packet] VEND ∧
    (ingest_reads 64 4 (initial_state 1 64)
      [(List.replicate 64 0 ++ sample_short_frame_bytes.take 8, 8),
        (List.replicate 64 0 ++ sample_short_frame_bytes.drop 8, 8)] []).map
      (fun o => o.summary.map (fun s => (s.1.length, s.2))) = some (some (0, 16)) ∧
    (ingest_reads 64 4 (initial_state 1 64)
      [(List.replicate 64 0 ++ sample_short_frame_bytes, 16)] []).map
      (fun o => o.summary.map (fun s => (s.1.length, s.2))) = some (some (0, 16)) := by
  refine ⟨by decide, by decide, by decide, by decide⟩

end Pico

namespace Pico

open Vita49

/-! ## `handle_flip` -/

theorem handle_flip_get (m_mang : List buffer_manager) (i : Nat) :
    (handle_flip m_mang).get? i = (m_mang.get? i).map flip_channel := by
  unfold handle_flip
  rw [List.get?_eq_getElem?, List.getElem?_map, List.get?_eq_getElem?]

theorem flip_channel_rest (bm : buffer_manager) :
    (flip_channel bm).out_buff = bm.out_buff ∧
    (flip_channel bm).tuner_valid = bm.tuner_valid ∧
    (flip_channel bm).tuner_valid_safe = bm.tuner_valid_safe := by
  unfold flip_channel
  by_cases h : bm.tuner_valid = true ∧ bm.flip = true
  · rw [if_pos h]
    exact ⟨rfl, rfl, rfl⟩
  · rw [if_neg h]
    exact ⟨rfl, rfl, rfl⟩

theorem lnot_values (p : Nat) : (p = 0 → lnot p = 1) ∧ (p = 1 → lnot p = 0) := by
  unfold lnot
  constructor
  · intro h; rw [if_pos h]
  · intro h; rw [if_neg (by omega)]

/-- C21: `handle_flip` keeps the number of channels, and for every channel
index `i`: if the channel is both valid and flip-requested, the active index is
swapped (0 becomes 1, 1 becomes 0), the fill count of the new active buffer is
0, both read cursors are 0 and the flip-request flag is cleared, while the
buffers, the loss counter and the validity flags stay; so the buffer that was
being written is now the readable one, read from its start, with its fill
count as the unread count. A channel that is not both valid and
flip-requested is left entirely unchanged. -/
theorem C21_handle_flip (m_mang : List buffer_manager) (i : Nat) (bm : buffer_manager)
    (hbm : m_mang.get? i = some bm) :
    (handle_flip m_mang).length = m_mang.length ∧
    ∃ bm', (handle_flip m_mang).get? i = some bm' ∧
      ((bm.tuner_valid = true ∧ bm.flip = true) →
        bm'.out_pointer = lnot bm.out_pointer ∧
        (bm.out_pointer = 0 → bm'.out_pointer = 1) ∧
        (bm.out_pointer = 1 → bm'.out_pointer = 0) ∧
        bm'.active_count = 0 ∧ bm'.read_index = (0, 0) ∧ bm'.read_cursor = 0 ∧
        bm'.flip = false ∧ bm'.unread_count = bm.active_count ∧
        (∀ k, bm'.get_read_buffer k = at2 bm.out_buff bm.out_pointer k) ∧
        bm'.out_buff = bm.out_buff ∧ bm'.last_count = bm.last_count ∧
        bm'.tuner_valid = true ∧ bm'.tuner_valid_safe = bm.tuner_valid_safe) ∧
      (¬ (bm.tuner_valid = true ∧ bm.flip = true) → bm' = bm) := by
  refine ⟨by unfold handle_flip; exact List.length_map _ _, flip_channel bm,
    by rw [handle_flip_get, hbm]; rfl, ?_, fun h => flip_channel_unchanged bm h⟩
  intro h
  obtain ⟨c1, c2, c3, c4, c5, c6⟩ := flip_channel_counts bm h.1 h.2
  obtain ⟨r1, _, r3⟩ := flip_channel_rest bm
  refine ⟨c6, fun h0 => by rw [c6]; exact (lnot_values _).1 h0,
    fun h1 => by rw [c6]; exact (lnot_values _).2 h1, c1, c5, ?_, c4, c2, ?_, r1,
    flip_channel_last_count bm, c3, r3⟩
  · unfold buffer_manager.read_cursor
    rw [c5]
    unfold at2
    split <;> rfl
  · intro k
    unfold buffer_manager.get_read_buffer
    rw [c5, c6, r1, at2_lnot_lnot]
    have : (at2 ((0 : Int), (0 : Int)) (lnot (lnot bm.out_pointer))).toNat = 0 := by
      unfold at2
      split <;> rfl
    rw [this, Nat.zero_add]

theorem C21_handle_flip_witness :
    (handle_flip [sample_flip_channel, sample_busy_channel]).length = 2 ∧
    ∃ bm', (handle_flip [sample_flip_channel, sample_busy_channel]).get? 0 = some bm' ∧
      bm'.out_pointer = 0 ∧ bm'.active_count = 0 ∧ bm'.unread_count = 3 ∧
      bm'.read_cursor = 0 ∧ bm'.flip = false :=
  have h := C21_handle_flip [sample_flip_channel, sample_busy_channel] 0 sample_flip_channel rfl
  ⟨h.1, h.2.imp (fun _ hb =>
    have hc := hb.2.1 (by decide)
    ⟨hb.1, hc.2.2.1 (by decide), hc.2.2.2.1, hc.2.2.2.2.2.2.2.1.trans (by decide),
      hc.2.2.2.2.2.1, hc.2.2.2.2.2.2.1⟩)⟩

/-! ## The stream id test and the packet type test of the packet loop -/

/-- C22: the bound check of the packet loop is `stream_id > NUM_STREAMS`. A
type-1 packet whose channel id (low 8 bits of the stream id) is greater than
the number of channels is dropped as an invalid stream id and the state stays
as it was; but a channel id equal to the number of channels passes the check
and `m_mang[stream_id]` is read behind the last channel. With one channel
(`NUM_STREAMS = 1`) that is stream id 1. -/
theorem C22_stream_id_off_by_one (st : complex_manager) (p : VRTPacketImpl)
    (htype : p.get_packet_type = 1) :
    (rd p.m_packet_data 1 % 256 > st.m_mang.length →
      handle_packet st.m_mang p = PacketOutcome.invalid_stream_id ∧
      step st (Event.packet p) = st) ∧
    (rd p.m_packet_data 1 % 256 = st.m_mang.length →
      handle_packet st.m_mang p = PacketOutcome.out_of_bounds) := by
  have hsid := stream_id_of_type_one p htype
  have hne : ¬ p.get_packet_type ≠ 1 := fun h => h htype
  constructor
  · intro hgt
    have hinv : handle_packet st.m_mang p = PacketOutcome.invalid_stream_id := by
      unfold handle_packet
      rw [if_neg hne, hsid]
      simp only []
      rw [if_pos (Or.inr (by omega))]
    exact ⟨hinv, step_packet_other st p (fun m' loss job hh => by rw [hinv] at hh; cases hh)⟩
  · intro heq
    unfold handle_packet
    rw [if_neg hne, hsid]
    simp only []
    rw [if_neg (by omega)]
    have hget : st.m_mang.get? (((rd p.m_packet_data 1 % 256 : Nat) : Int)).toNat = none := by
      rw [Int.toNat_natCast, List.get?_eq_getElem?]
      exact List.getElem?_eq_none (by omega)
    rw [hget]

theorem C22_stream_id_off_by_one_witness :
    handle_packet (initial_state NUM_STREAMS 64).m_mang (sample_stream_packet 2) =
        PacketOutcome.invalid_stream_id ∧
    handle_packet (initial_state NUM_STREAMS 64).m_mang (sample_stream_packet 1) =
        PacketOutcome.out_of_bounds :=
  have h2 := C22_stream_id_off_by_one (initial_state NUM_STREAMS 64) (sample_stream_packet 2)
    (by decide)
  have h1 := C22_stream_id_off_by_one (initial_state NUM_STREAMS 64) (sample_stream_packet 1)
    (by decide)
  ⟨(h2.1 (by decide)).1, h1.2 (by decide)⟩

/-- C26, counterexample: an extension data packet (type 3, one of the data
types 0..3) for the valid channel 0, with room in the buffer, is skipped by
the type test: it is not considered for admission and nothing is admitted. -/
theorem C26_data_type_skipped_counterexample :
    sample_extension_packet.get_packet_type = 3 ∧
    (sample_valid_state.m_mang.get? 0).map buffer_manager.tuner_valid = some true ∧
    (match handle_packet sample_valid_state.m_mang sample_extension_packet with
      | PacketOutcome.not_data => true
      | _ => false) = true ∧
    admissions sample_valid_state 0 [Event.packet sample_extension_packet] = [] ∧
    admissions sample_valid_state 0 [Event.packet (sample_stream_packet 0)] = [(0, false)] := by
  refine ⟨by decide, by decide, by decide, by decide, by decide⟩

/-- C26 (as amended): the packet loop considers a packet for admission exactly
when its packet type is 1 (IF data with a stream id). Every packet of another
type, the data types 0, 2, 3 as well as the context types 4 and 5, is skipped
by the type test and leaves the whole state as it was: no channel's fill
count, read cursor or loss counter changes, and nothing is admitted. -/
theorem C26_only_type_one (st : complex_manager) (p : VRTPacketImpl)
    (htype : p.get_packet_type ≠ 1) :
    handle_packet st.m_mang p = PacketOutcome.not_data ∧
    step st (Event.packet p) = st ∧
    (∀ i, admitted_samples st i (Event.packet p) = 0) ∧
    loss_markers st (Event.packet p) = 0 ∧
    (∀ q : VRTPacketImpl, handle_packet st.m_mang q = PacketOutcome.not_data →
      q.get_packet_type ≠ 1) := by
  have hnd : handle_packet st.m_mang p = PacketOutcome.not_data := by
    unfold handle_packet
    rw [if_pos htype]
  refine ⟨hnd, step_packet_other st p (fun m' loss job hh => by rw [hnd] at hh; cases hh),
    fun i => by simp only [admitted_samples, hnd], by simp only [loss_markers, hnd], ?_⟩
  intro q hq h1
  have hne : ¬ q.get_packet_type ≠ 1 := fun h => h h1
  unfold handle_packet at hq
  rw [if_neg hne, stream_id_of_type_one q h1] at hq
  simp only [] at hq
  split at hq
  · cases hq
  · split at hq
    · cases hq
    · split at hq
      · cases hq
      · split at hq <;> cases hq

theorem C26_only_type_one_witness :
    handle_packet sample_valid_state.m_mang
        { m_packet_data := encode_packet sample_if_context } = PacketOutcome.not_data ∧
    step sample_valid_state (Event.packet { m_packet_data := encode_packet sample_if_context }) =
      sample_valid_state :=
  have h := C26_only_type_one sample_valid_state
    { m_packet_data := encode_packet sample_if_context } (by decide)
  ⟨h.1, h.2.1⟩

end Pico

namespace Pico

open Vita49

/-! ## Frames without packets and frames of size zero -/

/-- C24: a frame without packets is not parsed. In a window of at least five
words that starts with an alignment word and announces frame size 3, the
packet walk (a `do ... while`) still reads one packet at word offset 2, with
0 bytes left: that word is the frame trailer, and for the trailer `VEND`
(packet type 5, packet size `0x4E44`) `VRTPacket::parse` throws `index_error`,
which leaves `VRLFrame::parse`. -/
theorem C24_empty_frame_trailer_parsed (frame_data : List Nat) (size : Nat)
    (hfaw : rd frame_data 0 = FAW_VRLP ∨ rd frame_data 0 = FAW_VS49)
    (h5 : 20 ≤ size) (hsize : rd frame_data 1 % 2 ^ 20 = 3)
    (htrailer : rd frame_data 2 = VEND) :
    VRTPacket.parse (frame_data.drop 2) 0 = Except.error Exn.index_error ∧
    VRLFrame.parse frame_data size = some ⟨some 0, Except.error Exn.index_error⟩ := by
  have hscan := scan_alignment_run frame_data size 0
    (fun j hj => absurd hj (Nat.not_lt_zero j)) (Or.inl rfl) (Or.inr hfaw)
  have hpkt : VRTPacket.parse (frame_data.drop 2) 0 = Except.error Exn.index_error := by
    unfold VRTPacket.parse
    simp only [rd_drop, Nat.add_zero, htrailer]
    rw [if_neg (by decide), if_pos (by decide)]
  refine ⟨hpkt, ?_⟩
  rw [parse_of_scan frame_data size 0 (size - 4 * 0) h5 hscan, if_neg (by omega)]
  simp only [Nat.zero_add, hsize]
  rw [if_neg (by omega)]
  have hwalk : parse_packets (3 + 1) (frame_data.drop 0) 3 2 [] =
      some (Except.error Exn.index_error) := by
    unfold parse_packets
    have e : (3 + SIZE_MOD - 2 - 1) % SIZE_MOD * 4 % SIZE_MOD = 0 := by decide
    simp only [e, List.drop_drop, Nat.zero_add, Nat.add_zero, hpkt]
  rw [hwalk]
  rfl

theorem C24_empty_frame_trailer_parsed_witness :
    VRTPacket.parse (sample_empty_frame.drop 2) 0 = Except.error Exn.index_error ∧
    VRLFrame.parse sample_empty_frame 20 = some ⟨some 0, Except.error Exn.index_error⟩ :=
  C24_empty_frame_trailer_parsed sample_empty_frame 20 (by decide) (by decide) (by decide)
    (by decide)

theorem zero_size_window_parse :
    VRLFrame.parse
      (words_of_bytes ((List.replicate 64 0 ++ sample_zero_size_window).drop ((64 : Int).toNat)))
      (to_size_t (84 - 64)) =
      some ⟨some 0, Except.ok ⟨[0x56524C50, 0, 0, 0, 0], []⟩⟩ := by
  decide

/-- C28: a successful `VRLFrame::parse` need not advance the byte index. The
window of five words `VRLP, 0, 0, 0, 0` parses with index 0 and frame size 0
(the info word is 0 and the packet walk stops at the zero-size packet at word
2), so `byte_index + 0 * 4 + 0 * 4` is the old byte index and the frame loop
parses the same frame again: on this window the loop does not end, whatever
the fuel. -/
theorem C28_zero_frame_size_no_progress :
    (∃ frame,
      VRLFrame.parse (words_of_bytes sample_zero_size_window) 20 =
        some ⟨some 0, Except.ok frame⟩ ∧
      frame.get_frame_size = 0) ∧
    ∀ (fuel : Nat) (st : complex_manager) (frames : List VRLFrameImpl),
      frame_loop 64 fuel st (List.replicate 64 0 ++ sample_zero_size_window) 84 64 frames =
        none := by
  constructor
  · exact ⟨⟨[0x56524C50, 0, 0, 0, 0], []⟩, by decide, by decide⟩
  · intro fuel
    induction fuel with
    | zero => intro st frames; rfl
    | succ fuel ih =>
      intro st frames
      rw [frame_loop_ok 64 fuel st _ 84 64 frames (some 0) ⟨[0x56524C50, 0, 0, 0, 0], []⟩
        (by decide) zero_size_window_parse]
      have e : (64 : Int) + (((some 0 : Option Nat).getD 0 : Nat) : Int) * 4 +
          (((⟨[0x56524C50, 0, 0, 0, 0], []⟩ : VRLFrameImpl).get_frame_size : Nat) : Int) * 4 =
          64 := by decide
      rw [e]
      exact ih _ _

end Pico

namespace Pico

open Vita49

/-! ## Overflow Staging: how much is saved -/

theorem frame_loop_index_error_fault (U fuel : Nat) (st : complex_manager) (buffer : List Nat)
    (total_length byte_index : Int) (frames : List VRLFrameImpl) (idx : Option Nat)
    (h : byte_index < total_length) (hU : (U : Int) < total_length - byte_index)
    (hp : VRLFrame.parse (words_of_bytes (buffer.drop byte_index.toNat))
      (to_size_t (total_length - byte_index)) = some ⟨idx, Except.error Exn.index_error⟩) :
    frame_loop U (fuel + 1) st buffer total_length byte_index frames =
      some ReadOutcome.fault := by
  rw [frame_loop, if_neg (not_not.2 h)]
  simp only [hp]
  rw [if_neg (by omega), if_pos (by omega)]

theorem memcpy_front_length (ov src : List Nat) (n : Nat) (hn : n ≤ src.length)
    (hU : n ≤ ov.length) : (memcpy ov 0 src n).length = ov.length := by
  unfold memcpy
  simp only [List.take_zero, List.nil_append, Nat.zero_add, List.length_append,
    List.length_take, List.length_drop]
  omega

theorem memcpy_front_take (ov src : List Nat) (n : Nat) (hn : n ≤ src.length) :
    (memcpy ov 0 src n).take n = src.take n := by
  unfold memcpy
  simp only [List.take_zero, List.nil_append, Nat.zero_add]
  exact List.take_left' (by rw [List.length_take]; omega)

/-- With an Overflow Staging of 64 bytes, a window that holds the first 70
bytes of the 72-byte sample frame makes `VRLFrame::parse` throw `index_error`
at its start, and the amount to save is 70 bytes. -/
theorem uncapped_save_sample_frame :
    VRLFrame.parse (words_of_bytes (sample_frame_bytes.take 70)) 70 =
      some ⟨some 0, Except.error Exn.index_error⟩ ∧
    (initial_state 1 64).m_overflow_buffer.length = 64 ∧
    (frame_loop 64 4 (initial_state 1 64)
      (List.replicate 64 0 ++ sample_frame_bytes.take 70) 134 64 []).map
      (fun o => match o with
        | ReadOutcome.fault => true
        | _ => false) = some true := by
  refine ⟨by decide, by decide, by decide⟩

/-- At an offset where `VRLFrame::parse` throws `index_error` and the unparsed
tail `total_length - byte_index` is at most `UDP_START_INDEX` (`U`), the copy
fills the front of `m_overflow_buffer` with the tail and stays inside the
array, the frame loop ends, and the prepend start offset of the next read,
`UDP_START_INDEX - m_amnt_saved`, is not negative. -/
theorem staging_within_capacity (U fuel : Nat) (st : complex_manager) (buffer : List Nat)
    (total_length byte_index : Int) (frames : List VRLFrameImpl) (idx : Option Nat)
    (hlt : byte_index < total_length) (h0 : 0 ≤ byte_index)
    (hbuf : total_length ≤ (buffer.length : Int))
    (hov : st.m_overflow_buffer.length = U)
    (hp : VRLFrame.parse (words_of_bytes (buffer.drop byte_index.toNat))
      (to_size_t (total_length - byte_index)) = some ⟨idx, Except.error Exn.index_error⟩)
    (hU : total_length - byte_index ≤ (U : Int)) :
    ∃ st', frame_loop U (fuel + 2) st buffer total_length byte_index frames =
        some (ReadOutcome.done st' frames) ∧
      st'.m_amnt_saved = total_length - byte_index ∧
      st'.m_overflow_buffer.length = U ∧
      st'.m_overflow_buffer.take (total_length - byte_index).toNat =
        (buffer.drop byte_index.toNat).take (total_length - byte_index).toNat ∧
      0 ≤ (U : Int) - st'.m_amnt_saved := by
  have hsrc : (total_length - byte_index).toNat ≤ (buffer.drop byte_index.toNat).length := by
    rw [List.length_drop]
    omega
  refine ⟨{ st with
      m_amnt_saved := total_length - byte_index
      m_overflow_buffer :=
        memcpy st.m_overflow_buffer 0 (buffer.drop byte_index.toNat)
          (total_length - byte_index).toNat }, ?_, rfl, ?_, ?_, ?_⟩
  · rw [frame_loop_index_error U (fuel + 1) st buffer total_length byte_index frames idx hlt
      hU hp]
    rw [frame_loop_end U fuel _ buffer total_length _ _ (by omega)]
  · show (memcpy st.m_overflow_buffer 0 (buffer.drop byte_index.toNat)
      (total_length - byte_index).toNat).length = U
    rw [memcpy_front_length _ _ _ hsrc (by omega), hov]
  · exact memcpy_front_take _ _ _ hsrc
  · show 0 ≤ (U : Int) - (total_length - byte_index)
    omega

theorem words_of_bytes_zeros (k : Nat) (b : List Nat) :
    words_of_bytes (List.replicate (4 * k) 0 ++ b) = List.replicate k 0 ++ words_of_bytes b := by
  induction k with
  | zero => rfl
  | succ k ih =>
    have e : List.replicate (4 * (k + 1)) 0 = 0 :: 0 :: 0 :: 0 :: List.replicate (4 * k) 0 := by
      have : 4 * (k + 1) = 4 * k + 1 + 1 + 1 + 1 := by omega
      rw [this]
      rfl
    rw [e]
    show word_of_bytes 0 0 0 0 :: words_of_bytes (List.replicate (4 * k) 0 ++ b) = _
    rw [ih]
    rfl

theorem sample_cut_window_length (U : Nat) :
    (sample_cut_window U).length = 4 * (U / 4 + 1) + 20 := by
  unfold sample_cut_window
  rw [List.length_append, List.length_replicate]
  rfl

theorem sample_cut_window_words (U : Nat) :
    words_of_bytes (sample_cut_window U) =
      List.replicate (U / 4 + 1) 0 ++ [FAW_VRLP, 6, 0, 0, 0] := by
  unfold sample_cut_window
  rw [words_of_bytes_zeros]
  rfl

theorem sample_cut_window_parse (U : Nat) :
    VRLFrame.parse (words_of_bytes (sample_cut_window U)) (4 * (U / 4 + 1) + 20) =
      some ⟨some (U / 4 + 1), Except.error Exn.index_error⟩ := by
  rw [sample_cut_window_words]
  have hlen : (List.replicate (U / 4 + 1) (0 : Nat)).length = U / 4 + 1 := List.length_replicate _ _
  have hskip : ∀ j, j < U / 4 + 1 →
      rd (List.replicate (U / 4 + 1) 0 ++ [FAW_VRLP, 6, 0, 0, 0]) j ≠ FAW_VRLP ∧
      rd (List.replicate (U / 4 + 1) 0 ++ [FAW_VRLP, 6, 0, 0, 0]) j ≠ FAW_VS49 := by
    intro j hj
    rw [rd_append_left _ _ j (by rw [hlen]; exact hj)]
    simp [FAW_VRLP, FAW_VS49, WORD_MOD]
  have h0 : rd (List.replicate (U / 4 + 1) 0 ++ [FAW_VRLP, 6, 0, 0, 0]) (U / 4 + 1) =
      FAW_VRLP := by
    have := rd_at (List.replicate (U / 4 + 1) 0) [FAW_VRLP, 6, 0, 0, 0] (U / 4 + 1) 0 hlen.symm
    rw [Nat.add_zero] at this
    rw [this]
    rfl
  have h1 : rd (List.replicate (U / 4 + 1) 0 ++ [FAW_VRLP, 6, 0, 0, 0]) (U / 4 + 1 + 1) = 6 := by
    rw [rd_at (List.replicate (U / 4 + 1) 0) [FAW_VRLP, 6, 0, 0, 0] (U / 4 + 1) 1 hlen.symm]
    rfl
  have hscan := scan_alignment_run (List.replicate (U / 4 + 1) 0 ++ [FAW_VRLP, 6, 0, 0, 0])
    (4 * (U / 4 + 1) + 20) (U / 4 + 1) hskip (Or.inr (by omega)) (Or.inr (Or.inl h0))
  rw [parse_of_scan _ _ _ _ (by omega) hscan, h1]
  have e : 4 * (U / 4 + 1) + 20 - 4 * (U / 4 + 1) = 20 := by omega
  rw [e, if_neg (by decide), if_pos (by decide)]

/-- C23: the amount saved to Overflow Staging is not capped. For every
capacity `UDP_START_INDEX = U` below `2^31`, take a first read of
`4 * (U / 4 + 1) + 20` bytes: `U / 4 + 1` zero words followed by the first
five words of a six-word frame. `VRLFrame::parse` skips the zero words, finds
the alignment word and throws `index_error`, because the frame declares more
words than the window has left. The catch block sets `m_amnt_saved =
total_length - byte_index`, the length of the whole read, which is larger
than `U`, and copies that many bytes into `m_overflow_buffer`, an array of `U`
bytes: the copy runs past the array. -/
theorem C23_uncapped_save (U n : Nat) (hU : U < 2 ^ 31) :
    (initial_state n U).m_amnt_saved = 0 ∧
    (initial_state n U).m_overflow_buffer.length = U ∧
    VRLFrame.parse (words_of_bytes (sample_cut_window U)) (sample_cut_window U).length =
      some ⟨some (U / 4 + 1), Except.error Exn.index_error⟩ ∧
    ((sample_cut_window U).length : Int) + (U : Int) - (U : Int) > (U : Int) ∧
    ingest U 2 (initial_state n U) (List.replicate U 0 ++ sample_cut_window U)
      ((sample_cut_window U).length : Int) = some ReadOutcome.fault := by
  have hlen := sample_cut_window_length U
  refine ⟨rfl, List.length_replicate _ _, ?_, ?_, ?_⟩
  · rw [hlen]
    exact sample_cut_window_parse U
  · rw [hlen]
    push_cast
    omega
  · unfold ingest
    rw [if_neg (by rw [hlen]; push_cast; omega)]
    simp only []
    rw [if_neg (by simp [initial_state])]
    refine frame_loop_index_error_fault U 1 _ _ _ _ _ (some (U / 4 + 1)) (by rw [hlen]; push_cast; omega)
      (by rw [hlen]; push_cast; omega) ?_
    have e1 : (List.replicate U 0 ++ sample_cut_window U).drop ((U : Int)).toNat =
        sample_cut_window U := by
      rw [Int.toNat_natCast]
      exact List.drop_left' (List.length_replicate _ _)
    have e2 : to_size_t (((sample_cut_window U).length : Int) + (U : Int) - (U : Int)) =
        4 * (U / 4 + 1) + 20 := by
      rw [hlen]
      unfold to_size_t SIZE_MOD
      have : ((4 * (U / 4 + 1) + 20 : Nat) : Int) + (U : Int) - (U : Int) =
          ((4 * (U / 4 + 1) + 20 : Nat) : Int) := by omega
      rw [this, ← Int.natCast_mod, Int.toNat_natCast]
      exact Nat.mod_eq_of_lt (by omega)
    rw [e1, e2]
    exact sample_cut_window_parse U

theorem C23_uncapped_save_witness :
    (sample_cut_window 64).length = 88 ∧
    VRLFrame.parse (words_of_bytes (sample_cut_window 64)) 88 =
      some ⟨some 17, Except.error Exn.index_error⟩ ∧
    (initial_state 1 64).m_overflow_buffer.length = 64 ∧
    ingest 64 2 (initial_state 1 64) (List.replicate 64 0 ++ sample_cut_window 64) 88 =
      some ReadOutcome.fault :=
  have h := C23_uncapped_save 64 1 (by decide)
  ⟨by decide, h.2.2.1, h.2.1, h.2.2.2.2⟩

end Pico

namespace Pico

open Vita49

/-! ## Destination ranges of the jobs -/

theorem spec_ranges_ge (ns : List Nat) :
    ∀ (c : Nat) (b : Nat × Nat), b ∈ spec_ranges c ns → c ≤ b.1 := by
  induction ns with
  | nil => intro c b hb; cases hb
  | cons n ns ih =>
    intro c b hb
    simp only [spec_ranges, List.mem_cons] at hb
    rcases hb with hb | hb
    · rw [hb]
    · have := ih (c + n) b hb
      omega

theorem spec_ranges_pairwise (ns : List Nat) :
    ∀ c : Nat, List.Pairwise (fun a b : Nat × Nat => a.1 + a.2 ≤ b.1) (spec_ranges c ns) := by
  induction ns with
  | nil => intro c; exact List.Pairwise.nil
  | cons n ns ih =>
    intro c
    simp only [spec_ranges]
    exact List.Pairwise.cons (fun b hb => spec_ranges_ge ns (c + n) b hb) (ih (c + n))

/-- A step that is neither a flip nor a reconfiguration and does not admit a
packet into channel `i` leaves the active index and the active fill count of
channel `i` as they were. -/
theorem step_active_other (st : complex_manager) (e : Event) (i : Nat)
    (bm : buffer_manager) (hbm : st.m_mang.get? i = some bm) (hupd : e ≠ Event.update)
    (hflip : e ≠ Event.flip)
    (hother : ∀ p m' loss job, e = Event.packet p →
      handle_packet st.m_mang p = PacketOutcome.admitted m' loss job → job.target_channel ≠ i) :
    ∃ bm', (step st e).m_mang.get? i = some bm' ∧ bm'.active_count = bm.active_count ∧
      bm'.out_pointer = bm.out_pointer := by
  have hi := lt_of_get? _ _ _ hbm
  obtain ⟨bm', hbm'⟩ := get?_some_of_lt (step st e).m_mang i (by rw [step_length]; exact hi)
  refine ⟨bm', hbm', ?_⟩
  cases e with
  | update => exact absurd rfl hupd
  | flip => exact absurd rfl hflip
  | tuners ts =>
    have : (step st (Event.tuners ts)).m_mang = (update_tuners st ts).m_mang := rfl
    rw [this, update_tuners_get, hbm] at hbm'
    injection hbm' with hbm'
    rw [← hbm']
    exact ⟨rfl, rfl⟩
  | fill buffs tuners count =>
    have hs : (step st (Event.fill buffs tuners count)).m_mang =
        (fill_pass st buffs tuners count).state.m_mang := rfl
    rw [hs] at hbm'
    rcases fill_pass_cases st buffs tuners count with ⟨_, hp⟩ | ⟨_, _, hp⟩ | ⟨_, _, hp⟩
    · rw [hp, hbm] at hbm'
      injection hbm' with hbm'
      rw [hbm']
      exact ⟨rfl, rfl⟩
    · rw [hp] at hbm'
      obtain ⟨bm0, hbm0, hsame⟩ := (scan_min_props st.m_mang count).2.2.2.1 i bm' hbm'
      rw [hbm] at hbm0
      injection hbm0 with hbm0
      rw [hbm0]
      obtain ⟨_, f2, _, _, _, _, _, f8, _⟩ := same_but_flip_fields _ _ hsame
      exact ⟨f8, f2⟩
    · rw [hp] at hbm'
      obtain ⟨bm0, bms, hbm0, hsame, _, heq⟩ := copy_get _ _ _ _ _ _ _ hbm'
      rw [hbm] at hbm0
      injection hbm0 with hbm0
      obtain ⟨_, f2, _, _, _, _, _, f8, _⟩ := same_but_flip_fields _ _ hsame
      obtain ⟨_, c2, _, _, _, _, c7, _⟩ := copy_channel_fields (scan_min st.m_mang count).2 bms
        ((fill_targets st.m_mang.length buffs tuners).getD i 0)
      rw [heq, c7, c2, f8, f2, hbm0]
      exact ⟨rfl, rfl⟩
  | packet p =>
    cases hhp : handle_packet st.m_mang p with
    | admitted m' loss job =>
      obtain ⟨sid, bmx, _, _, _, _, _, _, hjob, hm'⟩ := handle_packet_admitted _ _ _ _ _ hhp
      have hne : sid % 256 ≠ i := by
        have := hother p m' loss job rfl hhp
        rw [hjob] at this
        exact this
      rw [step_packet_admitted st p _ _ _ hhp] at hbm'
      obtain ⟨bm0, hbm0, e1, e2, _⟩ := run_job_get_counts _ _ _ _ hbm'
      rw [hm', List.get?_eq_getElem?, List.getElem?_set_ne hne, ← List.get?_eq_getElem?, hbm]
        at hbm0
      injection hbm0 with hbm0
      unfold buffer_manager.active_count
      rw [e1, e2, hbm0]
      exact ⟨rfl, rfl⟩
    | _ =>
      rw [step_packet_other st p (fun m' loss job hh => by rw [hhp] at hh; cases hh), hbm] at hbm'
      injection hbm' with hbm'
      rw [hbm']
      exact ⟨rfl, rfl⟩

/-- The job of a packet admitted into channel `i`: it starts at the active
fill count, goes to the active buffer, and the fill count grows by its
length. -/
theorem admitted_job_range (st : complex_manager) (p : VRTPacketImpl) (i : Nat)
    (bm : buffer_manager) (m' : List buffer_manager) (loss : Bool) (job : Job)
    (hok : state_ok st) (hbm : st.m_mang.get? i = some bm)
    (hadm : handle_packet st.m_mang p = PacketOutcome.admitted m' loss job)
    (htarget : job.target_channel = i) :
    job.m_start_index = bm.active_count.toNat ∧ job.target_buffer = bm.out_pointer ∧
    job.m_start_index + job.m_sample_count < NUM_COMPLEX ∧
    ∃ bm', (step st (Event.packet p)).m_mang.get? i = some bm' ∧
      bm'.active_count.toNat = bm.active_count.toNat + job.m_sample_count ∧
      bm'.out_pointer = bm.out_pointer := by
  have hi := lt_of_get? _ _ _ hbm
  obtain ⟨sid, bmx, _, _, hget, _, hcap, _, hjob, hm'⟩ := handle_packet_admitted _ _ _ _ _ hadm
  have hsid : sid % 256 = i := by rw [hjob] at htarget; exact htarget
  rw [hsid, hbm] at hget
  injection hget with hget
  subst hget
  have hokb := hok.1 bm (mem_of_get? _ _ _ hbm)
  have h0 := hokb.1
  have h1 := hokb.2.1
  have hn := payload_samples_lt p
  obtain ⟨c1, _, c3, _⟩ := admitted_channel_counts bm (p.get_payload_size / 4)
    (p.get_packet_count : Int) hokb hn hcap
  obtain ⟨j1, _, _, _⟩ := admitted_job_bounds st p m' loss job hok hadm
  have hstart : job.m_start_index = bm.active_count.toNat := by
    rw [hjob]
    show to_uint32 (at2 bm.out_count bm.out_pointer) = _
    unfold buffer_manager.active_count at h0 h1 ⊢
    unfold to_uint32 WORD_MOD
    unfold NUM_COMPLEX at h1
    congr 1
    omega
  have hbuf : job.target_buffer = bm.out_pointer := by rw [hjob]
  refine ⟨hstart, hbuf, ?_, ?_⟩
  · rw [hstart, j1]
    unfold NUM_COMPLEX at c3 ⊢
    omega
  · obtain ⟨bm', hbm'⟩ := get?_some_of_lt (step st (Event.packet p)).m_mang i
      (by rw [step_length]; exact hi)
    refine ⟨bm', hbm', ?_⟩
    rw [step_packet_admitted st p _ _ _ hadm] at hbm'
    obtain ⟨bm0, hbm0, e1, e2, _⟩ := run_job_get_counts _ _ _ _ hbm'
    rw [hm', hsid, List.get?_eq_getElem?, List.getElem?_set_self hi] at hbm0
    injection hbm0 with hbm0
    have ha : bm'.active_count = bm.active_count + ((p.get_payload_size / 4 : Nat) : Int) := by
      unfold buffer_manager.active_count
      rw [e1, e2, ← hbm0]
      exact c1
    constructor
    · rw [ha, j1]
      omega
    · rw [e1, ← hbm0]

theorem jobs_ranges (i : Nat) (events : List Event) :
    ∀ (st : complex_manager) (bm : buffer_manager), state_ok st →
      st.m_mang.get? i = some bm →
      (∀ e ∈ events, e ≠ Event.flip ∧ e ≠ Event.update) →
      (admitted_jobs st i events).map (fun j => (j.m_start_index, j.m_sample_count)) =
        spec_ranges bm.active_count.toNat
          ((admitted_jobs st i events).map Job.m_sample_count) ∧
      ∀ j ∈ admitted_jobs st i events, j.target_buffer = bm.out_pointer ∧
        j.m_start_index + j.m_sample_count < NUM_COMPLEX := by
  induction events with
  | nil =>
    intro st bm _ _ _
    exact ⟨rfl, fun j hj => by cases hj⟩
  | cons e events ih =>
    intro st bm hok hbm hev
    have hev' : ∀ e ∈ events, e ≠ Event.flip ∧ e ≠ Event.update :=
      fun x hx => hev x (List.mem_cons_of_mem _ hx)
    obtain ⟨hflip, hupd⟩ := hev e (List.mem_cons_self _ _)
    have hok' := state_ok_step st e hok
    have hkeep : admitted_jobs st i (e :: events) = admitted_jobs (step st e) i events →
        (∀ p m' loss job, e = Event.packet p →
          handle_packet st.m_mang p = PacketOutcome.admitted m' loss job →
          job.target_channel ≠ i) →
        (admitted_jobs st i (e :: events)).map (fun j => (j.m_start_index, j.m_sample_count)) =
          spec_ranges bm.active_count.toNat
            ((admitted_jobs st i (e :: events)).map Job.m_sample_count) ∧
        ∀ j ∈ admitted_jobs st i (e :: events), j.target_buffer = bm.out_pointer ∧
          j.m_start_index + j.m_sample_count < NUM_COMPLEX := by
      intro hadm hother
      obtain ⟨bm', hbm', ha, hp⟩ := step_active_other st e i bm hbm hupd hflip hother
      have := ih (step st e) bm' hok' hbm' hev'
      rw [hadm, ← ha, ← hp]
      exact this
    cases e with
    | update => exact absurd rfl hupd
    | flip => exact absurd rfl hflip
    | tuners ts => exact hkeep rfl (fun p _ _ _ hh => by cases hh)
    | fill b t c => exact hkeep rfl (fun p _ _ _ hh => by cases hh)
    | packet p =>
      cases hhp : handle_packet st.m_mang p with
      | admitted m' loss job =>
        by_cases htarget : job.target_channel = i
        · have hadm : admitted_jobs st i (Event.packet p :: events) =
              job :: admitted_jobs (step st (Event.packet p)) i events := by
            simp only [admitted_jobs, hhp, if_pos htarget]
          obtain ⟨hstart, hbuf, hend, bm', hbm', ha, hp⟩ :=
            admitted_job_range st p i bm m' loss job hok hbm hhp htarget
          obtain ⟨ih1, ih2⟩ := ih (step st (Event.packet p)) bm' hok' hbm' hev'
          rw [hadm]
          constructor
          · simp only [List.map_cons, spec_ranges]
            rw [ih1, ha, hstart]
          · intro j hj
            rcases List.mem_cons.1 hj with hj | hj
            · rw [hj]
              exact ⟨hbuf, hend⟩
            · rw [← hp]
              exact ih2 j hj
        · apply hkeep
          · simp only [admitted_jobs, hhp, if_neg htarget]
          · intro p2 m2 loss2 job2 hp2 hh
            injection hp2 with hp2
            subst hp2
            rw [hhp] at hh
            injection hh with _ _ hj
            rw [← hj]
            exact htarget
      | _ =>
        apply hkeep
        · simp only [admitted_jobs, hhp]
        · intro p2 m2 loss2 job2 hp2 hh
          injection hp2 with hp2
          subst hp2
          rw [hhp] at hh
          cases hh

/-- C25: take a state that satisfies the invariant, a channel `i` with active
fill count `c`, and any sequence of packet, `fill_buffers` and `update_tuners`
steps without a flip or an applied reconfiguration. The jobs handed to the
worker for channel `i` all go to the active buffer; the k-th job starts at the
active fill count before its admission, so the destination ranges are
`[c, c + n1)`, `[c + n1, c + n1 + n2)`, ...: contiguous, pairwise disjoint and
contained in `[0, NUM_COMPLEX)`. After a flip or a reset `c = 0`. -/
theorem C25_disjoint_destination_ranges (st : complex_manager) (i : Nat) (bm : buffer_manager)
    (events : List Event) (hok : state_ok st) (hbm : st.m_mang.get? i = some bm)
    (hev : ∀ e ∈ events, e ≠ Event.flip ∧ e ≠ Event.update) :
    (admitted_jobs st i events).map (fun j => (j.m_start_index, j.m_sample_count)) =
      spec_ranges bm.active_count.toNat ((admitted_jobs st i events).map Job.m_sample_count) ∧
    List.Pairwise (fun a b : Nat × Nat => a.1 + a.2 ≤ b.1)
      ((admitted_jobs st i events).map (fun j => (j.m_start_index, j.m_sample_count))) ∧
    ∀ j ∈ admitted_jobs st i events, j.target_buffer = bm.out_pointer ∧
      j.m_start_index + j.m_sample_count < NUM_COMPLEX := by
  obtain ⟨h1, h2⟩ := jobs_ranges i events st bm hok hbm hev
  refine ⟨h1, ?_, h2⟩
  rw [h1]
  exact spec_ranges_pairwise _ _

theorem C25_disjoint_destination_ranges_witness :
    (admitted_jobs sample_valid_state 0
      [Event.packet (sample_packet 0), Event.fill [1000] [1] 10,
        Event.packet (sample_packet 1), Event.packet (sample_packet 2)]).map
      (fun j => (j.m_start_index, j.m_sample_count)) = [(0, 1), (1, 1), (2, 1)] :=
  ((C25_disjoint_destination_ranges sample_valid_state 0
    (update_channel (update_tuner_flag [1] 0 initial_buffer_manager))
    [Event.packet (sample_packet 0), Event.fill [1000] [1] 10,
      Event.packet (sample_packet 1), Event.packet (sample_packet 2)]
    (state_ok_step _ Event.update (state_ok_step _ (Event.tuners [1]) (state_ok_initial 1 64)))
    (by rfl) (by simp)).1).trans (by decide)

end Pico

namespace Pico

open Vita49

/-! ## `pad_buffer` and `aligned_buffer::make` -/

/-- The padding formula without wrap-around: for an alignment that divides
`2^64` (a power of two), or for `bytes <= alignment`, the padded value is a
multiple of the alignment, at least `bytes` and less than `bytes + alignment`. -/
theorem pad_buffer_spec (bytes alignment : Nat) (ha : 0 < alignment)
    (hal : alignment < SIZE_MOD) (hb : bytes < SIZE_MOD)
    (hdiv : alignment ∣ SIZE_MOD ∨ bytes ≤ alignment)
    (hroom : bytes + alignment ≤ SIZE_MOD) :
    alignment ∣ pad_buffer bytes alignment ∧ bytes ≤ pad_buffer bytes alignment ∧
    pad_buffer bytes alignment < bytes + alignment := by
  have hmodlt : ((alignment + SIZE_MOD - bytes) % SIZE_MOD) % alignment < alignment :=
    Nat.mod_lt _ ha
  have hnowrap : pad_buffer bytes alignment =
      bytes + ((alignment + SIZE_MOD - bytes) % SIZE_MOD) % alignment := by
    unfold pad_buffer
    exact Nat.mod_eq_of_lt (by omega)
  have hdvd : alignment ∣ bytes + ((alignment + SIZE_MOD - bytes) % SIZE_MOD) % alignment := by
    by_cases hle : bytes ≤ alignment
    · have e : (alignment + SIZE_MOD - bytes) % SIZE_MOD = alignment - bytes := by
        by_cases hz : bytes = 0
        · subst hz
          rw [Nat.sub_zero, Nat.sub_zero, Nat.add_mod_right]
          exact Nat.mod_eq_of_lt hal
        · have : alignment + SIZE_MOD - bytes = (alignment - bytes) + SIZE_MOD := by omega
          rw [this, Nat.add_mod_right]
          exact Nat.mod_eq_of_lt (by omega)
      rw [e]
      by_cases hz : bytes = 0
      · subst hz
        rw [Nat.sub_zero, Nat.mod_self]
        exact Nat.dvd_zero _
      · rw [Nat.mod_eq_of_lt (by omega)]
        have : bytes + (alignment - bytes) = alignment := by omega
        rw [this]
    · have hd : alignment ∣ SIZE_MOD := by
        rcases hdiv with h | h
        · exact h
        · exact absurd h hle
      have e : (alignment + SIZE_MOD - bytes) % SIZE_MOD = alignment + SIZE_MOD - bytes :=
        Nat.mod_eq_of_lt (by omega)
      rw [e]
      have hsum : alignment ∣ bytes + (alignment + SIZE_MOD - bytes) := by
        have : bytes + (alignment + SIZE_MOD - bytes) = alignment + SIZE_MOD := by omega
        rw [this]
        exact Nat.dvd_add (Nat.dvd_refl _) hd
      have hsplit : bytes + (alignment + SIZE_MOD - bytes) =
          (bytes + (alignment + SIZE_MOD - bytes) % alignment) +
            alignment * ((alignment + SIZE_MOD - bytes) / alignment) := by
        have := Nat.mod_add_div (alignment + SIZE_MOD - bytes) alignment
        omega
      rw [hsplit] at hsum
      exact (Nat.dvd_add_left (Nat.dvd_mul_right _ _)).1 hsum
  rw [hnowrap]
  exact ⟨hdvd, by omega, by omega⟩

theorem least_multiple (a r b m : Nat) (hr : a ∣ r) (hrb : r < b + a)
    (hm : a ∣ m) (hbm : b ≤ m) : r ≤ m := by
  by_contra hlt
  have hlt' : m < r := by omega
  obtain ⟨k, hk⟩ := hr
  obtain ⟨l, hl⟩ := hm
  rw [hk, hl] at hlt'
  have hkl : l < k := Nat.lt_of_mul_lt_mul_left hlt'
  have : a * (l + 1) ≤ a * k := Nat.mul_le_mul_left a hkl
  rw [Nat.mul_add, Nat.mul_one] at this
  omega

/-- C27, counterexample: for the alignment 3, which does not divide `2^64`,
`pad_buffer(4, 3)` is 4 (the `size_t` difference `3 - 4` wraps to `2^64 - 1`,
a multiple of 3), not the multiple 6; and `pad_buffer(7, 5)` is 11. -/
theorem C27_pad_buffer_counterexample :
    pad_buffer 4 3 = 4 ∧ ¬ (3 ∣ pad_buffer 4 3) ∧ pad_buffer 7 5 = 11 ∧
    ¬ (5 ∣ pad_buffer 7 5) := by
  refine ⟨by decide, by decide, by decide, by decide⟩

/-- C27 (as amended): for every alignment greater than 0 that divides `2^64`
(every power of two a `size_t` can hold, such as the default 16) and every
byte count with `bytes + alignment <= 2^64`, `pad_buffer(bytes, alignment)` is
the least multiple of the alignment that is at least `bytes`. Consequently,
when the block that `new char[...]` returned at address `mem` ends below the
top of the address space, `aligned_buffer::make` gives `size() = num_buffs`, and for every
`i < num_buffs` the address `at(i)` is `pad_buffer(mem) + i * padded size`: a
multiple of the alignment, inside the block with room for `buff_size` bytes,
and `at(i + 1)` lies the padded size, at least `buff_size` bytes, after
`at(i)`; `at(i)` throws for `i >= num_buffs`. -/
theorem C27_pad_buffer_least_multiple (bytes alignment : Nat) (ha : 0 < alignment)
    (hal : alignment < SIZE_MOD) (hdiv : alignment ∣ SIZE_MOD)
    (hroom : bytes + alignment ≤ SIZE_MOD) :
    (alignment ∣ pad_buffer bytes alignment ∧ bytes ≤ pad_buffer bytes alignment ∧
      ∀ m, alignment ∣ m → bytes ≤ m → pad_buffer bytes alignment ≤ m) ∧
    ∀ (num_buffs mem : Nat),
      mem + pad_buffer bytes alignment * num_buffs + alignment ≤ SIZE_MOD →
      (aligned_buffer_make num_buffs bytes alignment mem).size = num_buffs ∧
      (∀ i, num_buffs ≤ i →
        (aligned_buffer_make num_buffs bytes alignment mem).buffer_at i = none) ∧
      ∀ i, i < num_buffs →
        ∃ addr, (aligned_buffer_make num_buffs bytes alignment mem).buffer_at i = some addr ∧
          addr = pad_buffer mem alignment + pad_buffer bytes alignment * i ∧
          alignment ∣ addr ∧ mem ≤ addr ∧
          addr + bytes ≤ mem + pad_buffer bytes alignment * num_buffs + alignment - 1 ∧
          (i + 1 < num_buffs →
            (aligned_buffer_make num_buffs bytes alignment mem).buffer_at (i + 1) =
              some (addr + pad_buffer bytes alignment) ∧
            addr + bytes ≤ addr + pad_buffer bytes alignment) := by
  obtain ⟨p1, p2, p3⟩ := pad_buffer_spec bytes alignment ha hal (by omega) (Or.inl hdiv) hroom
  refine ⟨⟨p1, p2, fun m hm hbm => least_multiple alignment _ bytes m p1 p3 hm hbm⟩, ?_⟩
  intro num_buffs mem hblock
  have hmem : mem + alignment ≤ SIZE_MOD := by
    have : 0 ≤ pad_buffer bytes alignment * num_buffs := Nat.zero_le _
    omega
  obtain ⟨q1, q2, q3⟩ := pad_buffer_spec mem alignment ha hal (by omega) (Or.inl hdiv) hmem
  have hget : ∀ i, i < num_buffs →
      (aligned_buffer_make num_buffs bytes alignment mem).buffer_at i =
        some (pad_buffer mem alignment + pad_buffer bytes alignment * i) := by
    intro i hi
    have hle : pad_buffer bytes alignment * i ≤ pad_buffer bytes alignment * (num_buffs - 1) :=
      Nat.mul_le_mul_left _ (by omega)
    have hsub : pad_buffer bytes alignment * (num_buffs - 1) + pad_buffer bytes alignment =
        pad_buffer bytes alignment * num_buffs := by
      have : num_buffs = (num_buffs - 1) + 1 := by omega
      rw [this, Nat.mul_add, Nat.mul_one]
      simp
    unfold aligned_buffer_impl.buffer_at aligned_buffer_make
    simp only [List.get?_eq_getElem?, List.getElem?_map, List.getElem?_range hi,
      Option.map_some']
    congr 1
    have hlt : pad_buffer mem alignment + pad_buffer bytes alignment * i < SIZE_MOD := by omega
    have h1 : pad_buffer bytes alignment * i % SIZE_MOD = pad_buffer bytes alignment * i :=
      Nat.mod_eq_of_lt (by omega)
    rw [h1]
    exact Nat.mod_eq_of_lt hlt
  refine ⟨?_, ?_, ?_⟩
  · unfold aligned_buffer_impl.size aligned_buffer_make
    simp
  · intro i hi
    unfold aligned_buffer_impl.buffer_at aligned_buffer_make
    rw [List.get?_eq_getElem?]
    exact List.getElem?_eq_none (by simpa using hi)
  · intro i hi
    have hle : pad_buffer bytes alignment * i ≤ pad_buffer bytes alignment * (num_buffs - 1) :=
      Nat.mul_le_mul_left _ (by omega)
    have hsub : pad_buffer bytes alignment * (num_buffs - 1) + pad_buffer bytes alignment =
        pad_buffer bytes alignment * num_buffs := by
      have : num_buffs = (num_buffs - 1) + 1 := by omega
      rw [this, Nat.mul_add, Nat.mul_one]
      simp
    refine ⟨_, hget i hi, rfl, Nat.dvd_add q1 (Dvd.dvd.mul_right p1 _), by omega, by omega, ?_⟩
    intro hi1
    refine ⟨?_, by omega⟩
    rw [hget (i + 1) hi1, Nat.mul_add, Nat.mul_one, Nat.add_assoc]

theorem C27_pad_buffer_least_multiple_witness :
    pad_buffer 100 16 = 112 ∧
    (aligned_buffer_make 2 100 16 1003).pointers = [1008, 1120] :=
  have h := C27_pad_buffer_least_multiple 100 16 (by decide) (by decide) (by decide) (by decide)
  ⟨Nat.le_antisymm (h.1.2.2 112 (by decide) (by decide))
      (least_multiple 16 112 100 _ (by decide) (by decide) h.1.1 h.1.2.1),
    by decide⟩

end Pico

namespace Vita49

/-! ## Fields inside the packet -/

theorem rd_take (l : List Nat) (n i : Nat) (h : i < n) : rd (l.take n) i = rd l i := by
  unfold rd
  rw [List.getD_eq_getElem?_getD, List.getD_eq_getElem?_getD, List.getElem?_take_of_lt h]

theorem drop_take_congr (l1 l2 : List Nat) (n a k : Nat) (h : l1.take n = l2.take n)
    (hle : a + k ≤ n) : (l1.drop a).take k = (l2.drop a).take k := by
  have e : ∀ l : List Nat, (l.drop a).take k = ((l.take n).drop a).take k := by
    intro l
    rw [List.drop_take, List.take_take, Nat.min_eq_left (by omega)]
  rw [e l1, e l2, h]

/-- Everything that the accessors compute from the header word alone. -/
theorem header_congr (p q : VRTPacketImpl) (h : q.m_header = p.m_header) :
    q.get_packet_type = p.get_packet_type ∧ q.get_packet_count = p.get_packet_count ∧
    q.get_packet_size = p.get_packet_size ∧ q.has_stream_id = p.has_stream_id ∧
    q.has_class_id = p.has_class_id ∧
    q.get_integer_timestamp_type = p.get_integer_timestamp_type ∧
    q.get_fractional_timestamp_type = p.get_fractional_timestamp_type ∧
    q.has_trailer = p.has_trailer ∧ q.get_timestamp_mode = p.get_timestamp_mode ∧
    (∀ F, q.get_field_offset F = p.get_field_offset F) ∧
    q.get_payload_size = p.get_payload_size := by
  have e1 : q.get_packet_type = p.get_packet_type := by
    unfold VRTPacketImpl.get_packet_type; rw [h]
  have e4 : q.has_stream_id = p.has_stream_id := by
    unfold VRTPacketImpl.has_stream_id; rw [e1]
  have e5 : q.has_class_id = p.has_class_id := by
    unfold VRTPacketImpl.has_class_id; rw [h]
  have e6 : q.get_integer_timestamp_type = p.get_integer_timestamp_type := by
    unfold VRTPacketImpl.get_integer_timestamp_type; rw [h]
  have e7 : q.get_fractional_timestamp_type = p.get_fractional_timestamp_type := by
    unfold VRTPacketImpl.get_fractional_timestamp_type; rw [h]
  have e8 : q.has_trailer = p.has_trailer := by
    unfold VRTPacketImpl.has_trailer; rw [e1, h]
  have e10 : ∀ F, q.get_field_offset F = p.get_field_offset F := by
    intro F
    unfold VRTPacketImpl.get_field_offset
    rw [h, e4, e5, e6, e7]
  refine ⟨e1, by unfold VRTPacketImpl.get_packet_count; rw [h],
    by unfold VRTPacketImpl.get_packet_size; rw [h], e4, e5, e6, e7, e8,
    by unfold VRTPacketImpl.get_timestamp_mode; rw [e1, h], e10, ?_⟩
  unfold VRTPacketImpl.get_payload_size
  rw [h, e8, e10]

/-- The offsets of a packet whose size covers what its header announces. -/
theorem covered_offsets (p : VRTPacketImpl)
    (hcover : p.get_field_offset VS49_FIELD.PAYLOAD + p.has_trailer.toNat ≤ p.get_packet_size) :
    1 ≤ p.get_packet_size ∧
    p.get_payload_size =
      4 * (p.get_packet_size - p.get_field_offset VS49_FIELD.PAYLOAD - p.has_trailer.toNat) ∧
    (p.has_stream_id = true →
      p.get_field_offset VS49_FIELD.STREAM_ID < p.get_field_offset VS49_FIELD.PAYLOAD) ∧
    (p.has_class_id = true →
      p.get_field_offset VS49_FIELD.CLASS_ID + 1 < p.get_field_offset VS49_FIELD.PAYLOAD) ∧
    (p.get_integer_timestamp_type ≠ TSI_NONE →
      p.get_field_offset VS49_FIELD.TSI < p.get_field_offset VS49_FIELD.PAYLOAD) ∧
    (p.get_fractional_timestamp_type ≠ TSF_NONE →
      p.get_field_offset VS49_FIELD.TSF + 1 < p.get_field_offset VS49_FIELD.PAYLOAD) ∧
    p.get_field_offset VS49_FIELD.TRAILER = p.get_packet_size - 1 := by
  have hb := payload_offset_bounds p
  have hlt : p.get_packet_size < 2 ^ 16 := by
    unfold VRTPacketImpl.get_packet_size hdr_packet_size
    omega
  have h1 : 1 ≤ p.get_packet_size := by omega
  obtain ⟨o1, o2, o3, o4, o5⟩ := get_field_offset_chain p p.has_stream_id p.has_class_id
    (decide (hdr_tsi p.m_header ≠ 0)) (decide (hdr_tsf p.m_header ≠ 0))
    (has_stream_id_iff p) (has_class_id_iff p) (by simp) (by simp)
  have htsi : p.get_integer_timestamp_type ≠ TSI_NONE →
      (decide (hdr_tsi p.m_header ≠ 0)).toNat = 1 := by
    intro h
    rw [get_integer_timestamp_type_eq] at h
    unfold TSI_NONE at h
    simp [h]
  have htsf : p.get_fractional_timestamp_type ≠ TSF_NONE →
      (decide (hdr_tsf p.m_header ≠ 0)).toNat = 1 := by
    intro h
    unfold VRTPacketImpl.get_fractional_timestamp_type TSF_NONE at h
    simp [h]
  have htr : p.get_field_offset VS49_FIELD.TRAILER = p.get_packet_size - 1 := by
    unfold VRTPacketImpl.get_field_offset
    rw [if_pos rfl]
    unfold VRTPacketImpl.get_packet_size at h1 hlt ⊢
    unfold SIZE_MOD
    omega
  refine ⟨h1, ?_, ?_, ?_, ?_, ?_, htr⟩
  · unfold VRTPacketImpl.get_payload_size
    unfold VRTPacketImpl.get_packet_size at hcover hlt h1 ⊢
    simp only []
    unfold SIZE_MOD
    cases ht : p.has_trailer
    · rw [ht] at hcover
      simp only [Bool.toNat_false, Nat.add_zero, Nat.sub_zero] at hcover ⊢
      simp only [Bool.false_eq_true, if_false]
      omega
    · rw [ht] at hcover
      simp only [Bool.toNat_true] at hcover ⊢
      simp only [if_true]
      omega
  · intro hs
    rw [o1, o5, hs]
    simp only [Bool.toNat_true]
    omega
  · intro hc
    rw [o2, o5, hc]
    simp only [Bool.toNat_true]
    omega
  · intro hi
    rw [o3, o5, htsi hi]
    omega
  · intro hf
    rw [o4, o5, htsf hf]
    omega

end Vita49

namespace Vita49

/-- The accessors of a packet whose size covers what its header announces
read only the first `packet_size` words: a packet with the same first
`packet_size` words gives the same results. -/
theorem covered_view_congr (p q : VRTPacketImpl)
    (hcover : p.get_field_offset VS49_FIELD.PAYLOAD + p.has_trailer.toNat ≤ p.get_packet_size)
    (hq : q.m_packet_data.take p.get_packet_size = p.m_packet_data.take p.get_packet_size) :
    q.view = p.view := by
  obtain ⟨h1, hps, hs, hc, hi, hf, htr⟩ := covered_offsets p hcover
  have hrd : ∀ i, i < p.get_packet_size → rd q.m_packet_data i = rd p.m_packet_data i := by
    intro i hi
    rw [← rd_take q.m_packet_data _ i hi, ← rd_take p.m_packet_data _ i hi, hq]
  have hh : q.m_header = p.m_header := hrd 0 (by omega)
  obtain ⟨e1, e2, e3, e4, e5, e6, e7, e8, e9, e10, e11⟩ := header_congr p q hh
  have hpo : p.get_field_offset VS49_FIELD.PAYLOAD ≤ p.get_packet_size := by omega
  have v_sid : q.get_stream_id = p.get_stream_id := by
    simp only [VRTPacketImpl.get_stream_id]
    rw [e4, e10]
    by_cases h : p.has_stream_id = true
    · rw [hrd _ (lt_of_lt_of_le (hs h) hpo)]
    · rw [if_pos h, if_pos h]
  have v_cid : q.get_class_id = p.get_class_id := by
    simp only [VRTPacketImpl.get_class_id]
    rw [e5, e10]
    by_cases h : p.has_class_id = true
    · have := hc h
      rw [hrd _ (by omega), hrd _ (by omega)]
    · rw [if_pos h, if_pos h]
  have v_tsi : q.get_integer_timestamp = p.get_integer_timestamp := by
    simp only [VRTPacketImpl.get_integer_timestamp]
    rw [e6, e10]
    by_cases h : p.get_integer_timestamp_type = TSI_NONE
    · simp only [h, if_true]
    · have := hi h
      rw [hrd _ (by omega)]
  have v_tsf : q.get_fractional_timestamp = p.get_fractional_timestamp := by
    simp only [VRTPacketImpl.get_fractional_timestamp]
    rw [e7, e10]
    by_cases h : p.get_fractional_timestamp_type = TSF_NONE
    · simp only [h, if_true]
    · have := hf h
      rw [hrd _ (by omega), hrd _ (by omega)]
  have v_tr : q.get_trailer = p.get_trailer := by
    simp only [VRTPacketImpl.get_trailer]
    rw [e8, e10, htr]
    by_cases h : p.has_trailer = true
    · rw [hrd _ (by omega)]
    · rw [if_pos h, if_pos h]
  have v_pl : q.get_payload.take (q.get_payload_size / 4) =
      p.get_payload.take (p.get_payload_size / 4) := by
    unfold VRTPacketImpl.get_payload
    rw [e11, e10]
    exact drop_take_congr _ _ _ _ _ hq (by rw [hps]; omega)
  unfold VRTPacketImpl.view
  rw [e1, e2, e3, v_sid, v_cid, e9, e6, v_tsi, e7, v_tsf, v_pl, e11, v_tr]

/-- For every packet whose packet size is at least offset-of-payload + (1 if
a trailer is present), the header and every field that the header marks
present lie inside the packet:
`get_payload_size = 4 * (packet_size - offset-of-payload - trailer)`, at most
`4 * packet_size` with no wrap-around; the words read for the stream id, the
class id (two words), the integer and the fractional timestamp (two words) and
the trailer have an index below `packet_size`; the payload ends where the
trailer or the packet ends; and all the accessors give the same results on
any packet with the same first `packet_size` words. -/
theorem covered_fields_inside (p : VRTPacketImpl)
    (hcover : p.get_field_offset VS49_FIELD.PAYLOAD + p.has_trailer.toNat ≤ p.get_packet_size) :
    1 ≤ p.get_packet_size ∧
    p.get_payload_size =
      4 * (p.get_packet_size - p.get_field_offset VS49_FIELD.PAYLOAD - p.has_trailer.toNat) ∧
    p.get_payload_size ≤ 4 * p.get_packet_size ∧
    (p.has_stream_id = true → p.get_field_offset VS49_FIELD.STREAM_ID < p.get_packet_size) ∧
    (p.has_class_id = true →
      p.get_field_offset VS49_FIELD.CLASS_ID + 1 < p.get_packet_size) ∧
    (p.get_integer_timestamp_type ≠ TSI_NONE →
      p.get_field_offset VS49_FIELD.TSI < p.get_packet_size) ∧
    (p.get_fractional_timestamp_type ≠ TSF_NONE →
      p.get_field_offset VS49_FIELD.TSF + 1 < p.get_packet_size) ∧
    (p.has_trailer = true → p.get_field_offset VS49_FIELD.TRAILER < p.get_packet_size) ∧
    p.get_field_offset VS49_FIELD.PAYLOAD + p.get_payload_size / 4 + p.has_trailer.toNat =
      p.get_packet_size ∧
    ∀ q : VRTPacketImpl,
      q.m_packet_data.take p.get_packet_size = p.m_packet_data.take p.get_packet_size →
      q.view = p.view := by
  obtain ⟨h1, hps, hs, hc, hi, hf, htr⟩ := covered_offsets p hcover
  have hpo : p.get_field_offset VS49_FIELD.PAYLOAD ≤ p.get_packet_size := by omega
  refine ⟨h1, hps, by rw [hps]; omega, fun h => lt_of_lt_of_le (hs h) hpo,
    fun h => lt_of_lt_of_le (hc h) hpo, fun h => lt_of_lt_of_le (hi h) hpo,
    fun h => lt_of_lt_of_le (hf h) hpo, fun _ => by rw [htr]; omega, by rw [hps]; omega,
    fun q hq => covered_view_congr p q hcover hq⟩

end Vita49

namespace Pico

open Vita49

theorem stray_header_payload_size (rest : List Nat) :
    VRTPacketImpl.get_payload_size { m_packet_data := 0x10000001 :: rest } = 2 ^ 64 - 4 := by
  have h := (header_congr { m_packet_data := [0x10000001] }
    { m_packet_data := 0x10000001 :: rest } rfl).2.2.2.2.2.2.2.2.2.2
  rw [h]
  decide

/-- A type-1 header of packet size 1 is never admitted in a state that
satisfies the invariant: its payload size wraps to `2^64 - 4`, and the
capacity check fails for every fill count of the active buffer. -/
theorem stray_header_not_admitted (st : complex_manager) (hok : state_ok st) (rest : List Nat)
    (m' : List buffer_manager) (loss : Bool) (job : Job) :
    handle_packet st.m_mang { m_packet_data := 0x10000001 :: rest } ≠
      PacketOutcome.admitted m' loss job := by
  intro h
  obtain ⟨sid, bm, _, _, hbm, _, hcap, _⟩ := handle_packet_admitted _ _ _ _ _ h
  have hokb := hok.1 bm (mem_of_get? _ _ _ hbm)
  have hc := to_size_t_of_nonneg (at2 bm.out_count bm.out_pointer) hokb.1
    (by have := hokb.2.1; unfold buffer_manager.active_count NUM_COMPLEX at this; omega)
  rw [stray_header_payload_size] at hcap
  have h1 := hokb.1
  have h2 := hokb.2.1
  unfold buffer_manager.active_count at h1 h2
  unfold SIZE_MOD NUM_COMPLEX at *
  omega

end Pico

namespace Vita49

/-- C29: `VRTPacket::parse` does not guarantee that the fields of a packet lie
inside it. The header `0x10000001` (type 1, so a stream id is present; packet
size 1) is accepted in a window of 4 bytes: the size check compares the packet
size with the window and not with the fields that the header announces. The
payload offset is 2, larger than the packet size; `get_stream_id` returns
word 1, which lies behind the packet (it follows whatever is stored there);
`get_payload_size` wraps to `2^64 - 4`. The packet arrives in the five-word
read `VRLP, 4, 0x10000001, 0, 0`: `VRLFrame::parse` returns a frame with this
one packet, whose stream id is read from the frame trailer. With that payload
size the capacity check of the demultiplexer defers the packet, and in every
state that the manager reaches from its constructor the packet is not
admitted: the step leaves the state as it was. -/
theorem C29_fields_outside_packet :
    VRTPacket.parse [0x10000001, 77] 4 = Except.ok { m_packet_data := [0x10000001, 77] } ∧
    VRTPacketImpl.get_packet_size { m_packet_data := [0x10000001, 77] } = 1 ∧
    VRTPacketImpl.has_stream_id { m_packet_data := [0x10000001, 77] } = true ∧
    VRTPacketImpl.get_field_offset { m_packet_data := [0x10000001, 77] } VS49_FIELD.STREAM_ID =
      1 ∧
    VRTPacketImpl.get_field_offset { m_packet_data := [0x10000001, 77] } VS49_FIELD.PAYLOAD =
      2 ∧
    VRTPacketImpl.get_stream_id { m_packet_data := [0x10000001, 77] } = Except.ok 77 ∧
    VRTPacketImpl.get_stream_id { m_packet_data := [0x10000001, 78] } = Except.ok 78 ∧
    VRTPacketImpl.get_payload_size { m_packet_data := [0x10000001, 77] } = 2 ^ 64 - 4 ∧
    VRLFrame.parse [0x56524C50, 4, 0x10000001, 0, 0] 20 =
      some ⟨some 0, Except.ok
        { m_frame_data := [0x56524C50, 4, 0x10000001, 0, 0]
          m_packets := [{ m_packet_data := [0x10000001, 0, 0] }] }⟩ ∧
    (match Pico.handle_packet Pico.sample_valid_state.m_mang
        { m_packet_data := [0x10000001, 0, 0] } with
      | Pico.PacketOutcome.deferred => true
      | _ => false) = true ∧
    ∀ (n u : Nat) (events : List Pico.Event) (rest : List Nat),
      Pico.step (Pico.run (Pico.initial_state n u) events)
          (Pico.Event.packet { m_packet_data := 0x10000001 :: rest }) =
        Pico.run (Pico.initial_state n u) events := by
  refine ⟨by decide, by decide, by decide, by decide, by decide, by decide, by decide,
    by decide, by decide, by decide, ?_⟩
  intro n u events rest
  exact Pico.step_packet_other _ _ (Pico.stray_header_not_admitted _
    (Pico.state_ok_run events _ (Pico.state_ok_initial n u)) rest)

end Vita49

namespace Pico

open Vita49

/-! ## `fill_buffers` on a requested channel that is not valid -/

/-- C30: `fill_buffers` does not preserve the buffer invariant for a requested
channel that is not valid. In the state left by the constructor the only
channel is not valid, its unread count and read cursor are 0 and no
reconfiguration is pending. The first loop takes the minimum over the valid
channels only, so `min` stays `count = 10`; the copy loop has no validity
test, so for tuner 1 it copies 10 samples, and the unread count of the channel
becomes -10 while its read cursor becomes 10. The call returns 10. -/
theorem C30_invalid_requested_channel :
    (initial_state 1 64).m_update_valid_streams = false ∧
    (initial_state 1 64).m_mang.map
      (fun b => (b.tuner_valid, b.unread_count, b.read_cursor)) = [(false, 0, 0)] ∧
    (fill_buffers (fun _ s => s) (initial_state 1 64) [1000] [1] 10).map
      (fun r => (r.ret, r.state.m_mang.map
        (fun b => (b.tuner_valid, b.unread_count, b.read_cursor)))) =
      some (10, [(false, -10, 10)]) ∧
    (fill_buffers (fun _ s => s) (initial_state 1 64) [1000] [1] 10).map
      (fun r => r.copies.map (fun c => c.map (fun tc => (tc.1, tc.2.length)))) =
      some [some (1000, 10)] := by
  refine ⟨by decide, by decide, by decide, by decide⟩

end Pico
